import Mathlib

/-!
# winrmcp: chunked upload over a remote command channel

A shallow embedding of `src/winrmcp/cp.go` and the properties of its
specification.

Modelling conventions

* Go `string` values are `String`; `len(s)` is `String.utf8ByteSize`.
* A Go `error` is identified with its message (`GoError`); `nil` is `none`.
* The external collaborators (the WinRM client, the uuid generator, the
  `io.Reader`) are oracles: `Env` answers the i-th call of each kind, `World`
  counts the calls made so far and records them in `trace`.
* A command line built with `fmt.Sprintf` is kept as its format string and
  operand list (`Command.sprintf`), exactly as the source passes them.
* The goroutine of `writeContentChannel` is embedded twice.  Both channels are
  unbuffered and the goroutine is sequential, so at every `select` of the
  producer exactly one case is ready: the send when the goroutine waits in
  `range input`, the receive when it waits in `errch <- ...`.
  The first part is the sequential reading: the goroutine runs up to its next
  blocking point after each producer step, before the deferred `shell.Close()`.
  It is one of the schedules of the code (`doCopy_eager_is_sequential`) and is
  used for what a run returns and for the contents of the commands it sends.
  The code does not join the goroutine, so the position of its requests among
  the others is not fixed.  The second part (`Sched`) keeps the goroutines as
  tasks that the environment schedules, tags every request with its shell, and
  is used for the properties that speak of the sessions' requests and of the
  order of the phases; they are proved for every schedule.
* Where the source does not type-check the evident reading is used: the
  two-value returns of `writeContentChannel` return the channels and the error,
  `filePath` inside it is its parameter `filepath`, and the `Remove-Variable`
  command is run on `shell`.
* Debug logging (`WINRMCP_DEBUG`, `log.Printf`) has no effect on control flow
  and is left out.
-/

namespace Winrmcp

/-! ## Bytes, errors, outcomes -/

abbrev Byte := Fin 256

abbrev GoError := String

/-- Result of running a Go function: it returns a value or panics. -/
inductive Outcome (α : Type) where
  | ret (a : α)
  | panic (msg : String)
deriving DecidableEq, Repr

/-! ## `encoding/base64`, `StdEncoding` (RFC 4648, padded) -/

/-- The alphabet of `base64.StdEncoding`. -/
def encodeStd : List Char :=
  "ABCDEFGHIJKLMNOPQRSTUVWXYZabcdefghijklmnopqrstuvwxyz0123456789+/".data

/-- Character of a 6-bit value. -/
def b64Char (i : Nat) : Char := encodeStd.getD i 'A'

/-- The 6-bit value of a character of the alphabet. -/
def b64Val (c : Char) : Option Nat :=
  if c ∈ encodeStd then some (encodeStd.indexOf c) else none

/-- Characters of `base64.StdEncoding.EncodeToString`: three bytes give four
characters, a final group of one or two bytes is padded with `=`. -/
def encodeChars : List Byte → List Char
  | [] => []
  | [a] => [b64Char (a.val / 4), b64Char (a.val % 4 * 16), '=', '=']
  | [a, b] =>
    [b64Char (a.val / 4), b64Char (a.val % 4 * 16 + b.val / 16), b64Char (b.val % 16 * 4), '=']
  | a :: b :: c :: rest =>
    b64Char (a.val / 4) :: b64Char (a.val % 4 * 16 + b.val / 16) ::
      b64Char (b.val % 16 * 4 + c.val / 64) :: b64Char (c.val % 64) :: encodeChars rest

/-- Model of `base64.StdEncoding.EncodeToString`. -/
def encodeToString (bs : List Byte) : String := String.mk (encodeChars bs)

/-- Byte with the given value (reduced modulo 256). -/
def toByte (n : Nat) : Byte := ⟨n % 256, Nat.mod_lt n (by decide)⟩

/-- Standard base64 decoding of a character list; padding is accepted only in the
last group of four. -/
def decodeChars : List Char → Option (List Byte)
  | [] => some []
  | [c0, c1, c2, c3] =>
    if c3 = '=' then
      if c2 = '=' then
        match b64Val c0, b64Val c1 with
        | some s0, some s1 => some [toByte (s0 * 4 + s1 / 16)]
        | _, _ => none
      else
        match b64Val c0, b64Val c1, b64Val c2 with
        | some s0, some s1, some s2 =>
          some [toByte (s0 * 4 + s1 / 16), toByte (s1 % 16 * 16 + s2 / 4)]
        | _, _, _ => none
    else
      match b64Val c0, b64Val c1, b64Val c2, b64Val c3 with
      | some s0, some s1, some s2, some s3 =>
        some [toByte (s0 * 4 + s1 / 16), toByte (s1 % 16 * 16 + s2 / 4), toByte (s2 % 4 * 64 + s3)]
      | _, _, _, _ => none
  | c0 :: c1 :: c2 :: c3 :: rest =>
    match b64Val c0, b64Val c1, b64Val c2, b64Val c3, decodeChars rest with
    | some s0, some s1, some s2, some s3, some bs =>
      some (toByte (s0 * 4 + s1 / 16) :: toByte (s1 % 16 * 16 + s2 / 4) ::
        toByte (s2 % 4 * 64 + s3) :: bs)
    | _, _, _, _, _ => none
  | _ => none

/-- Standard base64 decoding (`[System.Convert]::FromBase64String` on text without
white space). -/
def decodeString (s : String) : Option (List Byte) := decodeChars s.data

/-! ## The `io.Reader` -/

/-- Error of a `Read`: `io.EOF` or any other error. -/
inductive ReadErr where
  | eof
  | other (msg : GoError)
deriving DecidableEq, Repr

/-- A byte source behind `io.Reader`.  `data` is what has not been delivered yet;
`caps` bounds the next reads (the i-th next read delivers at most `caps[i] + 1`
bytes, reads beyond the list are limited by the buffer only); `fault` makes the
read after the given number of reads fail; `eofWithData` makes the read that
delivers the last bytes report `io.EOF` together with them. -/
structure Reader where
  data : List Byte
  caps : List Nat := []
  fault : Option (Nat × GoError) := none
  eofWithData : Bool := false
deriving DecidableEq, Repr

/-- What one `Read` gives back: the bytes `p[:n]`, the error, the reader after it. -/
structure ReadResult where
  bytes : List Byte
  err : Option ReadErr
  reader : Reader
deriving DecidableEq, Repr

/-- Number of bytes the next read may deliver at most, buffer aside. -/
def Reader.cap (r : Reader) : Nat :=
  match r.caps with
  | [] => r.data.length
  | c :: _ => min (c + 1) r.data.length

/-- The fault counter after one more read. -/
def Reader.nextFault (r : Reader) : Option (Nat × GoError) :=
  r.fault.map fun f => (f.1 - 1, f.2)

/-- One call `reader.Read(p)` with `len(p) = bufLen`. -/
def Reader.read (r : Reader) (bufLen : Nat) : ReadResult :=
  match r.fault with
  | some (0, msg) => ⟨[], some (ReadErr.other msg), r⟩
  | _ =>
    match r.data with
    | [] => ⟨[], some ReadErr.eof, { r with caps := r.caps.tail, fault := r.nextFault }⟩
    | _ :: _ =>
      let n := min bufLen r.cap
      let rest := r.data.drop n
      ⟨r.data.take n,
       if rest.isEmpty && r.eofWithData then some ReadErr.eof else none,
       { r with data := rest, caps := r.caps.tail, fault := r.nextFault }⟩

/-! ## The remote command channel -/

/-- Operand of a `fmt.Sprintf` call. -/
inductive Arg where
  | str (s : String)
  | bool (b : Bool)
deriving DecidableEq, Repr

/-- A command handed to `shell.Execute`. -/
inductive Command where
  | sprintf (format : String) (args : List Arg)
  | restoreScript (fromPath toPath : String)
  | cleanupScript (filePath : String)
deriving DecidableEq, Repr

/-- What `shell.Execute` followed by `cmd.ExitCode()` gives: the submission fails,
or the command runs and exits with a code. -/
inductive ExecOutcome where
  | submitError (msg : GoError)
  | exit (code : Int)
deriving DecidableEq, Repr

/-- An interaction with the WinRM client. -/
inductive Event where
  | createShell (err : Option GoError)
  | closeShell
  | execute (cmd : Command) (out : ExecOutcome)
deriving DecidableEq, Repr

/-- Behaviour of the collaborators: the answer to the i-th `CreateShell`, the i-th
`Execute` and the i-th `uuid.NewV4` (the text of the uuid, or an error). -/
structure Env where
  createShell : Nat → Option GoError
  execute : Nat → ExecOutcome
  newV4 : Nat → Except GoError String

/-- Calls made so far and their record. -/
structure World where
  shells : Nat := 0
  execs : Nat := 0
  uuids : Nat := 0
  trace : List Event := []
deriving DecidableEq, Repr

/-- The call `client.CreateShell()`. -/
def createShell (env : Env) (w : World) : Option GoError × World :=
  (env.createShell w.shells,
   { w with shells := w.shells + 1
            trace := w.trace ++ [Event.createShell (env.createShell w.shells)] })

/-- The call `shell.Close()`. -/
def closeShell (w : World) : World :=
  { w with trace := w.trace ++ [Event.closeShell] }

/-- The call `shell.Execute(command)` with the exit code read after `cmd.Wait()`. -/
def execute (env : Env) (w : World) (cmd : Command) : ExecOutcome × World :=
  (env.execute w.execs,
   { w with execs := w.execs + 1
            trace := w.trace ++ [Event.execute cmd (env.execute w.execs)] })

/-- The call `uuid.NewV4()` rendered with `String()`. -/
def newV4 (env : Env) (w : World) : Except GoError String × World :=
  (env.newV4 w.uuids, { w with uuids := w.uuids + 1 })

/-- Rendering of an `int` by the verb `%d`. -/
def fmtInt (c : Int) : String := toString c

/-- Source function `executeCommandSync`. -/
def executeCommandSync (env : Env) (w : World) (command : Command) : Option GoError × World :=
  match execute env w command with
  | (ExecOutcome.submitError err, w1) => (some err, w1)
  | (ExecOutcome.exit code, w1) =>
    if code ≠ 0 then (some ("upload operation returned code=" ++ fmtInt code), w1)
    else (none, w1)

/-- Source function `tempVariable`: the uuid without its dashes after the prefix. -/
def tempVariable (env : Env) (w : World) (pre : String) : Except GoError String × World :=
  match newV4 env w with
  | (Except.error err, w1) => (Except.error err, w1)
  | (Except.ok uniquePart, w1) =>
    (Except.ok (pre ++ String.mk (uniquePart.data.filter fun c => c ≠ '-')), w1)

/-- Source function `tempFileName`. -/
def tempFileName (env : Env) (w : World) : Except GoError String × World :=
  match newV4 env w with
  | (Except.error err, w1) => (Except.error err, w1)
  | (Except.ok uniquePart, w1) => (Except.ok ("winrmcp-" ++ uniquePart ++ ".tmp"), w1)

/-! ## The transmission pipeline (`writeContentChannel`) -/

/-- Where the consumer goroutine stands: waiting in `range input`, waiting in
`errch <- err` with the error it wants to deliver, or past `close(errch)`. -/
inductive Consumer where
  | receiving
  | blocked (err : GoError)
  | finished
deriving DecidableEq, Repr

/-- The channel pair returned by `writeContentChannel` with the goroutine behind it. -/
structure Pipe where
  streamVariable : String
  filePath : String
  consumer : Consumer
deriving DecidableEq, Repr

/-- Command of line 273, the construction of the `StreamWriter`. -/
def newStreamWriterCmd (streamVariable filePath : String) (appendTo : Bool) : Command :=
  Command.sprintf "$%s = New-Object -TypeName System.IO.StreamWriter %#v, $%v, %s"
    [Arg.str streamVariable, Arg.str filePath, Arg.bool appendTo,
     Arg.str "[System.Text.Encoding]::UTF8"]

/-- Command of line 287: the format has two verbs, the call passes `content` only. -/
def writeCmd (content : String) : Command :=
  Command.sprintf "$%s.Write(%#v)" [Arg.str content]

/-- Command of line 295. -/
def closeCmd (streamVariable : String) : Command :=
  Command.sprintf "$%s.Close()" [Arg.str streamVariable]

/-- Command of line 299. -/
def disposeCmd (streamVariable : String) : Command :=
  Command.sprintf "$%s.Dispose($true)" [Arg.str streamVariable]

/-- Command of line 304. -/
def removeVariableCmd (streamVariable : String) : Command :=
  Command.sprintf "Remove-Variable -Name %s" [Arg.str streamVariable]

/-- Source function `writeContentChannel` up to the start of the goroutine. -/
def writeContentChannel (env : Env) (w : World) (filepath : String) (appendTo : Bool) :
    Except GoError Pipe × World :=
  match tempVariable env w "stream_" with
  | (Except.error err, w1) => (Except.error err, w1)
  | (Except.ok streamVariable, w1) =>
    match executeCommandSync env w1 (newStreamWriterCmd streamVariable filepath appendTo) with
    | (some err, w2) => (Except.error err, w2)
    | (none, w2) => (Except.ok ⟨streamVariable, filepath, Consumer.receiving⟩, w2)

/-- Lines 293-308 of the goroutine: close, dispose, remove the variable; a failure
is logged only. -/
def teardown (env : Env) (w : World) (p : Pipe) : World :=
  let w1 := (executeCommandSync env w (closeCmd p.streamVariable)).2
  let w2 := (executeCommandSync env w1 (disposeCmd p.streamVariable)).2
  (executeCommandSync env w2 (removeVariableCmd p.streamVariable)).2

/-- Result of the `select` of lines 114-121. -/
inductive Selected where
  | sent
  | received (err : Option GoError)
deriving DecidableEq, Repr

/-- The `select` of lines 114-121.  A receiving goroutine takes the content and runs
its write command, blocking in `errch <- ...` when that fails; a blocked goroutine
hands its error over, breaks out of its loop and tears down; on a closed `errch`
the receive yields `nil`. -/
def select (env : Env) (w : World) (p : Pipe) (content : String) : Selected × World × Pipe :=
  match p.consumer with
  | Consumer.receiving =>
    match executeCommandSync env w (writeCmd content) with
    | (none, w1) => (Selected.sent, w1, p)
    | (some err, w1) =>
      let wrapped := "Error writing to stream for temporary file " ++ p.filePath ++ ": " ++ err
      (Selected.sent, w1, { p with consumer := Consumer.blocked wrapped })
  | Consumer.blocked err =>
    (Selected.received (some err), teardown env w p, { p with consumer := Consumer.finished })
  | Consumer.finished => (Selected.received none, w, p)

/-- The deferred `close(outCh)`: a receiving goroutine leaves its loop and tears
down; a goroutine blocked in `errch <- ...` stays there, nobody receives any more.
In this sequential reading the teardown is run here, before `shell.Close()`; the
code does not wait for it (see `Sched`). -/
def closeOut (env : Env) (w : World) (p : Pipe) : World × Pipe :=
  match p.consumer with
  | Consumer.receiving => (teardown env w p, { p with consumer := Consumer.finished })
  | Consumer.blocked _ => (w, p)
  | Consumer.finished => (w, p)

/-! ## `uploadChunks`, `uploadContent` -/

/-- Line 84: `chunkSize := ((8000 - len(filePath)) / 4) * 3`, the division
truncating toward zero. -/
def chunkSize (filePath : String) : Int :=
  Int.tdiv (8000 - (filePath.utf8ByteSize : Int)) 4 * 3

/-- The loop of lines 102-123; the first argument is `maxChunks - i`. -/
def chunkLoop (env : Env) (bufLen : Nat) :
    Nat → World → Pipe → Reader → (Bool × Option GoError) × World × Pipe × Reader
  | 0, w, p, r => ((false, none), w, p, r)
  | n + 1, w, p, r =>
    let rd := r.read bufLen
    match rd.err with
    | some (ReadErr.other err) => ((false, some err), w, p, rd.reader)
    | _ =>
      if rd.bytes.length = 0 then ((true, none), w, p, rd.reader)
      else
        match select env w p (encodeToString rd.bytes) with
        | (Selected.sent, w1, p1) => chunkLoop env bufLen n w1 p1 rd.reader
        | (Selected.received err, w1, p1) => ((false, err), w1, p1, rd.reader)

/-- Source function `uploadChunks`: one session.  `make([]byte, chunkSize)` panics
on a negative length; the deferred calls run in reverse order on every exit. -/
def uploadChunks (env : Env) (w : World) (filePath : String) (maxChunks : Int) (reader : Reader) :
    Outcome (Bool × Option GoError) × World × Reader :=
  match createShell env w with
  | (some err, w1) => (Outcome.ret (false, some ("Couldn't create shell: " ++ err)), w1, reader)
  | (none, w1) =>
    if chunkSize filePath < 0 then
      (Outcome.panic "runtime error: makeslice: len out of range", closeShell w1, reader)
    else
      let maxChunks1 := if maxChunks = 0 then 1 else maxChunks
      match writeContentChannel env w1 filePath false with
      | (Except.error err, w2) =>
        (Outcome.ret (false, some ("Unable to write to file with shell: " ++ err)),
         closeShell w2, reader)
      | (Except.ok pipe, w2) =>
        match chunkLoop env (chunkSize filePath).toNat maxChunks1.toNat w2 pipe reader with
        | (res, w3, pipe1, reader1) =>
          (Outcome.ret res, closeShell (closeOut env w3 pipe1).1, reader1)

/-- Source function `uploadContent`.  The loop `for !done` has no bound of its own:
`none` means that the given number of sessions did not finish it. -/
def uploadContent (env : Env) :
    Nat → World → Int → String → Reader → Option (Outcome (Option GoError) × World × Reader)
  | 0, _, _, _, _ => none
  | fuel + 1, w, maxChunks, filePath, reader =>
    match uploadChunks env w filePath maxChunks reader with
    | (Outcome.panic msg, w1, reader1) => some (Outcome.panic msg, w1, reader1)
    | (Outcome.ret (_, some err), w1, reader1) => some (Outcome.ret (some err), w1, reader1)
    | (Outcome.ret (true, none), w1, reader1) => some (Outcome.ret none, w1, reader1)
    | (Outcome.ret (false, none), w1, reader1) => uploadContent env fuel w1 maxChunks filePath reader1

/-! ## `restoreContent`, `cleanupContent`, `doCopy` -/

/-- Source function `restoreContent`. -/
def restoreContent (env : Env) (w : World) (fromPath toPath : String) : Option GoError × World :=
  match createShell env w with
  | (some err, w1) => (some err, w1)
  | (none, w1) =>
    match execute env w1 (Command.restoreScript fromPath toPath) with
    | (ExecOutcome.submitError err, w2) => (some err, closeShell w2)
    | (ExecOutcome.exit code, w2) =>
      if code ≠ 0 then (some ("restore operation returned code=" ++ fmtInt code), closeShell w2)
      else (none, closeShell w2)

/-- Source function `cleanupContent`. -/
def cleanupContent (env : Env) (w : World) (filePath : String) : Option GoError × World :=
  match createShell env w with
  | (some err, w1) => (some err, w1)
  | (none, w1) =>
    match execute env w1 (Command.cleanupScript filePath) with
    | (ExecOutcome.submitError err, w2) => (some err, closeShell w2)
    | (ExecOutcome.exit code, w2) =>
      if code ≠ 0 then (some ("cleanup operation returned code=" ++ fmtInt code), closeShell w2)
      else (none, closeShell w2)

/-- Source function `doCopy`; `maxOperationsPerShell` is `config.MaxOperationsPerShell`.
The first argument bounds the sessions of the upload phase. -/
def doCopy (env : Env) (fuel : Nat) (w : World) (maxOperationsPerShell : Int) (reader : Reader)
    (toPath : String) : Option (Outcome (Option GoError) × World × Reader) :=
  match tempFileName env w with
  | (Except.error err, w1) =>
    some (Outcome.ret (some ("Error generating unique filename: " ++ err)), w1, reader)
  | (Except.ok tempFile, w1) =>
    let tempPath := "$env:TEMP\\" ++ tempFile
    match uploadContent env fuel w1 maxOperationsPerShell ("%TEMP%\\" ++ tempFile) reader with
    | none => none
    | some (Outcome.panic msg, w2, reader1) => some (Outcome.panic msg, w2, reader1)
    | some (Outcome.ret (some err), w2, reader1) =>
      some (Outcome.ret (some ("Error uploading file to " ++ tempPath ++ ": " ++ err)), w2, reader1)
    | some (Outcome.ret none, w2, reader1) =>
      match restoreContent env w2 tempPath toPath with
      | (some err, w3) =>
        some (Outcome.ret (some ("Error restoring file from " ++ tempPath ++ " to " ++ toPath
          ++ ": " ++ err)), w3, reader1)
      | (none, w3) =>
        match cleanupContent env w3 tempPath with
        | (some err, w4) =>
          some (Outcome.ret (some ("Error removing temporary file " ++ tempPath ++ ": " ++ err)),
            w4, reader1)
        | (none, w4) => some (Outcome.ret none, w4, reader1)

/-! ## Reading the trace -/

/-- The content a command of line 287 carries, if the command is one. -/
def Command.written : Command → Option String
  | Command.sprintf format [Arg.str content] =>
    if format = "$%s.Write(%#v)" then some content else none
  | _ => none

/-- The strings accepted on the content channel, in send order: each accepted send
makes the goroutine run one command of line 287. -/
def sentContents : List Event → List String
  | [] => []
  | Event.execute cmd _ :: es =>
    match cmd.written with
    | some content => content :: sentContents es
    | none => sentContents es
  | _ :: es => sentContents es

/-- The `appendTo` operand a command of line 273 carries, if the command is one. -/
def Command.appendFlag : Command → Option Bool
  | Command.sprintf format [Arg.str _, Arg.str _, Arg.bool b, Arg.str _] =>
    if format = "$%s = New-Object -TypeName System.IO.StreamWriter %#v, $%v, %s" then some b
    else none
  | _ => none

/-- The `appendTo` operands of the stream-writer constructions of a trace. -/
def appendFlags : List Event → List Bool
  | [] => []
  | Event.execute cmd _ :: es =>
    match cmd.appendFlag with
    | some b => b :: appendFlags es
    | none => appendFlags es
  | _ :: es => appendFlags es

/-- Whether a chunk-write command of the trace ended with a nonzero exit code. -/
def writeFailed : List Event → Bool
  | [] => false
  | Event.execute cmd (ExecOutcome.exit code) :: es =>
    (cmd.written.isSome && decide (code ≠ 0)) || writeFailed es
  | _ :: es => writeFailed es

/-! ## The remote host -/

/-- What is at the destination path. -/
inductive Dest where
  | absent
  | directory
  | file (bytes : List Byte)
deriving DecidableEq, Repr

/-- The remote host as far as the protocol touches it: the text of the temp file
(`none` when there is none), the destination, the stream-writer variables alive in
the open session.  The two spellings of the temp path (`%TEMP%` for the upload,
`$env:TEMP` for the scripts) name the same file. -/
structure Remote where
  temp : Option (List Char) := none
  dest : Dest := Dest.absent
  streams : List String := []
deriving DecidableEq, Repr

/-- Lines as `StreamReader.ReadLine` delivers them: ended by `\n`, `\r` or `\r\n`,
a last line needs no terminator.  `cur` is the line read so far, reversed. -/
def readLinesAux : List Char → List Char → Bool → List (List Char)
  | [], cur, _ => if cur.isEmpty then [] else [cur.reverse]
  | c :: rest, cur, afterCR =>
    if c = '\n' then
      if afterCR && cur.isEmpty then readLinesAux rest [] false
      else cur.reverse :: readLinesAux rest [] false
    else if c = '\r' then cur.reverse :: readLinesAux rest [] true
    else readLinesAux rest (c :: cur) false

/-- The lines of a text. -/
def readLines (text : List Char) : List (List Char) := readLinesAux text [] false

/-- The loop of the restore script: decode each line, append the bytes; a line that
does not decode ends the loop with an exception. -/
def decodeLines : List (List Char) → List Byte → Bool × List Byte
  | [], acc => (true, acc)
  | l :: ls, acc =>
    match decodeChars l with
    | some bs => decodeLines ls (acc ++ bs)
    | none => (false, acc)

/-- The restore script (lines 133-166): exit code and effect. -/
def runRestoreScript (fs : Remote) : Int × Remote :=
  match fs.dest with
  | Dest.directory => (1, fs)
  | _ =>
    match fs.temp with
    | some text =>
      match decodeLines (readLines text) [] with
      | (true, bytes) => (0, { fs with dest := Dest.file bytes })
      | (false, bytes) => (1, { fs with dest := Dest.file bytes })
    | none => (0, { fs with dest := Dest.file [] })

/-- The cleanup script (lines 200-205). -/
def runCleanupScript (fs : Remote) : Int × Remote := (0, { fs with temp := none })

/-- Effect of a command that ran to exit code 0.  A `StreamWriter` opened with
`append = false` overwrites the file, with `append = true` it keeps what is there;
`Write` adds the text without a line terminator.  The write command of line 287
carries one operand where its format has two verbs; with `lenient` the host
takes that operand as text for the stream of the open session, without it the
command touches no stream. -/
def applyCommand (lenient : Bool) (fs : Remote) : Command → Remote
  | Command.restoreScript _ _ => (runRestoreScript fs).2
  | Command.cleanupScript _ => (runCleanupScript fs).2
  | Command.sprintf format args =>
    if format = "$%s = New-Object -TypeName System.IO.StreamWriter %#v, $%v, %s" then
      match args with
      | [Arg.str v, Arg.str _, Arg.bool appendTo, Arg.str _] =>
        { fs with temp := some (if appendTo then fs.temp.getD [] else [])
                  streams := v :: fs.streams }
      | _ => fs
    else if format = "$%s.Write(%#v)" then
      match args with
      | [Arg.str v, Arg.str content] =>
        if v ∈ fs.streams then { fs with temp := some (fs.temp.getD [] ++ content.data) } else fs
      | [Arg.str content] =>
        if lenient && !fs.streams.isEmpty then
          { fs with temp := some (fs.temp.getD [] ++ content.data) }
        else fs
      | _ => fs
    else if format = "Remove-Variable -Name %s" then
      match args with
      | [Arg.str v] => { fs with streams := fs.streams.erase v }
      | _ => fs
    else fs

/-- The host after the commands of a trace; closing a shell ends its variables. -/
def replay (lenient : Bool) : List Event → Remote → Remote
  | [], fs => fs
  | Event.execute cmd (ExecOutcome.exit code) :: es, fs =>
    if code = 0 then replay lenient es (applyCommand lenient fs cmd) else replay lenient es fs
  | Event.closeShell :: es, fs => replay lenient es { fs with streams := [] }
  | _ :: es, fs => replay lenient es fs

/-- Collaborators that never fail: every shell opens, every command exits with 0,
every uuid is generated. -/
def okEnv : Env where
  createShell := fun _ => none
  execute := fun _ => ExecOutcome.exit 0
  newV4 := fun _ => Except.ok "123e4567-e89b-42d3-a456-426614174000"

/-- Collaborators that never fail, except that the command with the given index
exits with the given code. -/
def failingEnv (index : Nat) (code : Int) : Env where
  createShell := fun _ => none
  execute := fun i => if i = index then ExecOutcome.exit code else ExecOutcome.exit 0
  newV4 := fun _ => Except.ok "123e4567-e89b-42d3-a456-426614174000"

/-- A reader over a byte sequence that fills the buffer whenever it can. -/
def bytesReader (src : List Byte) : Reader := { data := src }

/-- Transmit then restore: `doCopy` on a source against a host with no temp file and
no destination, collaborators that never fail; the destination afterwards. -/
def copyToRemote (lenient : Bool) (fuel : Nat) (maxChunks : Int) (src : List Byte) : Option Dest :=
  match doCopy okEnv fuel {} maxChunks (bytesReader src) "C:\\dest.bin" with
  | some (_, w, _) => some (replay lenient w.trace {}).dest
  | none => none

/-! ## Notions used to state the properties -/

/-- Collaborators that never fail: every shell opens, every command runs and exits
with 0, every uuid is generated. -/
def Env.Good (env : Env) : Prop :=
  (∀ i, env.createShell i = none) ∧ (∀ i, env.execute i = ExecOutcome.exit 0) ∧
    ∀ i, ∃ u, env.newV4 i = Except.ok u

/-- The events a session of the upload phase can leave in the trace for a temp file
path and a chunk buffer of `bufLen` bytes: shells opened and closed, the
stream-writer construction with `appendTo = false`, the write of the encoding of
between 1 and `bufLen` bytes, the three commands of the teardown. -/
def UploadEvent (filePath : String) (bufLen : Nat) : Event → Prop
  | Event.createShell _ => True
  | Event.closeShell => True
  | Event.execute cmd _ =>
    (∃ v, cmd = newStreamWriterCmd v filePath false) ∨
    (∃ bytes : List Byte, 0 < bytes.length ∧ bytes.length ≤ bufLen ∧
      cmd = writeCmd (encodeToString bytes)) ∨
    (∃ v, cmd = closeCmd v ∨ cmd = disposeCmd v ∨ cmd = removeVariableCmd v)

/-- The non-empty results of up to `n` successive reads, whether a read of zero
bytes ended them, and the reader afterwards. -/
def readN (bufLen : Nat) : Nat → Reader → List (List Byte) × Bool × Reader
  | 0, r => ([], false, r)
  | n + 1, r =>
    if (r.read bufLen).bytes.length = 0 then ([], true, (r.read bufLen).reader)
    else
      ((r.read bufLen).bytes :: (readN bufLen n (r.read bufLen).reader).1,
       (readN bufLen n (r.read bufLen).reader).2)

/-- Decode each string and concatenate the results in order. -/
def decodeAll : List String → Option (List Byte)
  | [] => some []
  | s :: ss =>
    match decodeString s, decodeAll ss with
    | some a, some b => some (a ++ b)
    | _, _ => none

/-- The events of a session that sends the given chunks while nothing fails. -/
def sessionEvents (streamVariable filePath : String) (chunks : List (List Byte)) : List Event :=
  [Event.createShell none,
   Event.execute (newStreamWriterCmd streamVariable filePath false) (ExecOutcome.exit 0)] ++
  chunks.map (fun c => Event.execute (writeCmd (encodeToString c)) (ExecOutcome.exit 0)) ++
  [Event.execute (closeCmd streamVariable) (ExecOutcome.exit 0),
   Event.execute (disposeCmd streamVariable) (ExecOutcome.exit 0),
   Event.execute (removeVariableCmd streamVariable) (ExecOutcome.exit 0),
   Event.closeShell]

/-- Number of chunks a source of `len` bytes needs with a buffer of `bufLen` bytes. -/
def chunksNeeded (len bufLen : Nat) : Nat := (len + bufLen - 1) / bufLen

/-- The trace `t'` is `t` followed by events that all satisfy `P`. -/
def TraceGrows (P : Event → Prop) (t t' : List Event) : Prop :=
  ∃ new, t' = t ++ new ∧ ∀ e ∈ new, P e

/-- The world after `doCopy` has generated the temp name and uploaded an empty source
in one session while nothing failed: two uuids drawn, one shell, four commands. -/
def afterEmptyUpload : World where
  shells := 1
  execs := 4
  uuids := 2
  trace :=
    [Event.createShell none,
     Event.execute (newStreamWriterCmd "stream_123e4567e89b42d3a456426614174000"
       "%TEMP%\\winrmcp-123e4567-e89b-42d3-a456-426614174000.tmp" false) (ExecOutcome.exit 0),
     Event.execute (closeCmd "stream_123e4567e89b42d3a456426614174000") (ExecOutcome.exit 0),
     Event.execute (disposeCmd "stream_123e4567e89b42d3a456426614174000") (ExecOutcome.exit 0),
     Event.execute (removeVariableCmd "stream_123e4567e89b42d3a456426614174000")
       (ExecOutcome.exit 0),
     Event.closeShell]

/-! ## The goroutine scheduled by the environment

`cp.go` never joins the goroutine of `writeContentChannel`: `defer close(outCh)`
(l.98) and `defer shell.Close()` (l.71) do not wait for it, and the producer reads
`errCh` only inside its `select` (l.119).  The requests the goroutine still has to
make when its session returns (the write of the last chunk, `Close`, `Dispose`,
`Remove-Variable`) are therefore made at any later time: after `shell.Close()`,
during later sessions, during restore and cleanup, or after `doCopy` has returned.

The definitions of `Sched` embed the same source with the goroutines as tasks of
the world.  The environment carries a schedule: before every request of the main
goroutine (a scheduling point) it names the tasks that take one step each.  The
`select` of the producer waits for the goroutine of its session to finish the
write it holds, as the unbuffered channels force.  Events carry the shell they go
to, and the outcome of a command is a function of its shell and of its position
among the commands of that shell. -/

namespace Sched

/-- An interaction with the WinRM client: the shell created (numbered in order of
creation), a shell closed, a command on a shell. -/
inductive Event where
  | createShell (shell : Nat) (err : Option GoError)
  | closeShell (shell : Nat)
  | execute (shell : Nat) (cmd : Command) (out : ExecOutcome)
deriving DecidableEq, Repr

/-- Behaviour of the collaborators and of the Go scheduler: the answer to the i-th
`CreateShell`, to the j-th command on shell i, to the i-th `uuid.NewV4`, and the
tasks that take a step at the i-th scheduling point. -/
structure Env where
  createShell : Nat → Option GoError
  execute : Nat → Nat → ExecOutcome
  newV4 : Nat → Except GoError String
  schedule : Nat → List Nat

/-- Where the goroutine of lines 285-309 stands: waiting in `range input`; holding a
content it received and has not written yet; waiting in `errch <- err`; about to run
`Close`, `Dispose`, `Remove-Variable`; past `close(errch)`. -/
inductive Stage where
  | receiving
  | holding (content : String)
  | blocked (err : GoError)
  | closing
  | disposing
  | removing
  | finished
deriving DecidableEq, Repr

/-- A goroutine started by `writeContentChannel`: its shell, its stream variable and
file path, the number of commands run on its shell so far, whether `outCh` has been
closed, its stage, and two records: the contents it has received from the channel
and the number of write commands it has issued. -/
structure Task where
  shell : Nat
  streamVariable : String
  filePath : String
  ran : Nat
  closed : Bool
  stage : Stage
  accepted : List String
  written : Nat
deriving DecidableEq, Repr

/-- Calls made so far, the goroutines started, and the record of the requests. -/
structure World where
  shells : Nat := 0
  uuids : Nat := 0
  points : Nat := 0
  tasks : List Task := []
  trace : List Event := []
deriving DecidableEq, Repr

/-- Source function `executeCommandSync` for the command with the given position on
a shell: the error it returns and the request it makes. -/
def executeCommandSync (env : Env) (shell index : Nat) (command : Command) :
    Option GoError × Event :=
  match env.execute shell index with
  | ExecOutcome.submitError err =>
    (some err, Event.execute shell command (ExecOutcome.submitError err))
  | ExecOutcome.exit code =>
    (if code ≠ 0 then some ("upload operation returned code=" ++ fmtInt code) else none,
     Event.execute shell command (ExecOutcome.exit code))

/-- Number of writes a task has received and not issued yet. -/
def Task.pending (t : Task) : Nat :=
  match t.stage with
  | Stage.holding _ => 1
  | _ => 0

/-- One step of the goroutine (lines 286-308): write the content it holds, then wait
for the next one, or leave the loop if `outCh` is closed, or wait in `errch <- ...`
if the write failed; after the loop run `Close`, `Dispose`, `Remove-Variable`, whose
failures are logged only.  A goroutine that waits takes no step. -/
def Task.step (env : Env) (t : Task) : Task × List Event :=
  match t.stage with
  | Stage.holding content =>
    match executeCommandSync env t.shell t.ran (writeCmd content) with
    | (none, e) =>
      ({ t with ran := t.ran + 1, written := t.written + 1,
                stage := if t.closed then Stage.closing else Stage.receiving }, [e])
    | (some err, e) =>
      let wrapped := "Error writing to stream for temporary file " ++ t.filePath ++ ": " ++ err
      ({ t with ran := t.ran + 1, written := t.written + 1, stage := Stage.blocked wrapped }, [e])
  | Stage.closing =>
    ({ t with ran := t.ran + 1, stage := Stage.disposing },
     [(executeCommandSync env t.shell t.ran (closeCmd t.streamVariable)).2])
  | Stage.disposing =>
    ({ t with ran := t.ran + 1, stage := Stage.removing },
     [(executeCommandSync env t.shell t.ran (disposeCmd t.streamVariable)).2])
  | Stage.removing =>
    ({ t with ran := t.ran + 1, stage := Stage.finished },
     [(executeCommandSync env t.shell t.ran (removeVariableCmd t.streamVariable)).2])
  | Stage.receiving => (t, [])
  | Stage.blocked _ => (t, [])
  | Stage.finished => (t, [])

/-- Apply a change to the i-th task. -/
def modifyAt (f : Task → Task) : List Task → Nat → List Task
  | [], _ => []
  | t :: ts, 0 => f t :: ts
  | t :: ts, i + 1 => t :: modifyAt f ts i

/-- The requests the i-th task makes in one step. -/
def eventsAt (env : Env) : List Task → Nat → List Event
  | [], _ => []
  | t :: _, 0 => (t.step env).2
  | _ :: ts, i + 1 => eventsAt env ts i

/-- The i-th task takes one step. -/
def stepTask (env : Env) (w : World) (i : Nat) : World :=
  { w with tasks := modifyAt (fun t => (t.step env).1) w.tasks i
           trace := w.trace ++ eventsAt env w.tasks i }

/-- The listed tasks take one step each, in order. -/
def stepAll (env : Env) : List Nat → World → World
  | [], w => w
  | i :: is, w => stepAll env is (stepTask env w i)

/-- A scheduling point: the tasks the schedule names take their steps. -/
def yield (env : Env) (w : World) : World :=
  stepAll env (env.schedule w.points) { w with points := w.points + 1 }

/-- The call `client.CreateShell()`; the shell gets the number of the call. -/
def createShell (env : Env) (w : World) : Except GoError Nat × World :=
  let w1 := yield env w
  (match env.createShell w1.shells with
   | some err => Except.error err
   | none => Except.ok w1.shells,
   { w1 with shells := w1.shells + 1
             trace := w1.trace ++ [Event.createShell w1.shells (env.createShell w1.shells)] })

/-- The call `shell.Close()`. -/
def closeShell (env : Env) (w : World) (shell : Nat) : World :=
  let w1 := yield env w
  { w1 with trace := w1.trace ++ [Event.closeShell shell] }

/-- The call `shell.Execute(command)` of the main goroutine, the first command on
its shell, with the exit code read after `cmd.Wait()`. -/
def execute (env : Env) (w : World) (shell : Nat) (cmd : Command) : ExecOutcome × World :=
  let w1 := yield env w
  (env.execute shell 0, { w1 with trace := w1.trace ++ [Event.execute shell cmd (env.execute shell 0)] })

/-- The call `uuid.NewV4()` rendered with `String()`. -/
def newV4 (env : Env) (w : World) : Except GoError String × World :=
  (env.newV4 w.uuids, { w with uuids := w.uuids + 1 })

/-- Source function `tempVariable`: the uuid without its dashes after the prefix. -/
def tempVariable (env : Env) (w : World) (pre : String) : Except GoError String × World :=
  match newV4 env w with
  | (Except.error err, w1) => (Except.error err, w1)
  | (Except.ok uniquePart, w1) =>
    (Except.ok (pre ++ String.mk (uniquePart.data.filter fun c => c ≠ '-')), w1)

/-- Source function `tempFileName`. -/
def tempFileName (env : Env) (w : World) : Except GoError String × World :=
  match newV4 env w with
  | (Except.error err, w1) => (Except.error err, w1)
  | (Except.ok uniquePart, w1) => (Except.ok ("winrmcp-" ++ uniquePart ++ ".tmp"), w1)

/-- Source function `writeContentChannel`: the stream-writer construction is run by
the caller with `executeCommandSync` (written out: the request of the caller is a
scheduling point, its errors are those of `executeCommandSync`), then the goroutine
is started; the result is the number of its task. -/
def writeContentChannel (env : Env) (w : World) (shell : Nat) (filepath : String)
    (appendTo : Bool) : Except GoError Nat × World :=
  match tempVariable env w "stream_" with
  | (Except.error err, w1) => (Except.error err, w1)
  | (Except.ok streamVariable, w1) =>
    match execute env w1 shell (newStreamWriterCmd streamVariable filepath appendTo) with
    | (ExecOutcome.submitError err, w2) => (Except.error err, w2)
    | (ExecOutcome.exit code, w2) =>
      if code ≠ 0 then (Except.error ("upload operation returned code=" ++ fmtInt code), w2)
      else
        (Except.ok w2.tasks.length,
         { w2 with tasks := w2.tasks ++
            [⟨shell, streamVariable, filepath, 1, false, Stage.receiving, [], 0⟩] })

/-- The producer waits in its `select` until the goroutine of its session has
finished the write it holds. -/
def awaitTask (env : Env) (w : World) (i : Nat) : World :=
  match w.tasks[i]? with
  | some t =>
    match t.stage with
    | Stage.holding _ => stepTask env w i
    | _ => w
  | none => w

/-- The goroutine receives a content from the channel. -/
def Task.accept (content : String) (t : Task) : Task :=
  { t with accepted := t.accepted ++ [content], stage := Stage.holding content }

/-- The goroutine has delivered its error and breaks out of its loop (line 289). -/
def Task.leave (t : Task) : Task :=
  { t with stage := Stage.closing }

/-- The channel `outCh` is closed: a goroutine waiting in `range input` leaves its
loop; one that holds a content will leave it after the write; one that waits in
`errch <- ...` stays there. -/
def Task.close (t : Task) : Task :=
  match t.stage with
  | Stage.receiving => { t with closed := true, stage := Stage.closing }
  | _ => { t with closed := true }

/-- The `select` of lines 114-121, for the goroutine with the given number.  Once the
goroutine has finished the write it holds, either it waits in `range input` and
takes the content, or it waits in `errch <- ...` and hands its error over, then
leaves its loop.  The remaining cases do not arise while the producer is in its
loop (the goroutine leaves its loop only after `close(outCh)` or after its error
was received); there the receive from `errCh` yields `nil`. -/
def select (env : Env) (w : World) (i : Nat) (content : String) : Selected × World :=
  let w1 := awaitTask env (yield env w) i
  match w1.tasks[i]? with
  | some t =>
    match t.stage with
    | Stage.receiving =>
      (Selected.sent, { w1 with tasks := modifyAt (Task.accept content) w1.tasks i })
    | Stage.blocked err =>
      (Selected.received (some err), { w1 with tasks := modifyAt Task.leave w1.tasks i })
    | _ => (Selected.received none, w1)
  | none => (Selected.received none, w1)

/-- The deferred `close(outCh)`. -/
def closeOut (w : World) (i : Nat) : World :=
  { w with tasks := modifyAt Task.close w.tasks i }

/-- The loop of lines 102-123; the first argument is `maxChunks - i`. -/
def chunkLoop (env : Env) (bufLen task : Nat) :
    Nat → World → Reader → (Bool × Option GoError) × World × Reader
  | 0, w, r => ((false, none), w, r)
  | n + 1, w, r =>
    let rd := r.read bufLen
    match rd.err with
    | some (ReadErr.other err) => ((false, some err), w, rd.reader)
    | _ =>
      if rd.bytes.length = 0 then ((true, none), w, rd.reader)
      else
        match select env w task (encodeToString rd.bytes) with
        | (Selected.sent, w1) => chunkLoop env bufLen task n w1 rd.reader
        | (Selected.received err, w1) => ((false, err), w1, rd.reader)

/-- Source function `uploadChunks`: one session.  The deferred `close(outCh)` and
`shell.Close()` run on every exit after their `defer`, without waiting for the
goroutine. -/
def uploadChunks (env : Env) (w : World) (filePath : String) (maxChunks : Int) (reader : Reader) :
    Outcome (Bool × Option GoError) × World × Reader :=
  match createShell env w with
  | (Except.error err, w1) =>
    (Outcome.ret (false, some ("Couldn't create shell: " ++ err)), w1, reader)
  | (Except.ok shell, w1) =>
    if chunkSize filePath < 0 then
      (Outcome.panic "runtime error: makeslice: len out of range", closeShell env w1 shell, reader)
    else
      let maxChunks1 := if maxChunks = 0 then 1 else maxChunks
      match writeContentChannel env w1 shell filePath false with
      | (Except.error err, w2) =>
        (Outcome.ret (false, some ("Unable to write to file with shell: " ++ err)),
         closeShell env w2 shell, reader)
      | (Except.ok task, w2) =>
        match chunkLoop env (chunkSize filePath).toNat task maxChunks1.toNat w2 reader with
        | (res, w3, reader1) =>
          (Outcome.ret res, closeShell env (closeOut w3 task) shell, reader1)

/-- Source function `uploadContent`; `none` means that the given number of sessions
did not finish the loop `for !done`. -/
def uploadContent (env : Env) :
    Nat → World → Int → String → Reader → Option (Outcome (Option GoError) × World × Reader)
  | 0, _, _, _, _ => none
  | fuel + 1, w, maxChunks, filePath, reader =>
    match uploadChunks env w filePath maxChunks reader with
    | (Outcome.panic msg, w1, reader1) => some (Outcome.panic msg, w1, reader1)
    | (Outcome.ret (_, some err), w1, reader1) => some (Outcome.ret (some err), w1, reader1)
    | (Outcome.ret (true, none), w1, reader1) => some (Outcome.ret none, w1, reader1)
    | (Outcome.ret (false, none), w1, reader1) => uploadContent env fuel w1 maxChunks filePath reader1

/-- Source function `restoreContent`. -/
def restoreContent (env : Env) (w : World) (fromPath toPath : String) : Option GoError × World :=
  match createShell env w with
  | (Except.error err, w1) => (some err, w1)
  | (Except.ok shell, w1) =>
    match execute env w1 shell (Command.restoreScript fromPath toPath) with
    | (ExecOutcome.submitError err, w2) => (some err, closeShell env w2 shell)
    | (ExecOutcome.exit code, w2) =>
      if code ≠ 0 then
        (some ("restore operation returned code=" ++ fmtInt code), closeShell env w2 shell)
      else (none, closeShell env w2 shell)

/-- Source function `cleanupContent`. -/
def cleanupContent (env : Env) (w : World) (filePath : String) : Option GoError × World :=
  match createShell env w with
  | (Except.error err, w1) => (some err, w1)
  | (Except.ok shell, w1) =>
    match execute env w1 shell (Command.cleanupScript filePath) with
    | (ExecOutcome.submitError err, w2) => (some err, closeShell env w2 shell)
    | (ExecOutcome.exit code, w2) =>
      if code ≠ 0 then
        (some ("cleanup operation returned code=" ++ fmtInt code), closeShell env w2 shell)
      else (none, closeShell env w2 shell)

/-- Source function `doCopy`; `maxOperationsPerShell` is `config.MaxOperationsPerShell`.
The first argument bounds the sessions of the upload phase. -/
def doCopy (env : Env) (fuel : Nat) (w : World) (maxOperationsPerShell : Int) (reader : Reader)
    (toPath : String) : Option (Outcome (Option GoError) × World × Reader) :=
  match tempFileName env w with
  | (Except.error err, w1) =>
    some (Outcome.ret (some ("Error generating unique filename: " ++ err)), w1, reader)
  | (Except.ok tempFile, w1) =>
    let tempPath := "$env:TEMP\\" ++ tempFile
    match uploadContent env fuel w1 maxOperationsPerShell ("%TEMP%\\" ++ tempFile) reader with
    | none => none
    | some (Outcome.panic msg, w2, reader1) => some (Outcome.panic msg, w2, reader1)
    | some (Outcome.ret (some err), w2, reader1) =>
      some (Outcome.ret (some ("Error uploading file to " ++ tempPath ++ ": " ++ err)), w2, reader1)
    | some (Outcome.ret none, w2, reader1) =>
      match restoreContent env w2 tempPath toPath with
      | (some err, w3) =>
        some (Outcome.ret (some ("Error restoring file from " ++ tempPath ++ " to " ++ toPath
          ++ ": " ++ err)), w3, reader1)
      | (none, w3) =>
        match cleanupContent env w3 tempPath with
        | (some err, w4) =>
          some (Outcome.ret (some ("Error removing temporary file " ++ tempPath ++ ": " ++ err)),
            w4, reader1)
        | (none, w4) => some (Outcome.ret none, w4, reader1)

/-! ### Reading the trace -/

/-- Number of chunk-write requests (commands of line 287) made on a shell. -/
def writesOn (shell : Nat) : List Event → Nat
  | [] => 0
  | Event.execute s cmd _ :: es =>
    (if s = shell ∧ cmd.written.isSome then 1 else 0) + writesOn shell es
  | _ :: es => writesOn shell es

/-- Number of chunk-write requests on each of the `n` shells numbered from `base`. -/
def sessionWrites (base n : Nat) (es : List Event) : List Nat :=
  (List.range' base n).map fun s => writesOn s es

/-- The shells opened, in the order of their creation. -/
def openedShells : List Event → List Nat
  | [] => []
  | Event.createShell s none :: es => s :: openedShells es
  | _ :: es => openedShells es

/-- Whether the trace holds a restore script. -/
def ranRestore (es : List Event) : Bool :=
  es.any fun e => match e with
    | Event.execute _ (Command.restoreScript _ _) _ => true
    | _ => false

/-- Whether the trace holds a cleanup script. -/
def ranCleanup (es : List Event) : Bool :=
  es.any fun e => match e with
    | Event.execute _ (Command.cleanupScript _) _ => true
    | _ => false

/-- Whether the request is one of the upload phase: a shell opened or closed, or a
command built with `fmt.Sprintf`. -/
def Event.isUpload : Event → Bool
  | Event.execute _ (Command.restoreScript _ _) _ => false
  | Event.execute _ (Command.cleanupScript _) _ => false
  | _ => true

/-- Whether the request is a command built with `fmt.Sprintf`; the requests of the
goroutines are of this kind. -/
def Event.isTask : Event → Bool
  | Event.execute _ (Command.sprintf _ _) _ => true
  | _ => false

/-- The trace `t'` is `t` followed by requests that all satisfy `P`. -/
def Grows (P : Event → Prop) (t t' : List Event) : Prop :=
  ∃ new, t' = t ++ new ∧ ∀ e ∈ new, P e

/-- The goroutines that are still running take their remaining steps, task by task
(a goroutine has at most four requests left). -/
def drain (env : Env) (w : World) : World :=
  stepAll env ((List.range w.tasks.length).flatMap fun i => [i, i, i, i]) w

/-- Write requests issued by the tasks of a shell, by their own count. -/
def writtenOn (shell : Nat) : List Task → Nat
  | [] => 0
  | t :: ts => (if t.shell = shell then t.written else 0) + writtenOn shell ts

/-- The goroutine is in its loop and `outCh` is open: it waits for a content or
holds one. -/
def Task.Live (t : Task) : Prop :=
  t.closed = false ∧ (t.stage = Stage.receiving ∨ ∃ c, t.stage = Stage.holding c)

/-- The records of a task agree: the writes it has issued and the one it holds are
the contents it has received. -/
def Task.Ok (t : Task) : Prop := t.written + t.pending = t.accepted.length

/-- The i-th task is in its loop with `outCh` open. -/
def LiveAt (i : Nat) (w : World) : Prop := ∃ t, w.tasks[i]? = some t ∧ t.Live

/-- The records agree with the trace since `base`: every task's records agree, and
the write requests on each shell are those its tasks have issued. -/
def Inv (base : List Event) (w : World) : Prop :=
  (∀ t ∈ w.tasks, t.Ok) ∧
    ∃ new, w.trace = base ++ new ∧ ∀ s, writesOn s new = writtenOn s w.tasks

/-- The tasks numbered in `S` hold no content. -/
def Settled (S : List Nat) (w : World) : Prop :=
  ∀ j ∈ S, ∀ t, w.tasks[j]? = some t → t.pending = 0

/-- What the goroutine steps of a scheduling point leave as it was. -/
structure Same (w w1 : World) : Prop where
  shells : w1.shells = w.shells
  uuids : w1.uuids = w.uuids
  length : w1.tasks.length = w.tasks.length
  shell : w1.tasks.map (fun t => t.shell) = w.tasks.map (fun t => t.shell)
  accepted : w1.tasks.map (fun t => t.accepted) = w.tasks.map (fun t => t.accepted)

/-- Collaborators that never fail, with a schedule. -/
def Env.Good (env : Env) : Prop :=
  (∀ i, env.createShell i = none) ∧ (∀ s i, env.execute s i = ExecOutcome.exit 0) ∧
    ∀ i, ∃ u, env.newV4 i = Except.ok u

/-- Collaborators that never fail, with the given schedule. -/
def okEnv (schedule : Nat → List Nat) : Env where
  createShell := fun _ => none
  execute := fun _ _ => ExecOutcome.exit 0
  newV4 := fun _ => Except.ok "123e4567-e89b-42d3-a456-426614174000"
  schedule := schedule

/-- The schedule that lets the first two goroutines run as far as they can at every
scheduling point. -/
def eager : Nat → List Nat :=
  fun _ => [0, 0, 0, 0, 1, 1, 1, 1]

/-- The schedule that lets no goroutine run on its own: a goroutine only moves
when the producer waits for it. -/
def idle : Nat → List Nat := fun _ => []

/-- The schedule that runs the first goroutine at the seventh scheduling point only
(in a copy with one session: the `shell.Close()` of `restoreContent`). -/
def late : Nat → List Nat := fun p => if p = 6 then [0, 0, 0, 0] else []

/-- The request without its shell, as an event of the sequential reading. -/
def Event.erase : Event → Winrmcp.Event
  | Event.createShell _ err => Winrmcp.Event.createShell err
  | Event.closeShell _ => Winrmcp.Event.closeShell
  | Event.execute _ cmd out => Winrmcp.Event.execute cmd out

end Sched

/-! ## Properties -/

/-! ### Base64 -/

theorem b64Char_facts : ∀ i : Fin 64,
    b64Val (b64Char i.val) = some i.val ∧ b64Char i.val ≠ '=' ∧ (b64Char i.val).utf8Size = 1 := by
  decide

theorem b64Val_b64Char (i : Nat) (h : i < 64) : b64Val (b64Char i) = some i :=
  (b64Char_facts ⟨i, h⟩).1

theorem b64Char_ne_pad (i : Nat) (h : i < 64) : b64Char i ≠ '=' :=
  (b64Char_facts ⟨i, h⟩).2.1

theorem b64Char_utf8Size (i : Nat) (h : i < 64) : (b64Char i).utf8Size = 1 :=
  (b64Char_facts ⟨i, h⟩).2.2

theorem toByte_eq (n : Nat) (a : Byte) (h : n = a.val) : toByte n = a := by
  apply Fin.ext
  simp [toByte, h, Nat.mod_eq_of_lt a.isLt]

/-- Decoding undoes encoding. -/
theorem decodeChars_encodeChars : ∀ bs : List Byte, decodeChars (encodeChars bs) = some bs
  | [] => by simp [encodeChars, decodeChars]
  | [a] => by
    have ha := a.isLt
    have h0 := b64Val_b64Char (a.val / 4) (by omega)
    have h1 := b64Val_b64Char (a.val % 4 * 16) (by omega)
    simp only [encodeChars, decodeChars, h0, h1, if_true]
    simp only [Option.some.injEq, List.cons.injEq, and_true]
    exact toByte_eq _ _ (by omega)
  | [a, b] => by
    have ha := a.isLt
    have hb := b.isLt
    have h0 := b64Val_b64Char (a.val / 4) (by omega)
    have h1 := b64Val_b64Char (a.val % 4 * 16 + b.val / 16) (by omega)
    have h2 := b64Val_b64Char (b.val % 16 * 4) (by omega)
    have n2 := b64Char_ne_pad (b.val % 16 * 4) (by omega)
    simp only [encodeChars, decodeChars, h0, h1, h2, n2, if_true, if_false]
    simp only [Option.some.injEq, List.cons.injEq, and_true]
    exact ⟨toByte_eq _ _ (by omega), toByte_eq _ _ (by omega)⟩
  | a :: b :: c :: rest => by
    have ih := decodeChars_encodeChars rest
    have ha := a.isLt
    have hb := b.isLt
    have hc := c.isLt
    have h0 := b64Val_b64Char (a.val / 4) (by omega)
    have h1 := b64Val_b64Char (a.val % 4 * 16 + b.val / 16) (by omega)
    have h2 := b64Val_b64Char (b.val % 16 * 4 + c.val / 64) (by omega)
    have h3 := b64Val_b64Char (c.val % 64) (by omega)
    have n3 := b64Char_ne_pad (c.val % 64) (by omega)
    have e0 : toByte (a.val / 4 * 4 + (a.val % 4 * 16 + b.val / 16) / 16) = a :=
      toByte_eq _ _ (by omega)
    have e1 : toByte ((a.val % 4 * 16 + b.val / 16) % 16 * 16 + (b.val % 16 * 4 + c.val / 64) / 4)
        = b := toByte_eq _ _ (by omega)
    have e2 : toByte ((b.val % 16 * 4 + c.val / 64) % 4 * 64 + c.val % 64) = c :=
      toByte_eq _ _ (by omega)
    cases hr : encodeChars rest with
    | nil =>
      have : rest = [] := by
        rcases rest with _ | ⟨x, _ | ⟨y, _ | ⟨z, zs⟩⟩⟩ <;> simp [encodeChars] at hr
        rfl
      subst this
      simp only [encodeChars, decodeChars, h0, h1, h2, h3, n3, e0, e1, e2, if_false]
    | cons x xs =>
      rw [hr] at ih
      simp only [encodeChars, hr, decodeChars, h0, h1, h2, h3, ih, e0, e1, e2]

theorem decodeString_encodeToString (bs : List Byte) :
    decodeString (encodeToString bs) = some bs := by
  simp [decodeString, encodeToString, decodeChars_encodeChars]

/-- The encoding of `n` bytes has `4 * ceil(n / 3)` characters. -/
theorem encodeChars_length : ∀ bs : List Byte, (encodeChars bs).length = 4 * ((bs.length + 2) / 3)
  | [] => by simp [encodeChars]
  | [a] => by simp [encodeChars]
  | [a, b] => by simp [encodeChars]
  | a :: b :: c :: rest => by
    have ih := encodeChars_length rest
    simp only [encodeChars, List.length_cons, ih]
    omega

theorem encodeChars_ascii : ∀ (bs : List Byte) (ch : Char), ch ∈ encodeChars bs → ch.utf8Size = 1
  | [], ch, h => by simp [encodeChars] at h
  | [a], ch, h => by
    have ha := a.isLt
    simp only [encodeChars, List.mem_cons, List.mem_singleton, List.mem_nil_iff, or_false] at h
    rcases h with h | h | h | h <;> subst h
    · exact b64Char_utf8Size _ (by omega)
    · exact b64Char_utf8Size _ (by omega)
    · decide
    · decide
  | [a, b], ch, h => by
    have ha := a.isLt
    have hb := b.isLt
    simp only [encodeChars, List.mem_cons, List.mem_singleton, List.mem_nil_iff, or_false] at h
    rcases h with h | h | h | h <;> subst h
    · exact b64Char_utf8Size _ (by omega)
    · exact b64Char_utf8Size _ (by omega)
    · exact b64Char_utf8Size _ (by omega)
    · decide
  | a :: b :: c :: rest, ch, h => by
    have ha := a.isLt
    have hb := b.isLt
    have hc := c.isLt
    simp only [encodeChars, List.mem_cons] at h
    rcases h with h | h | h | h | h
    · subst h; exact b64Char_utf8Size _ (by omega)
    · subst h; exact b64Char_utf8Size _ (by omega)
    · subst h; exact b64Char_utf8Size _ (by omega)
    · subst h; exact b64Char_utf8Size _ (by omega)
    · exact encodeChars_ascii rest ch h

theorem utf8Len_ascii : ∀ l : List Char, (∀ ch ∈ l, ch.utf8Size = 1) →
    String.utf8Len l = l.length
  | [], _ => rfl
  | ch :: l, h => by
    have h1 := h ch (List.mem_cons_self _ _)
    have h2 := utf8Len_ascii l (fun x hx => h x (List.mem_cons_of_mem _ hx))
    rw [String.utf8Len_cons, h1, h2, List.length_cons]

/-- Go's `len` of an encoded chunk of `n` bytes is `4 * ceil(n / 3)`. -/
theorem encodeToString_len (bs : List Byte) :
    (encodeToString bs).utf8ByteSize = 4 * ((bs.length + 2) / 3) := by
  unfold encodeToString
  rw [String.utf8ByteSize_mk, utf8Len_ascii _ (encodeChars_ascii bs), encodeChars_length]

/-! ### What the upload phase leaves in the trace -/

theorem TraceGrows.refl (P : Event → Prop) (t : List Event) : TraceGrows P t t :=
  ⟨[], by simp, by simp⟩

theorem TraceGrows.trans {P : Event → Prop} {a b c : List Event}
    (h1 : TraceGrows P a b) (h2 : TraceGrows P b c) : TraceGrows P a c := by
  obtain ⟨n1, e1, p1⟩ := h1
  obtain ⟨n2, e2, p2⟩ := h2
  refine ⟨n1 ++ n2, by rw [e2, e1, List.append_assoc], ?_⟩
  intro e he
  rcases List.mem_append.mp he with h | h
  · exact p1 e h
  · exact p2 e h

theorem TraceGrows.snoc {P : Event → Prop} (t : List Event) {e : Event} (h : P e) :
    TraceGrows P t (t ++ [e]) :=
  ⟨[e], rfl, by simpa using h⟩

theorem executeCommandSync_trace (env : Env) (w : World) (c : Command) :
    (executeCommandSync env w c).2.trace = w.trace ++ [Event.execute c (env.execute w.execs)] := by
  unfold executeCommandSync execute
  cases h : env.execute w.execs with
  | submitError msg => rfl
  | exit code =>
    by_cases hc : code = 0 <;> simp [hc]

theorem executeCommandSync_grows {P : Event → Prop} (env : Env) (w : World) (c : Command)
    (h : ∀ out, P (Event.execute c out)) :
    TraceGrows P w.trace (executeCommandSync env w c).2.trace := by
  rw [executeCommandSync_trace]
  exact TraceGrows.snoc _ (h _)

theorem teardown_grows (filePath : String) (bufLen : Nat) (env : Env) (w : World) (p : Pipe) :
    TraceGrows (UploadEvent filePath bufLen) w.trace (teardown env w p).trace := by
  unfold teardown
  refine TraceGrows.trans (executeCommandSync_grows env w _ ?_)
    (TraceGrows.trans (executeCommandSync_grows env _ _ ?_) (executeCommandSync_grows env _ _ ?_))
  · intro out; exact Or.inr (Or.inr ⟨_, Or.inl rfl⟩)
  · intro out; exact Or.inr (Or.inr ⟨_, Or.inr (Or.inl rfl)⟩)
  · intro out; exact Or.inr (Or.inr ⟨_, Or.inr (Or.inr rfl)⟩)

theorem select_grows (filePath : String) (bufLen : Nat) (env : Env) (w : World) (p : Pipe)
    (bytes : List Byte) (h0 : 0 < bytes.length) (h1 : bytes.length ≤ bufLen) :
    TraceGrows (UploadEvent filePath bufLen) w.trace
      (select env w p (encodeToString bytes)).2.1.trace := by
  unfold select
  cases hc : p.consumer with
  | receiving =>
    have hg := @executeCommandSync_grows (UploadEvent filePath bufLen) env w
      (writeCmd (encodeToString bytes)) (fun _ => Or.inr (Or.inl ⟨bytes, h0, h1, rfl⟩))
    cases hx : executeCommandSync env w (writeCmd (encodeToString bytes)) with
    | mk e w1 =>
      rw [hx] at hg
      cases e <;> simpa using hg
  | blocked err => simpa using teardown_grows filePath bufLen env w p
  | finished => simpa using TraceGrows.refl _ _

theorem read_length_le (r : Reader) (bufLen : Nat) : (r.read bufLen).bytes.length ≤ bufLen := by
  unfold Reader.read
  split
  · simp
  · split
    · simp
    · simp only [List.length_take]
      omega

theorem chunkLoop_grows (filePath : String) (bufLen : Nat) (env : Env) :
    ∀ (n : Nat) (w : World) (p : Pipe) (r : Reader),
      TraceGrows (UploadEvent filePath bufLen) w.trace (chunkLoop env bufLen n w p r).2.1.trace
  | 0, w, p, r => by simpa [chunkLoop] using TraceGrows.refl _ _
  | n + 1, w, p, r => by
    unfold chunkLoop
    simp only
    split
    · exact TraceGrows.refl _ _
    · split
      · exact TraceGrows.refl _ _
      · rename_i hlen
        have hs := select_grows filePath bufLen env w p (r.read bufLen).bytes (by omega)
          (read_length_le r bufLen)
        split
        · rename_i w1 p1 heq
          rw [heq] at hs
          exact TraceGrows.trans hs (chunkLoop_grows filePath bufLen env n w1 p1 _)
        · rename_i err w1 p1 heq
          rw [heq] at hs
          exact hs

theorem closeOut_grows (filePath : String) (bufLen : Nat) (env : Env) (w : World) (p : Pipe) :
    TraceGrows (UploadEvent filePath bufLen) w.trace (closeOut env w p).1.trace := by
  unfold closeOut
  cases hc : p.consumer with
  | receiving => simpa using teardown_grows filePath bufLen env w p
  | blocked err => simpa using TraceGrows.refl _ _
  | finished => simpa using TraceGrows.refl _ _

theorem tempVariable_trace (env : Env) (w : World) (pre : String) :
    (tempVariable env w pre).2.trace = w.trace := by
  unfold tempVariable newV4
  cases env.newV4 w.uuids <;> rfl

theorem tempFileName_trace (env : Env) (w : World) :
    (tempFileName env w).2.trace = w.trace := by
  unfold tempFileName newV4
  cases env.newV4 w.uuids <;> rfl

theorem writeContentChannel_grows (bufLen : Nat) (env : Env) (w : World) (filePath : String) :
    TraceGrows (UploadEvent filePath bufLen) w.trace
      (writeContentChannel env w filePath false).2.trace := by
  unfold writeContentChannel
  have ht := tempVariable_trace env w "stream_"
  cases hv : tempVariable env w "stream_" with
  | mk res w1 =>
    rw [hv] at ht
    simp only at ht
    cases res with
    | error err => simpa [ht] using TraceGrows.refl _ _
    | ok v =>
      have hg := @executeCommandSync_grows (UploadEvent filePath bufLen) env w1
        (newStreamWriterCmd v filePath false) (fun _ => Or.inl ⟨v, rfl⟩)
      rw [ht] at hg
      cases hx : executeCommandSync env w1 (newStreamWriterCmd v filePath false) with
      | mk e w2 =>
        rw [hx] at hg
        cases e <;> (simp only [hx]; exact hg)

theorem closeShell_grows (filePath : String) (bufLen : Nat) (w : World) :
    TraceGrows (UploadEvent filePath bufLen) w.trace (closeShell w).trace :=
  TraceGrows.snoc _ trivial

theorem createShell_grows (filePath : String) (bufLen : Nat) (env : Env) (w : World) :
    TraceGrows (UploadEvent filePath bufLen) w.trace (createShell env w).2.trace :=
  TraceGrows.snoc _ trivial

theorem uploadChunks_grows (env : Env) (w : World) (filePath : String) (maxChunks : Int)
    (reader : Reader) :
    TraceGrows (UploadEvent filePath (chunkSize filePath).toNat) w.trace
      (uploadChunks env w filePath maxChunks reader).2.1.trace := by
  unfold uploadChunks
  have h1 := createShell_grows filePath (chunkSize filePath).toNat env w
  cases hs : createShell env w with
  | mk e w1 =>
    rw [hs] at h1
    cases e with
    | some err => simpa using h1
    | none =>
      simp only
      split
      · exact TraceGrows.trans h1 (closeShell_grows _ _ _)
      · have h2 := writeContentChannel_grows (chunkSize filePath).toNat env w1 filePath
        cases hw : writeContentChannel env w1 filePath false with
        | mk res w2 =>
          rw [hw] at h2
          cases res with
          | error err => exact TraceGrows.trans h1 (TraceGrows.trans h2 (closeShell_grows _ _ _))
          | ok pipe =>
            simp only
            have h3 := chunkLoop_grows filePath (chunkSize filePath).toNat env
              (if maxChunks = 0 then 1 else maxChunks).toNat w2 pipe reader
            cases hl : chunkLoop env (chunkSize filePath).toNat
                (if maxChunks = 0 then 1 else maxChunks).toNat w2 pipe reader with
            | mk res rest =>
              obtain ⟨w3, pipe1, reader1⟩ := rest
              rw [hl] at h3
              exact TraceGrows.trans h1 (TraceGrows.trans h2 (TraceGrows.trans h3
                (TraceGrows.trans (closeOut_grows _ _ env w3 pipe1) (closeShell_grows _ _ _))))

theorem uploadContent_grows (env : Env) (filePath : String) (maxChunks : Int) :
    ∀ (fuel : Nat) (w : World) (reader : Reader) (out : Outcome (Option GoError)) (w' : World)
      (r' : Reader), uploadContent env fuel w maxChunks filePath reader = some (out, w', r') →
      TraceGrows (UploadEvent filePath (chunkSize filePath).toNat) w.trace w'.trace
  | 0, w, reader, out, w', r', h => by simp [uploadContent] at h
  | fuel + 1, w, reader, out, w', r', h => by
    unfold uploadContent at h
    have h1 := uploadChunks_grows env w filePath maxChunks reader
    split at h
    · rename_i msg w1 reader1 heq
      rw [heq] at h1
      simp only [Option.some.injEq, Prod.mk.injEq] at h
      rw [← h.2.1]; exact h1
    · rename_i d err w1 reader1 heq
      rw [heq] at h1
      simp only [Option.some.injEq, Prod.mk.injEq] at h
      rw [← h.2.1]; exact h1
    · rename_i w1 reader1 heq
      rw [heq] at h1
      simp only [Option.some.injEq, Prod.mk.injEq] at h
      rw [← h.2.1]; exact h1
    · rename_i w1 reader1 heq
      rw [heq] at h1
      exact TraceGrows.trans h1 (uploadContent_grows env filePath maxChunks fuel w1 reader1 out w' r' h)

theorem sentContents_append (a b : List Event) :
    sentContents (a ++ b) = sentContents a ++ sentContents b := by
  induction a with
  | nil => rfl
  | cons e es ih =>
    cases e with
    | createShell err => simpa [sentContents] using ih
    | closeShell => simpa [sentContents] using ih
    | execute cmd out =>
      simp only [List.cons_append, sentContents]
      cases cmd.written <;> simp [ih]

theorem written_of_uploadEvent {filePath : String} {bufLen : Nat} {cmd : Command}
    {out : ExecOutcome} {content : String}
    (h : UploadEvent filePath bufLen (Event.execute cmd out)) (hw : cmd.written = some content) :
    ∃ bytes : List Byte, 0 < bytes.length ∧ bytes.length ≤ bufLen ∧
      content = encodeToString bytes := by
  rcases h with ⟨v, rfl⟩ | ⟨bytes, h0, h1, rfl⟩ | ⟨v, rfl | rfl | rfl⟩
  · simp [newStreamWriterCmd, Command.written] at hw
  · simp [writeCmd, Command.written] at hw
    exact ⟨bytes, h0, h1, hw.symm⟩
  · simp [closeCmd, Command.written] at hw
  · simp [disposeCmd, Command.written] at hw
  · simp [removeVariableCmd, Command.written] at hw

theorem mem_sentContents {content : String} :
    ∀ {es : List Event}, content ∈ sentContents es →
      ∃ cmd out, Event.execute cmd out ∈ es ∧ cmd.written = some content
  | [], h => by simp [sentContents] at h
  | e :: es, h => by
    cases e with
    | createShell err =>
      obtain ⟨cmd, out, hm, hw⟩ := @mem_sentContents content es (by simpa [sentContents] using h)
      exact ⟨cmd, out, List.mem_cons_of_mem _ hm, hw⟩
    | closeShell =>
      obtain ⟨cmd, out, hm, hw⟩ := @mem_sentContents content es (by simpa [sentContents] using h)
      exact ⟨cmd, out, List.mem_cons_of_mem _ hm, hw⟩
    | execute cmd out =>
      simp only [sentContents] at h
      cases hw : cmd.written with
      | none =>
        rw [hw] at h
        obtain ⟨cmd1, out1, hm, hw1⟩ := @mem_sentContents content es h
        exact ⟨cmd1, out1, List.mem_cons_of_mem _ hm, hw1⟩
      | some c =>
        rw [hw] at h
        rcases List.mem_cons.mp h with h | h
        · subst h; exact ⟨cmd, out, List.mem_cons_self _ _, hw⟩
        · obtain ⟨cmd1, out1, hm, hw1⟩ := @mem_sentContents content es h
          exact ⟨cmd1, out1, List.mem_cons_of_mem _ hm, hw1⟩

theorem chunkSize_bound (filePath : String) (n : Nat) (h0 : 0 < n)
    (h : n ≤ (chunkSize filePath).toNat) :
    4 * ((n + 2) / 3) + filePath.utf8ByteSize ≤ 8000 := by
  unfold chunkSize at h
  by_cases hp : (filePath.utf8ByteSize : Int) ≤ 8000
  · rw [Int.tdiv_eq_ediv (by omega) (by decide)] at h
    omega
  · have hneg : Int.tdiv (8000 - (filePath.utf8ByteSize : Int)) 4
        = -(Int.tdiv ((filePath.utf8ByteSize : Int) - 8000) 4) := by
      rw [← Int.neg_tdiv]
      congr 1
      omega
    have hnn : 0 ≤ Int.tdiv ((filePath.utf8ByteSize : Int) - 8000) 4 :=
      Int.tdiv_nonneg (by omega) (by decide)
    rw [hneg] at h
    omega

/-- C1: every chunk a session produces is the encoding of between 1 and `chunkSize`
bytes, its encoding has `4 * ceil(n / 3)` characters, and that length plus
`len(filePath)` is at most 8000.  This holds for every file path, reader and
behaviour of the collaborators. -/
theorem uploadChunks_chunk_within_limit (env : Env) (w : World) (filePath : String)
    (maxChunks : Int) (reader : Reader) :
    ∃ new, (uploadChunks env w filePath maxChunks reader).2.1.trace = w.trace ++ new ∧
      ∀ content ∈ sentContents new, ∃ bytes : List Byte,
        content = encodeToString bytes ∧ 0 < bytes.length ∧
        (bytes.length : Int) ≤ chunkSize filePath ∧
        content.utf8ByteSize = 4 * ((bytes.length + 2) / 3) ∧
        content.utf8ByteSize + filePath.utf8ByteSize ≤ 8000 := by
  obtain ⟨new, hnew, hP⟩ := uploadChunks_grows env w filePath maxChunks reader
  refine ⟨new, hnew, ?_⟩
  intro content hc
  obtain ⟨cmd, out, hm, hw⟩ := mem_sentContents hc
  obtain ⟨bytes, h0, h1, rfl⟩ := written_of_uploadEvent (hP _ hm) hw
  refine ⟨bytes, rfl, h0, by omega, encodeToString_len bytes, ?_⟩
  rw [encodeToString_len]
  exact chunkSize_bound filePath bytes.length h0 h1

theorem appendFlag_of_uploadEvent {filePath : String} {bufLen : Nat} {cmd : Command}
    {out : ExecOutcome} {b : Bool}
    (h : UploadEvent filePath bufLen (Event.execute cmd out)) (hw : cmd.appendFlag = some b) :
    b = false := by
  rcases h with ⟨v, rfl⟩ | ⟨bytes, h0, h1, rfl⟩ | ⟨v, rfl | rfl | rfl⟩
  · simp [newStreamWriterCmd, Command.appendFlag] at hw
    exact hw
  · simp [writeCmd, Command.appendFlag] at hw
  · simp [closeCmd, Command.appendFlag] at hw
  · simp [disposeCmd, Command.appendFlag] at hw
  · simp [removeVariableCmd, Command.appendFlag] at hw

theorem appendFlags_of_uploadEvents {filePath : String} {bufLen : Nat} :
    ∀ (es : List Event), (∀ e ∈ es, UploadEvent filePath bufLen e) →
      ∀ b ∈ appendFlags es, b = false
  | [], _, b, hb => by simp [appendFlags] at hb
  | e :: es, h, b, hb => by
    have ih := appendFlags_of_uploadEvents es (fun x hx => h x (List.mem_cons_of_mem _ hx))
    cases e with
    | createShell err => exact ih b (by simpa [appendFlags] using hb)
    | closeShell => exact ih b (by simpa [appendFlags] using hb)
    | execute cmd out =>
      simp only [appendFlags] at hb
      cases hw : cmd.appendFlag with
      | none => rw [hw] at hb; exact ih b hb
      | some c =>
        rw [hw] at hb
        rcases List.mem_cons.mp hb with hb | hb
        · subst hb
          exact appendFlag_of_uploadEvent (h _ (List.mem_cons_self _ _)) hw
        · exact ih b hb

/-- C5, what the code does: whatever the collaborators and the reader do, every
stream-writer construction a session issues carries `appendTo = false` (line 94), not
`true` as the claim has it. -/
theorem uploadChunks_appendTo_false (env : Env) (w : World) (filePath : String)
    (maxChunks : Int) (reader : Reader) :
    ∃ new, (uploadChunks env w filePath maxChunks reader).2.1.trace = w.trace ++ new ∧
      ∀ b ∈ appendFlags new, b = false := by
  obtain ⟨new, hnew, hP⟩ := uploadChunks_grows env w filePath maxChunks reader
  exact ⟨new, hnew, appendFlags_of_uploadEvents new hP⟩

/-! ### Runs in which nothing fails -/

theorem executeCommandSync_good {env : Env} (henv : env.Good) (w : World) (c : Command) :
    ∃ w1, executeCommandSync env w c = (none, w1) ∧
      w1.trace = w.trace ++ [Event.execute c (ExecOutcome.exit 0)] := by
  unfold executeCommandSync execute
  rw [henv.2.1]
  exact ⟨_, rfl, rfl⟩

theorem teardown_good {env : Env} (henv : env.Good) (w : World) (p : Pipe) :
    (teardown env w p).trace = w.trace ++
      [Event.execute (closeCmd p.streamVariable) (ExecOutcome.exit 0),
       Event.execute (disposeCmd p.streamVariable) (ExecOutcome.exit 0),
       Event.execute (removeVariableCmd p.streamVariable) (ExecOutcome.exit 0)] := by
  unfold teardown
  simp [executeCommandSync_trace, henv.2.1]

theorem read_fault_none {r : Reader} (hr : r.fault = none) (bufLen : Nat) :
    (r.read bufLen).reader.fault = none ∧
    (∀ msg, (r.read bufLen).err ≠ some (ReadErr.other msg)) ∧
    (r.read bufLen).bytes ++ (r.read bufLen).reader.data = r.data ∧
    ((r.read bufLen).bytes.length = 0 → 0 < bufLen → r.data = []) := by
  unfold Reader.read
  rw [hr]
  simp only
  cases hd : r.data with
  | nil => simp [Reader.nextFault, hr]
  | cons x xs =>
    simp only [Reader.nextFault, hr, Option.map_none', List.take_append_drop, true_and]
    refine ⟨?_, ?_⟩
    · intro msg
      split <;> simp
    · intro h hb
      exfalso
      have hcap : 0 < r.cap := by
        unfold Reader.cap
        rw [hd]
        split <;> simp
      simp only [List.length_take, List.length_cons] at h
      omega

theorem select_good {env : Env} (henv : env.Good) (w : World) (p : Pipe) (content : String)
    (hp : p.consumer = Consumer.receiving) :
    ∃ w1, select env w p content = (Selected.sent, w1, p) ∧
      w1.trace = w.trace ++ [Event.execute (writeCmd content) (ExecOutcome.exit 0)] := by
  unfold select
  rw [hp]
  obtain ⟨w1, h1, h2⟩ := executeCommandSync_good henv w (writeCmd content)
  simp only [h1]
  exact ⟨w1, rfl, h2⟩

theorem chunkLoop_succ (env : Env) (bufLen n : Nat) (w : World) (p : Pipe) (r : Reader)
    (he : ∀ msg, (r.read bufLen).err ≠ some (ReadErr.other msg)) :
    chunkLoop env bufLen (n + 1) w p r =
      if (r.read bufLen).bytes.length = 0 then ((true, none), w, p, (r.read bufLen).reader)
      else
        match select env w p (encodeToString (r.read bufLen).bytes) with
        | (Selected.sent, w1, p1) => chunkLoop env bufLen n w1 p1 (r.read bufLen).reader
        | (Selected.received err, w1, p1) => ((false, err), w1, p1, (r.read bufLen).reader) := by
  rw [chunkLoop]
  cases herr : (r.read bufLen).err with
  | none => rfl
  | some e =>
    cases e with
    | eof => rfl
    | other msg => exact absurd herr (he msg)

theorem chunkLoop_good {env : Env} (henv : env.Good) (bufLen : Nat) :
    ∀ (n : Nat) (w : World) (p : Pipe) (r : Reader), p.consumer = Consumer.receiving →
      r.fault = none →
      ∃ w1, chunkLoop env bufLen n w p r =
          (((readN bufLen n r).2.1, none), w1, p, (readN bufLen n r).2.2) ∧
        w1.trace = w.trace ++ (readN bufLen n r).1.map
          (fun c => Event.execute (writeCmd (encodeToString c)) (ExecOutcome.exit 0))
  | 0, w, p, r, _, _ => ⟨w, by simp [chunkLoop, readN], by simp [readN]⟩
  | n + 1, w, p, r, hp, hr => by
    obtain ⟨hf, he, -, -⟩ := read_fault_none hr bufLen
    rw [chunkLoop_succ env bufLen n w p r he, readN]
    by_cases hlen : (r.read bufLen).bytes.length = 0
    · simp only [hlen, if_true]
      exact ⟨w, rfl, by simp⟩
    · simp only [hlen, if_false]
      obtain ⟨w1, hs, ht⟩ := select_good henv w p (encodeToString (r.read bufLen).bytes) hp
      obtain ⟨w2, hl, ht2⟩ := chunkLoop_good henv bufLen n w1 p (r.read bufLen).reader hp hf
      simp only [hs, hl]
      refine ⟨w2, rfl, ?_⟩
      rw [ht2, ht]
      simp

theorem writeContentChannel_good {env : Env} (henv : env.Good) (w : World) (filePath : String)
    (appendTo : Bool) :
    ∃ v w1, writeContentChannel env w filePath appendTo =
        (Except.ok ⟨v, filePath, Consumer.receiving⟩, w1) ∧
      w1.trace = w.trace ++
        [Event.execute (newStreamWriterCmd v filePath appendTo) (ExecOutcome.exit 0)] := by
  unfold writeContentChannel tempVariable newV4
  obtain ⟨u, hu⟩ := henv.2.2 w.uuids
  rw [hu]
  simp only
  obtain ⟨w1, h1, h2⟩ := executeCommandSync_good henv { w with uuids := w.uuids + 1 }
    (newStreamWriterCmd ("stream_" ++ String.mk (u.data.filter fun c => c ≠ '-')) filePath appendTo)
  simp only [h1]
  exact ⟨_, w1, rfl, h2⟩

/-- A session in which nothing fails: the reads of `readN`, each sent in order. -/
theorem uploadChunks_good {env : Env} (henv : env.Good) (w : World) (filePath : String)
    (maxChunks : Int) (r : Reader) (hcs : 0 ≤ chunkSize filePath) (hr : r.fault = none) :
    ∃ v w1, uploadChunks env w filePath maxChunks r =
        (Outcome.ret ((readN (chunkSize filePath).toNat
            (if maxChunks = 0 then 1 else maxChunks).toNat r).2.1, none), w1,
          (readN (chunkSize filePath).toNat (if maxChunks = 0 then 1 else maxChunks).toNat r).2.2) ∧
      w1.trace = w.trace ++ sessionEvents v filePath
        (readN (chunkSize filePath).toNat (if maxChunks = 0 then 1 else maxChunks).toNat r).1 := by
  unfold uploadChunks createShell
  rw [henv.1]
  simp only [not_lt.mpr hcs, if_false]
  obtain ⟨v, w2, hw, ht⟩ := writeContentChannel_good henv
    { w with shells := w.shells + 1, trace := w.trace ++ [Event.createShell none] } filePath false
  simp only [hw]
  obtain ⟨w3, hl, ht3⟩ := chunkLoop_good henv (chunkSize filePath).toNat
    (if maxChunks = 0 then 1 else maxChunks).toNat w2 ⟨v, filePath, Consumer.receiving⟩ r rfl hr
  simp only [hl, closeOut]
  refine ⟨v, _, rfl, ?_⟩
  simp [closeShell, teardown_good henv, ht3, ht, sessionEvents]

/-! ### The reads of a session -/

theorem readN_facts (bufLen : Nat) (hb : 0 < bufLen) :
    ∀ (n : Nat) (r : Reader), r.fault = none →
      (readN bufLen n r).2.2.fault = none ∧
      (readN bufLen n r).1.flatten ++ (readN bufLen n r).2.2.data = r.data ∧
      (∀ c ∈ (readN bufLen n r).1, 0 < c.length ∧ c.length ≤ bufLen) ∧
      ((readN bufLen n r).2.1 = true → (readN bufLen n r).2.2.data = []) ∧
      ((readN bufLen n r).2.1 = false → (readN bufLen n r).1.length = n)
  | 0, r, hr => by simp [readN, hr]
  | n + 1, r, hr => by
    obtain ⟨hf, -, hd, h0⟩ := read_fault_none hr bufLen
    obtain ⟨i1, i2, i3, i4, i5⟩ := readN_facts bufLen hb n (r.read bufLen).reader hf
    rw [readN]
    by_cases hlen : (r.read bufLen).bytes.length = 0
    · simp only [hlen, if_true]
      have hnil := h0 hlen hb
      have hb0 : (r.read bufLen).bytes = [] := List.length_eq_zero.mp hlen
      rw [hb0, List.nil_append] at hd
      refine ⟨hf, ?_, ?_, ?_, ?_⟩
      · simpa using hd
      · simp
      · intro _; rw [hd, hnil]
      · simp
    · simp only [hlen, if_false]
      refine ⟨i1, ?_, ?_, i4, ?_⟩
      · rw [List.flatten_cons, List.append_assoc, i2, hd]
      · intro c hc
        rcases List.mem_cons.mp hc with h | h
        · subst h
          exact ⟨by omega, read_length_le r bufLen⟩
        · exact i3 c h
      · intro h
        simp [i5 h]

theorem written_writeCmd (content : String) : (writeCmd content).written = some content := by
  simp [writeCmd, Command.written]

theorem written_newStreamWriterCmd (v filePath : String) (a : Bool) :
    (newStreamWriterCmd v filePath a).written = none := by
  simp [newStreamWriterCmd, Command.written]

theorem written_closeCmd (v : String) : (closeCmd v).written = none := by
  simp [closeCmd, Command.written]

theorem written_disposeCmd (v : String) : (disposeCmd v).written = none := by
  simp [disposeCmd, Command.written]

theorem written_removeVariableCmd (v : String) : (removeVariableCmd v).written = none := by
  simp [removeVariableCmd, Command.written]

theorem sentContents_writes : ∀ cs : List (List Byte),
    sentContents (cs.map
      (fun c => Event.execute (writeCmd (encodeToString c)) (ExecOutcome.exit 0)))
      = cs.map encodeToString
  | [] => rfl
  | c :: cs => by
    simp only [List.map_cons, sentContents, written_writeCmd, sentContents_writes cs]

theorem sentContents_sessionEvents (v filePath : String) (chunks : List (List Byte)) :
    sentContents (sessionEvents v filePath chunks) = chunks.map encodeToString := by
  simp [sessionEvents, sentContents_append, sentContents_writes, sentContents,
    written_newStreamWriterCmd, written_closeCmd, written_disposeCmd, written_removeVariableCmd]

theorem decodeAll_map_encode : ∀ slices : List (List Byte),
    decodeAll (slices.map encodeToString) = some slices.flatten
  | [] => rfl
  | s :: ss => by
    simp [decodeAll, decodeString_encodeToString, decodeAll_map_encode ss]

theorem uploadContent_succ (env : Env) (fuel : Nat) (w : World) (maxChunks : Int)
    (filePath : String) (reader : Reader) :
    uploadContent env (fuel + 1) w maxChunks filePath reader =
      match uploadChunks env w filePath maxChunks reader with
      | (Outcome.panic msg, w1, reader1) => some (Outcome.panic msg, w1, reader1)
      | (Outcome.ret (_, some err), w1, reader1) => some (Outcome.ret (some err), w1, reader1)
      | (Outcome.ret (true, none), w1, reader1) => some (Outcome.ret none, w1, reader1)
      | (Outcome.ret (false, none), w1, reader1) =>
        uploadContent env fuel w1 maxChunks filePath reader1 := by
  rw [uploadContent]

theorem toNat_guard_pos (maxChunks : Int) (hm : 0 ≤ maxChunks) :
    0 < (if maxChunks = 0 then 1 else maxChunks).toNat := by
  split <;> omega

/-- The session loop with nothing failing: it ends, and the strings sent are the
encodings of consecutive slices of what the reader held. -/
theorem uploadContent_good {env : Env} (henv : env.Good) (filePath : String) (maxChunks : Int)
    (hm : 0 ≤ maxChunks) (hcs : 0 < chunkSize filePath) :
    ∀ (len : Nat) (r : Reader) (w : World), r.data.length ≤ len → r.fault = none →
      ∃ (fuel0 : Nat) (slices : List (List Byte)),
        slices.flatten = r.data ∧
        (∀ s ∈ slices, 0 < s.length ∧ s.length ≤ (chunkSize filePath).toNat) ∧
        ∀ fuel, fuel0 ≤ fuel → ∃ w1 r1 new,
          uploadContent env fuel w maxChunks filePath r = some (Outcome.ret none, w1, r1) ∧
          w1.trace = w.trace ++ new ∧ sentContents new = slices.map encodeToString := by
  intro len
  induction len using Nat.strong_induction_on with
  | _ len ih =>
    intro r w hlen hr
    have hb : 0 < (chunkSize filePath).toNat := by omega
    have hn := toNat_guard_pos maxChunks hm
    obtain ⟨v, w1, hu, ht⟩ := uploadChunks_good henv w filePath maxChunks r (le_of_lt hcs) hr
    obtain ⟨f1, f2, f3, f4, f5⟩ := readN_facts (chunkSize filePath).toNat hb
      (if maxChunks = 0 then 1 else maxChunks).toNat r hr
    generalize readN (chunkSize filePath).toNat (if maxChunks = 0 then 1 else maxChunks).toNat r
      = res at hu ht f1 f2 f3 f4 f5
    obtain ⟨cs, d, r1⟩ := res
    simp only at hu ht f1 f2 f3 f4 f5
    cases d
    · -- the session used its budget: another one follows
      have hcnt := f5 rfl
      have hpos : 0 < cs.flatten.length := by
        cases cs with
        | nil => simp at hcnt; omega
        | cons c cs =>
          have := (f3 c (List.mem_cons_self _ _)).1
          simp only [List.flatten_cons, List.length_append]
          omega
      have hlt : r1.data.length < len := by
        have := congrArg List.length f2
        rw [List.length_append] at this
        omega
      obtain ⟨fuel1, slices1, j1, b1, run1⟩ := ih _ hlt r1 w1 (le_refl _) f1
      refine ⟨fuel1 + 1, cs ++ slices1, ?_, ?_, ?_⟩
      · rw [List.flatten_append, j1, f2]
      · intro s hs
        rcases List.mem_append.mp hs with h | h
        · exact f3 s h
        · exact b1 s h
      · intro fuel hfuel
        obtain ⟨fuel', rfl⟩ : ∃ k, fuel = k + 1 := ⟨fuel - 1, by omega⟩
        obtain ⟨w2, r2, new, hrun, htr, hsent⟩ := run1 fuel' (by omega)
        refine ⟨w2, r2, sessionEvents v filePath cs ++ new, ?_, ?_, ?_⟩
        · rw [uploadContent_succ, hu]
          exact hrun
        · rw [htr, ht, List.append_assoc]
        · rw [sentContents_append, sentContents_sessionEvents, hsent, List.map_append]
    · -- the session saw a read of zero bytes
      refine ⟨1, cs, ?_, f3, ?_⟩
      · rw [f4 rfl, List.append_nil] at f2
        exact f2
      · intro fuel hfuel
        obtain ⟨fuel', rfl⟩ : ∃ k, fuel = k + 1 := ⟨fuel - 1, by omega⟩
        refine ⟨w1, r1, sessionEvents v filePath cs, ?_, ht, sentContents_sessionEvents _ _ _⟩
        rw [uploadContent_succ, hu]

/-- C3: with collaborators and reads that do not fail and `maxChunks >= 0`, the
session loop returns `nil`, and the strings it sent, in send order across all
sessions, are the encodings of consecutive slices of the source, each of between 1
and `chunkSize` bytes, whose concatenation is the source; decoding the strings in
send order and concatenating gives the source back. -/
theorem uploadContent_sends_source_in_order (env : Env) (w : World) (maxChunks : Int)
    (filePath : String) (r : Reader) (henv : env.Good) (hm : 0 ≤ maxChunks)
    (hcs : 0 < chunkSize filePath) (hr : r.fault = none) :
    ∃ (fuel0 : Nat) (slices : List (List Byte)),
      slices.flatten = r.data ∧
      (∀ s ∈ slices, 0 < s.length ∧ (s.length : Int) ≤ chunkSize filePath) ∧
      ∀ fuel, fuel0 ≤ fuel → ∃ w1 r1 new,
        uploadContent env fuel w maxChunks filePath r = some (Outcome.ret none, w1, r1) ∧
        w1.trace = w.trace ++ new ∧ sentContents new = slices.map encodeToString ∧
        decodeAll (sentContents new) = some r.data := by
  obtain ⟨fuel0, slices, hj, hb, hrun⟩ :=
    uploadContent_good henv filePath maxChunks hm hcs r.data.length r w (le_refl _) hr
  refine ⟨fuel0, slices, hj, ?_, ?_⟩
  · intro s hs
    have := hb s hs
    exact ⟨this.1, by omega⟩
  · intro fuel hfuel
    obtain ⟨w1, r1, new, h1, h2, h3⟩ := hrun fuel hfuel
    exact ⟨w1, r1, new, h1, h2, h3, by rw [h3, decodeAll_map_encode, hj]⟩

theorem okEnv_good : okEnv.Good :=
  ⟨fun _ => rfl, fun _ => rfl, fun _ => ⟨_, rfl⟩⟩

/-! ### Sessions of a source that fills the buffer -/

theorem chunksNeeded_zero (b : Nat) (hb : 0 < b) : chunksNeeded 0 b = 0 := by
  unfold chunksNeeded
  exact Nat.div_eq_of_lt (by omega)

theorem chunksNeeded_eq (len b : Nat) (hb : 0 < b) (hl : 0 < len) :
    chunksNeeded len b = (len - 1) / b + 1 := by
  unfold chunksNeeded
  have : len + b - 1 = (len - 1) + b := by omega
  rw [this, Nat.add_div_right _ hb]

theorem chunksNeeded_step (len b : Nat) (hb : 0 < b) (hl : 0 < len) :
    chunksNeeded (len - min b len) b + 1 = chunksNeeded len b := by
  rw [chunksNeeded_eq len b hb hl]
  by_cases h : len ≤ b
  · rw [Nat.min_eq_right h, Nat.sub_self, chunksNeeded_zero b hb,
      Nat.div_eq_of_lt (by omega : len - 1 < b)]
  · have hmin : min b len = b := Nat.min_eq_left (by omega)
    rw [hmin, chunksNeeded_eq (len - b) b hb (by omega)]
    have : len - 1 = (len - b - 1) + b := by omega
    rw [this, Nat.add_div_right _ hb]

theorem read_full {r : Reader} (hc : r.caps = []) (hr : r.fault = none) (b : Nat) :
    (r.read b).reader.caps = [] ∧
    (r.read b).reader.data.length = r.data.length - min b r.data.length ∧
    (0 < r.data.length → 0 < b → (r.read b).bytes.length ≠ 0) := by
  unfold Reader.read
  rw [hr]
  simp only
  cases hd : r.data with
  | nil => simp [hc]
  | cons x xs =>
    have hcap : r.cap = (x :: xs).length := by
      unfold Reader.cap
      rw [hc, hd]
    simp only [hc, hcap, List.tail_nil, List.length_drop, List.length_take, true_and]
    intro _ hb
    simp only [List.length_cons]
    omega

theorem readN_full (b : Nat) (hb : 0 < b) :
    ∀ (n : Nat) (r : Reader), r.caps = [] → r.fault = none →
      (readN b n r).1.length = min n (chunksNeeded r.data.length b) ∧
      (readN b n r).2.1 = decide (chunksNeeded r.data.length b < n) ∧
      (readN b n r).2.2.caps = [] ∧
      chunksNeeded (readN b n r).2.2.data.length b =
        chunksNeeded r.data.length b - min n (chunksNeeded r.data.length b)
  | 0, r, hc, hr => by simp [readN, hc]
  | n + 1, r, hc, hr => by
    obtain ⟨hf, -, -, h0⟩ := read_fault_none hr b
    obtain ⟨g1, g2, g3⟩ := read_full hc hr b
    obtain ⟨i1, i2, i3, i4⟩ := readN_full b hb n (r.read b).reader g1 hf
    rw [readN]
    by_cases hlen : (r.read b).bytes.length = 0
    · have hnil := h0 hlen hb
      have hz : r.data.length = 0 := by rw [hnil]; rfl
      simp only [hlen, if_true]
      rw [g2, hz] at *
      simp [chunksNeeded_zero b hb, g1]
    · have hpos : 0 < r.data.length := by
        by_contra hcon
        have hnil : r.data = [] := List.length_eq_zero.mp (by omega)
        have := (read_fault_none hr b).2.2.1
        rw [hnil] at this
        have hb0 := (List.append_eq_nil.mp this).1
        rw [hb0] at hlen
        exact hlen rfl
      have hstep := chunksNeeded_step r.data.length b hb hpos
      simp only [hlen, if_false, List.length_cons]
      rw [g2] at i1 i2 i4
      refine ⟨by omega, ?_, i3, by omega⟩
      rw [i2]
      simp only [decide_eq_decide]
      omega

theorem uploadContent_sends_source_in_order_witness :
    okEnv.Good ∧ (0 : Int) ≤ 2 ∧ 0 < chunkSize "%TEMP%\\winrmcp-x.tmp" ∧
    (bytesReader [65, 66, 67, 68]).fault = none ∧
    ∃ (fuel0 : Nat) (slices : List (List Byte)),
      slices.flatten = (bytesReader [65, 66, 67, 68]).data ∧
      (∀ s ∈ slices, 0 < s.length ∧ (s.length : Int) ≤ chunkSize "%TEMP%\\winrmcp-x.tmp") ∧
      ∀ fuel, fuel0 ≤ fuel → ∃ w1 r1 new,
        uploadContent okEnv fuel {} 2 "%TEMP%\\winrmcp-x.tmp" (bytesReader [65, 66, 67, 68])
          = some (Outcome.ret none, w1, r1) ∧
        w1.trace = ({} : World).trace ++ new ∧ sentContents new = slices.map encodeToString ∧
        decodeAll (sentContents new) = some (bytesReader [65, 66, 67, 68]).data :=
  ⟨okEnv_good, by decide, by decide, rfl,
   uploadContent_sends_source_in_order okEnv {} 2 "%TEMP%\\winrmcp-x.tmp"
     (bytesReader [65, 66, 67, 68]) okEnv_good (by decide) (by decide) rfl⟩

theorem chunkSize_tempPath :
    chunkSize "%TEMP%\\winrmcp-123e4567-e89b-42d3-a456-426614174000.tmp" = 5958 := by
  decide

/-- C9: a budget of 0 is treated as 1: a session run with `maxChunks = 0` returns the
same result, leaves the same trace of shell openings, commands and shell closings
and the same reader as one run with `maxChunks = 1`, and so does the session loop. -/
theorem uploadChunks_zero_as_one (env : Env) (w : World) (filePath : String) (reader : Reader) :
    uploadChunks env w filePath 0 reader = uploadChunks env w filePath 1 reader ∧
    ∀ fuel, uploadContent env fuel w 0 filePath reader =
      uploadContent env fuel w 1 filePath reader := by
  have h1 : ∀ (w : World) (reader : Reader),
      uploadChunks env w filePath 0 reader = uploadChunks env w filePath 1 reader := by
    intro w reader
    simp [uploadChunks]
  refine ⟨h1 w reader, ?_⟩
  intro fuel
  induction fuel generalizing w reader with
  | zero => rfl
  | succ fuel ih =>
    rw [uploadContent_succ, uploadContent_succ, h1]
    split
    · rfl
    · rfl
    · rfl
    · exact ih _ _

theorem uploadChunks_negative {env : Env} (henv : env.Good) (w : World) (filePath : String)
    (maxChunks : Int) (reader : Reader) (hm : maxChunks < 0) (hcs : 0 ≤ chunkSize filePath) :
    ∃ w1, uploadChunks env w filePath maxChunks reader = (Outcome.ret (false, none), w1, reader) := by
  unfold uploadChunks createShell
  rw [henv.1]
  simp only [not_lt.mpr hcs, if_false]
  obtain ⟨v, w2, hw, -⟩ := writeContentChannel_good henv
    { w with shells := w.shells + 1, trace := w.trace ++ [Event.createShell none] } filePath false
  simp only [hw]
  have h0 : (if maxChunks = 0 then 1 else maxChunks).toNat = 0 := by
    rw [if_neg (by omega)]
    omega
  rw [h0]
  simp only [chunkLoop]
  exact ⟨_, rfl⟩

/-- C10, what the code does: with a negative `maxChunks` the loop of a session is
never entered, so no session reads the source and each returns `done = false`
without error; the session loop returns for no number of sessions, even when no
collaborator fails and the file path leaves room for a chunk. -/
theorem uploadContent_negative_never_returns (env : Env) (maxChunks : Int) (filePath : String)
    (henv : env.Good) (hm : maxChunks < 0) (hcs : 0 ≤ chunkSize filePath) :
    ∀ (fuel : Nat) (w : World) (reader : Reader),
      uploadContent env fuel w maxChunks filePath reader = none := by
  intro fuel
  induction fuel with
  | zero => intro w reader; rfl
  | succ fuel ih =>
    intro w reader
    obtain ⟨w1, h1⟩ := uploadChunks_negative henv w filePath maxChunks reader hm hcs
    rw [uploadContent_succ, h1]
    exact ih w1 reader

theorem uploadContent_negative_never_returns_witness :
    okEnv.Good ∧ (-1 : Int) < 0 ∧ 0 ≤ chunkSize "%TEMP%\\winrmcp-x.tmp" ∧
    ∀ (fuel : Nat) (w : World) (reader : Reader),
      uploadContent okEnv fuel w (-1) "%TEMP%\\winrmcp-x.tmp" reader = none :=
  ⟨okEnv_good, by decide, by decide,
   uploadContent_negative_never_returns okEnv (-1) "%TEMP%\\winrmcp-x.tmp" okEnv_good
     (by decide) (by decide)⟩

/-- C4, what the code does: when the write command of the last chunk a session
sends exits with code 1, the session loop still returns `nil`.  First the chunk is
the `maxChunks`-th of its session (budget 1), then it is the final chunk of the
source inside a budget of 3; each time the trace holds the failed write. -/
theorem uploadContent_loses_last_write_error :
    (uploadContent (failingEnv 1 1) 3 {} 1 "%TEMP%\\winrmcp-x.tmp" (bytesReader [65])).map
        (fun res => (res.1, writeFailed res.2.1.trace)) = some (Outcome.ret none, true) ∧
    (uploadContent (failingEnv 1 1) 3 {} 3 "%TEMP%\\winrmcp-x.tmp" (bytesReader [65])).map
        (fun res => (res.1, writeFailed res.2.1.trace)) = some (Outcome.ret none, true) := by
  decide

/-- The error of a write that is not the last of its session does reach the caller:
three reads of one byte in a session of budget 3, the first write exits with 1. -/
theorem uploadContent_reports_earlier_write_error :
    (uploadContent (failingEnv 1 1) 3 {} 3 "%TEMP%\\winrmcp-x.tmp"
        { data := [65, 66, 67], caps := [0, 0, 0] }).map
        (fun res => (res.1, writeFailed res.2.1.trace))
      = some (Outcome.ret (some ("Error writing to stream for temporary file " ++
          "%TEMP%\\winrmcp-x.tmp: upload operation returned code=1")), true) := by
  decide

/-- C2, what the code does: a source of one byte copied with a session budget of 1
arrives as an empty file.  The second session constructs its stream writer with
`appendTo = false` and so empties the temp file; this is so whether or not the
host accepts the write command of line 287. -/
theorem doCopy_round_trip_fails :
    ∀ lenient, copyToRemote lenient 3 1 [65] = some (Dest.file []) := by
  decide

/-- With a host that accepts the write command, a source sent in one session does
arrive. -/
theorem doCopy_single_session_arrives :
    copyToRemote true 3 2 [65] = some (Dest.file [65]) ∧
    copyToRemote true 3 0 [] = some (Dest.file []) := by
  decide

/-! ### `restoreContent`, `doCopy` -/

theorem fmtInt_ofNat (n : Nat) : fmtInt (Int.ofNat n) = Nat.repr n := rfl

theorem fmtInt_negSucc (n : Nat) : fmtInt (Int.negSucc n) = "-" ++ Nat.repr (n + 1) := rfl

/-- C8: once the shell is created and the script is submitted, `restoreContent`
returns `nil` exactly when the exit code is 0; for a nonzero code `c` its error is
"restore operation returned code=" followed by `c` in decimal, and the error that
`doCopy` returns for it ends with that very message. -/
theorem restoreContent_reports_exit_code (env : Env) (w : World) (fromPath toPath : String)
    (c : Int) (hs : env.createShell w.shells = none)
    (he : env.execute w.execs = ExecOutcome.exit c) :
    ((restoreContent env w fromPath toPath).1 = none ↔ c = 0) ∧
    (c ≠ 0 → (restoreContent env w fromPath toPath).1 =
      some ("restore operation returned code=" ++ fmtInt c)) ∧
    (c ≠ 0 → ∀ (fuel : Nat) (w0 w1 : World) (m : Int) (reader r1 : Reader) (tempFile : String),
      tempFileName env w0 = (Except.ok tempFile, w1) →
      uploadContent env fuel w1 m ("%TEMP%\\" ++ tempFile) reader = some (Outcome.ret none, w, r1) →
      ∃ pre w2, doCopy env fuel w0 m reader toPath =
        some (Outcome.ret (some (pre ++ ("restore operation returned code=" ++ fmtInt c))),
          w2, r1)) := by
  have hres : ∀ fromPath, (restoreContent env w fromPath toPath).1 =
      if c ≠ 0 then some ("restore operation returned code=" ++ fmtInt c) else none := by
    intro fromPath
    unfold restoreContent createShell execute
    rw [hs]
    simp only [he]
    split <;> rfl
  refine ⟨?_, ?_, ?_⟩
  · rw [hres]
    by_cases hc : c = 0 <;> simp [hc]
  · intro hc
    rw [hres, if_pos hc]
  · intro hc fuel w0 w1 m reader r1 tempFile hname hup
    have h1 := hres ("$env:TEMP\\" ++ tempFile)
    rw [if_pos hc] at h1
    unfold doCopy
    rw [hname]
    simp only [hup]
    cases hr : restoreContent env w ("$env:TEMP\\" ++ tempFile) toPath with
    | mk re w3 =>
      rw [hr] at h1
      simp only at h1
      subst h1
      exact ⟨_, w3, rfl⟩

/-- The world after the upload of an empty source in one session: one shell, the
stream-writer construction and the three teardown commands. -/
theorem uploadContent_empty_source :
    uploadContent (failingEnv 4 3) 1 { uuids := 1 } 1
        "%TEMP%\\winrmcp-123e4567-e89b-42d3-a456-426614174000.tmp" (bytesReader [])
      = some (Outcome.ret none, afterEmptyUpload, { data := [], caps := [] }) := by
  decide

theorem restoreContent_reports_exit_code_witness :
    (failingEnv 4 3).createShell afterEmptyUpload.shells = none ∧
    (failingEnv 4 3).execute afterEmptyUpload.execs = ExecOutcome.exit 3 ∧
    (restoreContent (failingEnv 4 3) afterEmptyUpload "$env:TEMP\\winrmcp-x.tmp"
        "C:\\dest.bin").1 = some "restore operation returned code=3" ∧
    ∃ pre w2 r1, doCopy (failingEnv 4 3) 1 {} 1 (bytesReader []) "C:\\dest.bin" =
      some (Outcome.ret (some (pre ++ "restore operation returned code=3")), w2, r1) := by
  have h := restoreContent_reports_exit_code (failingEnv 4 3) afterEmptyUpload
    "$env:TEMP\\winrmcp-x.tmp" "C:\\dest.bin" 3 rfl rfl
  refine ⟨rfl, rfl, h.2.1 (by decide), ?_⟩
  obtain ⟨pre, w2, hd⟩ := h.2.2 (by decide) 1 {} { uuids := 1 } 1 (bytesReader [])
    { data := [], caps := [] } "winrmcp-123e4567-e89b-42d3-a456-426614174000.tmp" rfl
    uploadContent_empty_source
  exact ⟨pre, w2, _, hd⟩

/-! ### Termination of the session loop -/

theorem read_data_length (r : Reader) (b : Nat) :
    (r.read b).reader.data.length ≤ r.data.length ∧
    ((r.read b).bytes.length ≠ 0 → (r.read b).reader.data.length < r.data.length) := by
  unfold Reader.read
  split
  · simp
  · cases hd : r.data with
    | nil => simp
    | cons x xs =>
      simp only [List.length_drop, List.length_take, List.length_cons]
      omega

theorem chunkLoop_progress (env : Env) (b : Nat) :
    ∀ (n : Nat) (w : World) (p : Pipe) (r : Reader),
      (chunkLoop env b n w p r).2.2.2.data.length ≤ r.data.length ∧
      (0 < n → (chunkLoop env b n w p r).1 = (false, none) →
        (chunkLoop env b n w p r).2.2.2.data.length < r.data.length)
  | 0, w, p, r => by simp [chunkLoop]
  | n + 1, w, p, r => by
    obtain ⟨hle, hlt⟩ := read_data_length r b
    rw [chunkLoop]
    split
    · exact ⟨hle, fun _ h => by simp at h⟩
    · split
      · exact ⟨hle, fun _ h => by simp at h⟩
      · rename_i hlen
        have hlt1 := hlt hlen
        split
        · rename_i w1 p1 heq
          have ih := (chunkLoop_progress env b n w1 p1 (r.read b).reader).1
          exact ⟨by omega, fun _ _ => by omega⟩
        · exact ⟨hle, fun _ _ => hlt1⟩

theorem uploadChunks_progress (env : Env) (w : World) (filePath : String) (maxChunks : Int)
    (r : Reader) (hm : 0 ≤ maxChunks) :
    (uploadChunks env w filePath maxChunks r).1 = Outcome.ret (false, none) →
      (uploadChunks env w filePath maxChunks r).2.2.data.length < r.data.length := by
  unfold uploadChunks
  cases createShell env w with
  | mk e w1 =>
    cases e with
    | some err => simp
    | none =>
      simp only
      split
      · simp
      · cases writeContentChannel env w1 filePath false with
        | mk res w2 =>
          cases res with
          | error err => simp
          | ok pipe =>
            simp only
            have hp := (chunkLoop_progress env (chunkSize filePath).toNat
              (if maxChunks = 0 then 1 else maxChunks).toNat w2 pipe r).2
              (toNat_guard_pos maxChunks hm)
            intro h
            simp only [Outcome.ret.injEq] at h
            exact hp h

/-- For `maxChunks >= 0` the session loop returns (a value or a panic), whatever the
collaborators, the file path and the reader do: a session that reports neither an
error nor `done` has consumed at least one byte of the source. -/
theorem uploadContent_terminates (env : Env) (maxChunks : Int) (filePath : String)
    (hm : 0 ≤ maxChunks) :
    ∀ (len : Nat) (r : Reader) (w : World), r.data.length ≤ len →
      ∃ fuel0, ∀ fuel, fuel0 ≤ fuel → uploadContent env fuel w maxChunks filePath r ≠ none := by
  intro len
  induction len using Nat.strong_induction_on with
  | _ len ih =>
    intro r w hlen
    have hprog := uploadChunks_progress env w filePath maxChunks r hm
    cases hu : uploadChunks env w filePath maxChunks r with
    | mk out rest =>
      obtain ⟨w1, r1⟩ := rest
      rw [hu] at hprog
      simp only at hprog
      have hstep : ∀ fuel, uploadContent env (fuel + 1) w maxChunks filePath r =
          match (out, w1, r1) with
          | (Outcome.panic msg, w1, reader1) => some (Outcome.panic msg, w1, reader1)
          | (Outcome.ret (_, some err), w1, reader1) => some (Outcome.ret (some err), w1, reader1)
          | (Outcome.ret (true, none), w1, reader1) => some (Outcome.ret none, w1, reader1)
          | (Outcome.ret (false, none), w1, reader1) =>
            uploadContent env fuel w1 maxChunks filePath reader1 := by
        intro fuel
        rw [uploadContent_succ, hu]
      cases out with
      | panic msg =>
        refine ⟨1, fun fuel hf => ?_⟩
        obtain ⟨k, rfl⟩ : ∃ k, fuel = k + 1 := ⟨fuel - 1, by omega⟩
        rw [hstep]; simp
      | ret res =>
        obtain ⟨d, e⟩ := res
        cases e with
        | some err =>
          refine ⟨1, fun fuel hf => ?_⟩
          obtain ⟨k, rfl⟩ : ∃ k, fuel = k + 1 := ⟨fuel - 1, by omega⟩
          rw [hstep]; simp
        | none =>
          cases d with
          | true =>
            refine ⟨1, fun fuel hf => ?_⟩
            obtain ⟨k, rfl⟩ : ∃ k, fuel = k + 1 := ⟨fuel - 1, by omega⟩
            rw [hstep]; simp
          | false =>
            have hlt := hprog rfl
            obtain ⟨fuel1, h1⟩ := ih r1.data.length (by omega) r1 w1 (le_refl _)
            refine ⟨fuel1 + 1, fun fuel hf => ?_⟩
            obtain ⟨k, rfl⟩ : ∃ k, fuel = k + 1 := ⟨fuel - 1, by omega⟩
            rw [hstep]
            exact h1 k (by omega)

/-- Two sessions, two stream-writer constructions, both with `appendTo = false`: a
source of one byte with a budget of 1. -/
theorem uploadContent_appendFlags_two_sessions :
    (uploadContent okEnv 3 {} 1 "%TEMP%\\winrmcp-x.tmp" (bytesReader [65])).map
        (fun res => (appendFlags res.2.1.trace, sentContents res.2.1.trace))
      = some ([false, false], ["QQ=="]) := by
  decide

/-! ## The goroutine scheduled by the environment: properties -/

namespace Sched

/-! ### What a run leaves in the trace, whatever the schedule -/

theorem grows_refl (P : Event → Prop) (t : List Event) : Grows P t t :=
  ⟨[], by simp, by simp⟩

theorem grows_trans {P : Event → Prop} {a b c : List Event}
    (h1 : Grows P a b) (h2 : Grows P b c) : Grows P a c := by
  obtain ⟨n1, e1, p1⟩ := h1
  obtain ⟨n2, e2, p2⟩ := h2
  refine ⟨n1 ++ n2, by rw [e2, e1, List.append_assoc], ?_⟩
  intro e he
  rcases List.mem_append.mp he with h | h
  · exact p1 e h
  · exact p2 e h

theorem grows_snoc {P : Event → Prop} (t : List Event) {e : Event} (h : P e) :
    Grows P t (t ++ [e]) :=
  ⟨[e], rfl, by simpa using h⟩

theorem grows_append {P : Event → Prop} (t new : List Event) (h : ∀ e ∈ new, P e) :
    Grows P t (t ++ new) :=
  ⟨new, rfl, h⟩

theorem executeCommandSync_event (env : Env) (shell index : Nat) (cmd : Command) :
    (executeCommandSync env shell index cmd).2 = Event.execute shell cmd (env.execute shell index) := by
  unfold executeCommandSync
  cases env.execute shell index <;> rfl

theorem step_events (env : Env) (t : Task) :
    ∀ e ∈ (t.step env).2, ∃ format args out, e = Event.execute t.shell (Command.sprintf format args) out := by
  intro e he
  unfold Task.step at he
  cases hs : t.stage with
  | holding content =>
    rw [hs] at he
    simp only at he
    have hev := executeCommandSync_event env t.shell t.ran (writeCmd content)
    cases hx : executeCommandSync env t.shell t.ran (writeCmd content) with
    | mk err ev =>
      rw [hx] at he hev
      simp only at hev
      cases err <;> simp only [List.mem_singleton] at he <;> subst he <;>
        exact ⟨_, _, _, hev⟩
  | closing =>
    rw [hs] at he
    simp only [List.mem_singleton, executeCommandSync_event] at he
    exact ⟨_, _, _, he⟩
  | disposing =>
    rw [hs] at he
    simp only [List.mem_singleton, executeCommandSync_event] at he
    exact ⟨_, _, _, he⟩
  | removing =>
    rw [hs] at he
    simp only [List.mem_singleton, executeCommandSync_event] at he
    exact ⟨_, _, _, he⟩
  | receiving => rw [hs] at he; simp at he
  | blocked err => rw [hs] at he; simp at he
  | finished => rw [hs] at he; simp at he

theorem eventsAt_task (env : Env) :
    ∀ (ts : List Task) (i : Nat), ∀ e ∈ eventsAt env ts i, e.isTask = true
  | [], _, e, he => by simp [eventsAt] at he
  | t :: _, 0, e, he => by
    obtain ⟨f, a, o, rfl⟩ := step_events env t e (by simpa [eventsAt] using he)
    rfl
  | _ :: ts, i + 1, e, he => eventsAt_task env ts i e (by simpa [eventsAt] using he)

theorem stepTask_grows {P : Event → Prop} (hT : ∀ e, e.isTask = true → P e) (env : Env)
    (w : World) (i : Nat) : Grows P w.trace (stepTask env w i).trace :=
  grows_append _ _ (fun e he => hT e (eventsAt_task env w.tasks i e he))

theorem stepAll_grows {P : Event → Prop} (hT : ∀ e, e.isTask = true → P e) (env : Env) :
    ∀ (is : List Nat) (w : World), Grows P w.trace (stepAll env is w).trace
  | [], _ => grows_refl _ _
  | i :: is, w =>
    grows_trans (stepTask_grows hT env w i) (stepAll_grows hT env is (stepTask env w i))

theorem yield_grows {P : Event → Prop} (hT : ∀ e, e.isTask = true → P e) (env : Env)
    (w : World) : Grows P w.trace (yield env w).trace :=
  stepAll_grows hT env _ _

theorem createShell_grows_sched {P : Event → Prop} (hT : ∀ e, e.isTask = true → P e)
    (hO : ∀ s err, P (Event.createShell s err))
    (env : Env) (w : World) : Grows P w.trace (createShell env w).2.trace :=
  grows_trans (yield_grows hT env w) (grows_snoc _ (hO _ _))

theorem closeShell_grows_sched {P : Event → Prop} (hT : ∀ e, e.isTask = true → P e)
    (hC : ∀ s, P (Event.closeShell s))
    (env : Env) (w : World) (shell : Nat) : Grows P w.trace (closeShell env w shell).trace :=
  grows_trans (yield_grows hT env w) (grows_snoc _ (hC _))

theorem execute_grows {P : Event → Prop} (hT : ∀ e, e.isTask = true → P e)
    (env : Env) (w : World) (shell : Nat) (cmd : Command)
    (hc : ∀ out, P (Event.execute shell cmd out)) :
    Grows P w.trace (execute env w shell cmd).2.trace :=
  grows_trans (yield_grows hT env w) (grows_snoc _ (hc _))

theorem tempVariable_trace_sched (env : Env) (w : World) (pre : String) :
    (tempVariable env w pre).2.trace = w.trace := by
  unfold tempVariable newV4
  cases env.newV4 w.uuids <;> rfl

theorem tempFileName_trace_sched (env : Env) (w : World) :
    (tempFileName env w).2.trace = w.trace := by
  unfold tempFileName newV4
  cases env.newV4 w.uuids <;> rfl

theorem writeContentChannel_grows_sched {P : Event → Prop} (hT : ∀ e, e.isTask = true → P e)
    (env : Env) (w : World) (shell : Nat) (filePath : String) (appendTo : Bool) :
    Grows P w.trace (writeContentChannel env w shell filePath appendTo).2.trace := by
  unfold writeContentChannel
  have ht := tempVariable_trace_sched env w "stream_"
  cases hv : tempVariable env w "stream_" with
  | mk res w1 =>
    rw [hv] at ht
    simp only at ht
    cases res with
    | error err => simpa [ht] using grows_refl _ _
    | ok v =>
      have hg := execute_grows hT env w1 shell (newStreamWriterCmd v filePath appendTo)
        (fun _ => hT _ rfl)
      rw [ht] at hg
      cases hx : execute env w1 shell (newStreamWriterCmd v filePath appendTo) with
      | mk out w2 =>
        rw [hx] at hg
        simp only at hg
        cases out with
        | submitError err => simp only [hx]; exact hg
        | exit code =>
          simp only [hx]
          split <;> exact hg

theorem awaitTask_grows {P : Event → Prop} (hT : ∀ e, e.isTask = true → P e) (env : Env)
    (w : World) (i : Nat) : Grows P w.trace (awaitTask env w i).trace := by
  unfold awaitTask
  split
  · split
    · exact stepTask_grows hT env w i
    · exact grows_refl _ _
  · exact grows_refl _ _

theorem select_grows_sched {P : Event → Prop} (hT : ∀ e, e.isTask = true → P e) (env : Env)
    (w : World) (i : Nat) (content : String) :
    Grows P w.trace (select env w i content).2.trace := by
  have h := grows_trans (yield_grows hT env w) (awaitTask_grows hT env (yield env w) i)
  unfold select
  simp only
  split
  · split <;> exact h
  · exact h

theorem chunkLoop_grows_sched {P : Event → Prop} (hT : ∀ e, e.isTask = true → P e)
    (env : Env) (bufLen task : Nat) :
    ∀ (n : Nat) (w : World) (r : Reader),
      Grows P w.trace (chunkLoop env bufLen task n w r).2.1.trace
  | 0, w, r => by simpa [chunkLoop] using grows_refl _ _
  | n + 1, w, r => by
    rw [chunkLoop]
    split
    · exact grows_refl _ _
    · split
      · exact grows_refl _ _
      · have hs := select_grows_sched hT env w task (encodeToString (r.read bufLen).bytes)
        split
        · rename_i w1 heq
          rw [heq] at hs
          exact grows_trans hs (chunkLoop_grows_sched hT env bufLen task n w1 _)
        · rename_i err w1 heq
          rw [heq] at hs
          exact hs

theorem isTask_isUpload (e : Event) (h : e.isTask = true) : e.isUpload = true := by
  cases e with
  | createShell s err => rfl
  | closeShell s => rfl
  | execute s cmd out =>
    cases cmd with
    | sprintf f a => rfl
    | restoreScript a b => simp [Event.isTask] at h
    | cleanupScript a => simp [Event.isTask] at h

theorem uploadChunks_grows_sched {P : Event → Prop} (hP : ∀ e, e.isUpload = true → P e)
    (env : Env) (w : World) (filePath : String) (maxChunks : Int) (reader : Reader) :
    Grows P w.trace (uploadChunks env w filePath maxChunks reader).2.1.trace := by
  have hT : ∀ e, e.isTask = true → P e := fun e h => hP e (isTask_isUpload e h)
  have hO : ∀ s err, P (Event.createShell s err) := fun _ _ => hP _ rfl
  have hC : ∀ s, P (Event.closeShell s) := fun _ => hP _ rfl
  unfold uploadChunks
  have h1 := createShell_grows_sched hT hO env w
  cases hs : createShell env w with
  | mk e w1 =>
    rw [hs] at h1
    cases e with
    | error err => simpa using h1
    | ok shell =>
      simp only
      split
      · exact grows_trans h1 (closeShell_grows_sched hT hC env _ _)
      · have h2 := writeContentChannel_grows_sched hT env w1 shell filePath false
        cases hw : writeContentChannel env w1 shell filePath false with
        | mk res w2 =>
          rw [hw] at h2
          cases res with
          | error err =>
            exact grows_trans h1 (grows_trans h2 (closeShell_grows_sched hT hC env _ _))
          | ok task =>
            simp only
            have h3 := chunkLoop_grows_sched hT env (chunkSize filePath).toNat task
              (if maxChunks = 0 then 1 else maxChunks).toNat w2 reader
            cases hl : chunkLoop env (chunkSize filePath).toNat task
                (if maxChunks = 0 then 1 else maxChunks).toNat w2 reader with
            | mk res rest =>
              obtain ⟨w3, reader1⟩ := rest
              rw [hl] at h3
              have h4 : Grows P w3.trace (closeShell env (closeOut w3 task) shell).trace :=
                closeShell_grows_sched hT hC env (closeOut w3 task) shell
              exact grows_trans h1 (grows_trans h2 (grows_trans h3 h4))

theorem uploadContent_succ_sched (env : Env) (fuel : Nat) (w : World) (maxChunks : Int)
    (filePath : String) (reader : Reader) :
    uploadContent env (fuel + 1) w maxChunks filePath reader =
      match uploadChunks env w filePath maxChunks reader with
      | (Outcome.panic msg, w1, reader1) => some (Outcome.panic msg, w1, reader1)
      | (Outcome.ret (_, some err), w1, reader1) => some (Outcome.ret (some err), w1, reader1)
      | (Outcome.ret (true, none), w1, reader1) => some (Outcome.ret none, w1, reader1)
      | (Outcome.ret (false, none), w1, reader1) =>
        uploadContent env fuel w1 maxChunks filePath reader1 := by
  rw [uploadContent]

theorem uploadContent_grows_sched {P : Event → Prop} (hP : ∀ e, e.isUpload = true → P e)
    (env : Env) (filePath : String) (maxChunks : Int) :
    ∀ (fuel : Nat) (w : World) (reader : Reader) (out : Outcome (Option GoError)) (w' : World)
      (r' : Reader), uploadContent env fuel w maxChunks filePath reader = some (out, w', r') →
      Grows P w.trace w'.trace
  | 0, w, reader, out, w', r', h => by simp [uploadContent] at h
  | fuel + 1, w, reader, out, w', r', h => by
    rw [uploadContent_succ_sched] at h
    have h1 := uploadChunks_grows_sched hP env w filePath maxChunks reader
    split at h
    · rename_i msg w1 reader1 heq
      rw [heq] at h1
      simp only [Option.some.injEq, Prod.mk.injEq] at h
      rw [← h.2.1]; exact h1
    · rename_i d err w1 reader1 heq
      rw [heq] at h1
      simp only [Option.some.injEq, Prod.mk.injEq] at h
      rw [← h.2.1]; exact h1
    · rename_i w1 reader1 heq
      rw [heq] at h1
      simp only [Option.some.injEq, Prod.mk.injEq] at h
      rw [← h.2.1]; exact h1
    · rename_i w1 reader1 heq
      rw [heq] at h1
      exact grows_trans h1
        (uploadContent_grows_sched hP env filePath maxChunks fuel w1 reader1 out w' r' h)

theorem no_script_of_upload :
    ∀ (es : List Event), (∀ e ∈ es, e.isUpload = true) →
      ranRestore es = false ∧ ranCleanup es = false
  | [], _ => ⟨rfl, rfl⟩
  | e :: es, h => by
    have ih := no_script_of_upload es (fun x hx => h x (List.mem_cons_of_mem _ hx))
    have he := h e (List.mem_cons_self _ _)
    simp only [ranRestore, ranCleanup, List.any_cons, Bool.or_eq_false_iff] at ih ⊢
    refine ⟨⟨?_, ih.1⟩, ⟨?_, ih.2⟩⟩
    · cases e with
      | createShell s err => rfl
      | closeShell s => rfl
      | execute s cmd out =>
        cases cmd with
        | sprintf f a => rfl
        | restoreScript a b => simp [Event.isUpload] at he
        | cleanupScript a => rfl
    · cases e with
      | createShell s err => rfl
      | closeShell s => rfl
      | execute s cmd out =>
        cases cmd with
        | sprintf f a => rfl
        | restoreScript a b => rfl
        | cleanupScript a => simp [Event.isUpload] at he

/-- Requests of the restore phase: those of goroutines still running, the shell of
the phase, the restore script. -/
theorem restoreContent_trace_sched (env : Env) (w : World) (fromPath toPath : String) :
    ∃ tr, (restoreContent env w fromPath toPath).2.trace = w.trace ++ tr ∧ tr ≠ [] ∧
      ranCleanup tr = false := by
  have hgen : ∀ es : List Event, (∀ e ∈ es, e.isUpload = true ∨
      ∃ s out, e = Event.execute s (Command.restoreScript fromPath toPath) out) →
      ranCleanup es = false := by
    intro es
    induction es with
    | nil => intro _; rfl
    | cons e es ih =>
      intro h
      have h1 := ih (fun x hx => h x (List.mem_cons_of_mem _ hx))
      simp only [ranCleanup, List.any_cons, Bool.or_eq_false_iff] at h1 ⊢
      refine ⟨?_, h1⟩
      rcases h e (List.mem_cons_self _ _) with he | ⟨s, out, rfl⟩
      · cases e with
        | createShell s err => rfl
        | closeShell s => rfl
        | execute s cmd out =>
          cases cmd with
          | sprintf f a => rfl
          | restoreScript a b => rfl
          | cleanupScript a => simp [Event.isUpload] at he
      · rfl
  have hT : ∀ e : Event, e.isTask = true → (e.isUpload = true ∨
      ∃ s out, e = Event.execute s (Command.restoreScript fromPath toPath) out) :=
    fun e h => Or.inl (isTask_isUpload e h)
  have hC : ∀ s, ((Event.closeShell s).isUpload = true ∨
      ∃ s1 out, Event.closeShell s = Event.execute s1 (Command.restoreScript fromPath toPath) out) :=
    fun _ => Or.inl rfl
  obtain ⟨y, hy, hyP⟩ := yield_grows hT env w
  have hcs : (createShell env w).2.trace =
      w.trace ++ (y ++ [Event.createShell (yield env w).shells
        (env.createShell (yield env w).shells)]) := by
    simp only [createShell, hy, List.append_assoc]
  have hne : ∀ rest : List Event, y ++ [Event.createShell (yield env w).shells
      (env.createShell (yield env w).shells)] ++ rest ≠ [] := by
    intro rest; simp
  have hfirst : ∀ e ∈ y ++ [Event.createShell (yield env w).shells
      (env.createShell (yield env w).shells)], (e.isUpload = true ∨
      ∃ s out, e = Event.execute s (Command.restoreScript fromPath toPath) out) := by
    intro e he
    rcases List.mem_append.mp he with h | h
    · exact hyP e h
    · simp only [List.mem_singleton] at h
      subst h
      exact Or.inl rfl
  have hfinish : ∀ w2 : World, Grows (fun e => e.isUpload = true ∨
      ∃ s out, e = Event.execute s (Command.restoreScript fromPath toPath) out)
      (createShell env w).2.trace w2.trace →
      ∃ tr, w2.trace = w.trace ++ tr ∧ tr ≠ [] ∧ ranCleanup tr = false := by
    intro w2 hg
    obtain ⟨rest, hr, hrP⟩ := hg
    refine ⟨y ++ [Event.createShell (yield env w).shells
      (env.createShell (yield env w).shells)] ++ rest, ?_, hne rest, hgen _ ?_⟩
    · rw [hr, hcs, List.append_assoc]
    · intro e he
      rcases List.mem_append.mp he with h | h
      · exact hfirst e h
      · exact hrP e h
  unfold restoreContent
  cases hs : createShell env w with
  | mk res w1 =>
    rw [hs] at hfinish
    cases res with
    | error err => exact hfinish w1 (grows_refl _ _)
    | ok shell =>
      simp only
      have hx := execute_grows hT env w1 shell (Command.restoreScript fromPath toPath)
        (fun out => Or.inr ⟨shell, out, rfl⟩)
      cases hex : execute env w1 shell (Command.restoreScript fromPath toPath) with
      | mk out w2 =>
        rw [hex] at hx
        have hcl := closeShell_grows_sched hT hC env w2 shell
        cases out with
        | submitError err => exact hfinish _ (grows_trans hx hcl)
        | exit code =>
          simp only
          split <;> exact hfinish _ (grows_trans hx hcl)

/-- Requests of the cleanup phase: those of goroutines still running, the shell of
the phase, the cleanup script. -/
theorem cleanupContent_trace_sched (env : Env) (w : World) (filePath : String) :
    ∃ tr, (cleanupContent env w filePath).2.trace = w.trace ++ tr ∧ tr ≠ [] ∧
      ranRestore tr = false := by
  have hgen : ∀ es : List Event, (∀ e ∈ es, e.isUpload = true ∨
      ∃ s out, e = Event.execute s (Command.cleanupScript filePath) out) →
      ranRestore es = false := by
    intro es
    induction es with
    | nil => intro _; rfl
    | cons e es ih =>
      intro h
      have h1 := ih (fun x hx => h x (List.mem_cons_of_mem _ hx))
      simp only [ranRestore, List.any_cons, Bool.or_eq_false_iff] at h1 ⊢
      refine ⟨?_, h1⟩
      rcases h e (List.mem_cons_self _ _) with he | ⟨s, out, rfl⟩
      · cases e with
        | createShell s err => rfl
        | closeShell s => rfl
        | execute s cmd out =>
          cases cmd with
          | sprintf f a => rfl
          | restoreScript a b => simp [Event.isUpload] at he
          | cleanupScript a => rfl
      · rfl
  have hT : ∀ e : Event, e.isTask = true → (e.isUpload = true ∨
      ∃ s out, e = Event.execute s (Command.cleanupScript filePath) out) :=
    fun e h => Or.inl (isTask_isUpload e h)
  have hC : ∀ s, ((Event.closeShell s).isUpload = true ∨
      ∃ s1 out, Event.closeShell s = Event.execute s1 (Command.cleanupScript filePath) out) :=
    fun _ => Or.inl rfl
  obtain ⟨y, hy, hyP⟩ := yield_grows hT env w
  have hcs : (createShell env w).2.trace =
      w.trace ++ (y ++ [Event.createShell (yield env w).shells
        (env.createShell (yield env w).shells)]) := by
    simp only [createShell, hy, List.append_assoc]
  have hne : ∀ rest : List Event, y ++ [Event.createShell (yield env w).shells
      (env.createShell (yield env w).shells)] ++ rest ≠ [] := by
    intro rest; simp
  have hfirst : ∀ e ∈ y ++ [Event.createShell (yield env w).shells
      (env.createShell (yield env w).shells)], (e.isUpload = true ∨
      ∃ s out, e = Event.execute s (Command.cleanupScript filePath) out) := by
    intro e he
    rcases List.mem_append.mp he with h | h
    · exact hyP e h
    · simp only [List.mem_singleton] at h
      subst h
      exact Or.inl rfl
  have hfinish : ∀ w2 : World, Grows (fun e => e.isUpload = true ∨
      ∃ s out, e = Event.execute s (Command.cleanupScript filePath) out)
      (createShell env w).2.trace w2.trace →
      ∃ tr, w2.trace = w.trace ++ tr ∧ tr ≠ [] ∧ ranRestore tr = false := by
    intro w2 hg
    obtain ⟨rest, hr, hrP⟩ := hg
    refine ⟨y ++ [Event.createShell (yield env w).shells
      (env.createShell (yield env w).shells)] ++ rest, ?_, hne rest, hgen _ ?_⟩
    · rw [hr, hcs, List.append_assoc]
    · intro e he
      rcases List.mem_append.mp he with h | h
      · exact hfirst e h
      · exact hrP e h
  unfold cleanupContent
  cases hs : createShell env w with
  | mk res w1 =>
    rw [hs] at hfinish
    cases res with
    | error err => exact hfinish w1 (grows_refl _ _)
    | ok shell =>
      simp only
      have hx := execute_grows hT env w1 shell (Command.cleanupScript filePath)
        (fun out => Or.inr ⟨shell, out, rfl⟩)
      cases hex : execute env w1 shell (Command.cleanupScript filePath) with
      | mk out w2 =>
        rw [hex] at hx
        have hcl := closeShell_grows_sched hT hC env w2 shell
        cases out with
        | submitError err => exact hfinish _ (grows_trans hx hcl)
        | exit code =>
          simp only
          split <;> exact hfinish _ (grows_trans hx hcl)

theorem doCopy_phases (env : Env) (fuel : Nat) (w : World) (m : Int) (reader : Reader)
    (toPath : String) (out : Outcome (Option GoError)) (w' : World) (r' : Reader)
    (h : doCopy env fuel w m reader toPath = some (out, w', r')) :
    (∃ err, (tempFileName env w).1 = Except.error err ∧ out ≠ Outcome.ret none ∧
        w'.trace = w.trace) ∨
    ∃ tempFile w1 up w2 tu,
      tempFileName env w = (Except.ok tempFile, w1) ∧
      uploadContent env fuel w1 m ("%TEMP%\\" ++ tempFile) reader = some (up, w2, r') ∧
      w2.trace = w.trace ++ tu ∧ ranRestore tu = false ∧ ranCleanup tu = false ∧
      ((up ≠ Outcome.ret none ∧ out ≠ Outcome.ret none ∧ w' = w2) ∨
       (up = Outcome.ret none ∧ ∃ re w3 tr,
          restoreContent env w2 ("$env:TEMP\\" ++ tempFile) toPath = (re, w3) ∧
          w3.trace = w2.trace ++ tr ∧ tr ≠ [] ∧ ranCleanup tr = false ∧
          ((re ≠ none ∧ out ≠ Outcome.ret none ∧ w' = w3) ∨
           (re = none ∧ ∃ cl tc,
              cleanupContent env w3 ("$env:TEMP\\" ++ tempFile) = (cl, w') ∧
              w'.trace = w3.trace ++ tc ∧ tc ≠ [] ∧ ranRestore tc = false ∧
              (out = Outcome.ret none ↔ cl = none))))) := by
  unfold doCopy at h
  have hnt := tempFileName_trace_sched env w
  cases hname : tempFileName env w with
  | mk name w1 =>
    rw [hname] at h hnt
    simp only at hnt
    cases name with
    | error err =>
      simp only [Option.some.injEq, Prod.mk.injEq] at h
      left
      refine ⟨err, rfl, ?_, ?_⟩
      · rw [← h.1]; simp
      · rw [← h.2.1, hnt]
    | ok tempFile =>
      right
      simp only at h
      cases hup : uploadContent env fuel w1 m ("%TEMP%\\" ++ tempFile) reader with
      | none => rw [hup] at h; simp at h
      | some res =>
        obtain ⟨up, w2, r2⟩ := res
        rw [hup] at h
        obtain ⟨tu, htu, hP⟩ := uploadContent_grows_sched (fun _ he => he) env _ m fuel w1
          reader up w2 r2 hup
        obtain ⟨hnr, hnc⟩ := no_script_of_upload tu hP
        rw [hnt] at htu
        cases up with
        | panic msg =>
          simp only [Option.some.injEq, Prod.mk.injEq] at h
          obtain ⟨h1, h2, h3⟩ := h
          subst h1 h2 h3
          exact ⟨tempFile, w1, _, _, tu, rfl, hup, htu, hnr, hnc,
            Or.inl ⟨by simp, by simp, rfl⟩⟩
        | ret e =>
          cases e with
          | some err =>
            simp only [Option.some.injEq, Prod.mk.injEq] at h
            obtain ⟨h1, h2, h3⟩ := h
            subst h1 h2 h3
            exact ⟨tempFile, w1, _, _, tu, rfl, hup, htu, hnr, hnc,
              Or.inl ⟨by simp, by simp, rfl⟩⟩
          | none =>
            simp only at h
            obtain ⟨tr, htr, htr0, hrc⟩ :=
              restoreContent_trace_sched env w2 ("$env:TEMP\\" ++ tempFile) toPath
            cases hre : restoreContent env w2 ("$env:TEMP\\" ++ tempFile) toPath with
            | mk re w3 =>
              rw [hre] at h htr
              simp only at htr
              cases re with
              | some err =>
                simp only [Option.some.injEq, Prod.mk.injEq] at h
                obtain ⟨h1, h2, h3⟩ := h
                subst h1 h2 h3
                exact ⟨tempFile, w1, _, _, tu, rfl, hup, htu, hnr, hnc,
                  Or.inr ⟨rfl, _, _, tr, hre, htr, htr0, hrc,
                    Or.inl ⟨by simp, by simp, rfl⟩⟩⟩
              | none =>
                simp only at h
                obtain ⟨tc, htc, htc0, hcr⟩ :=
                  cleanupContent_trace_sched env w3 ("$env:TEMP\\" ++ tempFile)
                cases hcl : cleanupContent env w3 ("$env:TEMP\\" ++ tempFile) with
                | mk cl w4 =>
                  rw [hcl] at h htc
                  simp only at htc
                  cases cl with
                  | some err =>
                    simp only [Option.some.injEq, Prod.mk.injEq] at h
                    obtain ⟨h1, h2, h3⟩ := h
                    subst h1 h2 h3
                    exact ⟨tempFile, w1, _, _, tu, rfl, hup, htu, hnr, hnc,
                      Or.inr ⟨rfl, _, _, tr, hre, htr, htr0, hrc,
                        Or.inr ⟨rfl, _, tc, hcl, htc, htc0, hcr, by simp⟩⟩⟩
                  | none =>
                    simp only [Option.some.injEq, Prod.mk.injEq] at h
                    obtain ⟨h1, h2, h3⟩ := h
                    subst h1 h2 h3
                    exact ⟨tempFile, w1, _, _, tu, rfl, hup, htu, hnr, hnc,
                      Or.inr ⟨rfl, _, _, tr, hre, htr, htr0, hrc,
                        Or.inr ⟨rfl, _, tc, hcl, htc, htc0, hcr, by simp⟩⟩⟩

/-- When every phase succeeds `doCopy` returns `nil` in the state cleanup left. -/
theorem doCopy_all_succeed (env : Env) (fuel : Nat) (w w1 w2 w3 w4 : World) (m : Int)
    (reader r1 : Reader) (toPath tempFile : String)
    (hname : tempFileName env w = (Except.ok tempFile, w1))
    (hup : uploadContent env fuel w1 m ("%TEMP%\\" ++ tempFile) reader
      = some (Outcome.ret none, w2, r1))
    (hre : restoreContent env w2 ("$env:TEMP\\" ++ tempFile) toPath = (none, w3))
    (hcl : cleanupContent env w3 ("$env:TEMP\\" ++ tempFile) = (none, w4)) :
    doCopy env fuel w m reader toPath = some (Outcome.ret none, w4, r1) := by
  unfold doCopy
  rw [hname]
  simp only [hup, hre, hcl]

/-! ### Goroutine steps and the records of the tasks -/

theorem modifyAt_length (f : Task → Task) :
    ∀ (ts : List Task) (i : Nat), (modifyAt f ts i).length = ts.length
  | [], _ => rfl
  | _ :: _, 0 => rfl
  | t :: ts, i + 1 => by simp [modifyAt, modifyAt_length f ts i]

theorem modifyAt_map {α : Type} (f : Task → Task) (g : Task → α) (h : ∀ t, g (f t) = g t) :
    ∀ (ts : List Task) (i : Nat), (modifyAt f ts i).map g = ts.map g
  | [], _ => rfl
  | t :: ts, 0 => by simp [modifyAt, h]
  | t :: ts, i + 1 => by simp [modifyAt, modifyAt_map f g h ts i]

theorem getElem?_modifyAt (f : Task → Task) :
    ∀ (ts : List Task) (i j : Nat),
      (modifyAt f ts i)[j]? = if i = j then ts[j]?.map f else ts[j]?
  | [], _, _ => by simp [modifyAt]
  | t :: ts, 0, 0 => by simp [modifyAt]
  | t :: ts, 0, j + 1 => by simp [modifyAt]
  | t :: ts, i + 1, 0 => by simp [modifyAt]
  | t :: ts, i + 1, j + 1 => by
    simp only [modifyAt, List.getElem?_cons_succ, getElem?_modifyAt f ts i j,
      Nat.add_right_cancel_iff]

theorem modifyAt_map_last {α : Type} (f : Task → Task) (g : Task → α) :
    ∀ (ts : List Task) (i : Nat) (t : Task) (A : List α) (a : α), ts.length = i + 1 →
      ts[i]? = some t → ts.map g = A ++ [a] →
      (modifyAt f ts i).map g = A ++ [g (f t)]
  | [], i, _, _, _, hl, _, _ => by simp at hl
  | [x], 0, t, A, a, _, ht, hA => by
    simp only [List.getElem?_cons_zero, Option.some.injEq] at ht
    subst ht
    have hnil : A = [] := by
      cases A with
      | nil => rfl
      | cons b B => simp at hA
    subst hnil
    simp [modifyAt]
  | x :: y :: ts, 0, _, _, _, hl, _, _ => by simp at hl
  | [x], i + 1, _, _, _, hl, _, _ => by simp at hl
  | x :: y :: ts, i + 1, t, A, a, hl, ht, hA => by
    cases A with
    | nil => simp at hA
    | cons b B =>
      simp only [List.map_cons, List.cons_append, List.cons.injEq] at hA
      have ih := modifyAt_map_last f g (y :: ts) i t B a (by simpa using hl)
        (by simpa using ht) (by simpa using hA.2)
      simp only [modifyAt, List.map_cons, List.cons_append, List.cons.injEq]
      exact ⟨hA.1, by simpa [modifyAt] using ih⟩

theorem step_shell (env : Env) (t : Task) : (t.step env).1.shell = t.shell := by
  unfold Task.step
  cases t.stage with
  | holding content =>
    simp only
    cases executeCommandSync env t.shell t.ran (writeCmd content) with
    | mk err e => cases err <;> rfl
  | _ => rfl

theorem step_accepted (env : Env) (t : Task) : (t.step env).1.accepted = t.accepted := by
  unfold Task.step
  cases t.stage with
  | holding content =>
    simp only
    cases executeCommandSync env t.shell t.ran (writeCmd content) with
    | mk err e => cases err <;> rfl
  | _ => rfl

theorem executeCommandSync_good_sched {env : Env} (henv : env.Good) (shell index : Nat)
    (cmd : Command) :
    executeCommandSync env shell index cmd = (none, Event.execute shell cmd (ExecOutcome.exit 0)) := by
  unfold executeCommandSync
  rw [henv.2.1]
  rfl

theorem step_holding_good {env : Env} (henv : env.Good) (t : Task) (c : String)
    (hs : t.stage = Stage.holding c) :
    t.step env = ({ t with ran := t.ran + 1, written := t.written + 1,
                           stage := if t.closed then Stage.closing else Stage.receiving },
                  [Event.execute t.shell (writeCmd c) (ExecOutcome.exit 0)]) := by
  unfold Task.step
  rw [hs]
  simp only [executeCommandSync_good_sched henv]

theorem step_receiving (env : Env) (t : Task) (hs : t.stage = Stage.receiving) :
    t.step env = (t, []) := by
  unfold Task.step
  rw [hs]

theorem step_live {env : Env} (henv : env.Good) (t : Task) (ht : t.Live) :
    (t.step env).1.Live := by
  obtain ⟨hc, hs | ⟨c, hs⟩⟩ := ht
  · rw [step_receiving env t hs]
    exact ⟨hc, Or.inl hs⟩
  · rw [step_holding_good henv t c hs]
    exact ⟨hc, Or.inl (by simp [hc])⟩

theorem stepTask_tasks (env : Env) (w : World) (i : Nat) :
    (stepTask env w i).tasks = modifyAt (fun t => (t.step env).1) w.tasks i := rfl

theorem stepTask_live {env : Env} (henv : env.Good) (w : World) (i j : Nat)
    (h : LiveAt i w) : LiveAt i (stepTask env w j) := by
  obtain ⟨t, ht, hl⟩ := h
  unfold LiveAt
  rw [stepTask_tasks, getElem?_modifyAt]
  by_cases hji : j = i
  · rw [if_pos hji, ht]
    exact ⟨_, rfl, step_live henv t hl⟩
  · rw [if_neg hji]
    exact ⟨t, ht, hl⟩

theorem same_refl (w : World) : Same w w := ⟨rfl, rfl, rfl, rfl, rfl⟩

theorem same_trans {a b c : World} (h1 : Same a b) (h2 : Same b c) : Same a c :=
  ⟨h2.shells.trans h1.shells, h2.uuids.trans h1.uuids, h2.length.trans h1.length,
   h2.shell.trans h1.shell, h2.accepted.trans h1.accepted⟩

theorem stepTask_same (env : Env) (w : World) (i : Nat) : Same w (stepTask env w i) :=
  ⟨rfl, rfl, modifyAt_length _ _ _,
   modifyAt_map _ _ (fun t => step_shell env t) _ _,
   modifyAt_map _ _ (fun t => step_accepted env t) _ _⟩

theorem stepAll_same (env : Env) : ∀ (is : List Nat) (w : World), Same w (stepAll env is w)
  | [], w => same_refl w
  | i :: is, w => same_trans (stepTask_same env w i) (stepAll_same env is _)

theorem stepAll_live {env : Env} (henv : env.Good) (i : Nat) :
    ∀ (is : List Nat) (w : World), LiveAt i w → LiveAt i (stepAll env is w)
  | [], _, h => h
  | j :: is, w, h => stepAll_live henv i is _ (stepTask_live henv w i j h)

theorem yield_same (env : Env) (w : World) : Same w (yield env w) := by
  have h := stepAll_same env (env.schedule w.points) { w with points := w.points + 1 }
  exact ⟨h.shells, h.uuids, h.length, h.shell, h.accepted⟩

theorem yield_live {env : Env} (henv : env.Good) (i : Nat) (w : World) (h : LiveAt i w) :
    LiveAt i (yield env w) :=
  stepAll_live henv i _ _ h

theorem awaitTask_same (env : Env) (w : World) (i : Nat) : Same w (awaitTask env w i) := by
  unfold awaitTask
  split
  · split
    · exact stepTask_same env w i
    · exact same_refl w
  · exact same_refl w

/-- After the wait of the `select` a live goroutine waits in `range input`. -/
theorem awaitTask_receiving {env : Env} (henv : env.Good) (w : World) (i : Nat)
    (h : LiveAt i w) :
    ∃ t, (awaitTask env w i).tasks[i]? = some t ∧ t.stage = Stage.receiving ∧ t.closed = false := by
  obtain ⟨t, ht, hc, hs | ⟨c, hs⟩⟩ := h
  · refine ⟨t, ?_, hs, hc⟩
    unfold awaitTask
    rw [ht]
    simp only [hs]
    exact ht
  · unfold awaitTask
    rw [ht]
    simp only [hs]
    rw [stepTask_tasks, getElem?_modifyAt, if_pos rfl, ht]
    refine ⟨_, rfl, ?_, ?_⟩
    · show (t.step env).1.stage = Stage.receiving
      rw [step_holding_good henv t c hs]
      simp [hc]
    · show (t.step env).1.closed = false
      rw [step_holding_good henv t c hs]
      exact hc

/-! ### A session in which nothing fails, under any schedule -/

theorem openedShells_append (a b : List Event) :
    openedShells (a ++ b) = openedShells a ++ openedShells b := by
  induction a with
  | nil => rfl
  | cons e es ih =>
    cases e with
    | createShell s err => cases err <;> simp [openedShells, ih]
    | closeShell s => simpa [openedShells] using ih
    | execute s cmd out => simpa [openedShells] using ih

theorem openedShells_of_not_open :
    ∀ (es : List Event), (∀ e ∈ es, e.isTask = true ∨ ∃ s, e = Event.closeShell s) →
      openedShells es = []
  | [], _ => rfl
  | e :: es, h => by
    have ih := openedShells_of_not_open es (fun x hx => h x (List.mem_cons_of_mem _ hx))
    rcases h e (List.mem_cons_self _ _) with he | ⟨s, rfl⟩
    · cases e with
      | createShell s err => simp [Event.isTask] at he
      | closeShell s => simpa [openedShells] using ih
      | execute s cmd out => simpa [openedShells] using ih
    · simpa [openedShells] using ih

/-- The `select` of a live session with nothing failing: the content is taken. -/
theorem select_good_sched {env : Env} (henv : env.Good) (w : World) (i : Nat) (content : String)
    (A : List (List String)) (acc : List String)
    (hlive : LiveAt i w) (hlen : w.tasks.length = i + 1)
    (hacc : w.tasks.map (fun t => t.accepted) = A ++ [acc]) :
    ∃ w1, select env w i content = (Selected.sent, w1) ∧ LiveAt i w1 ∧
      w1.tasks.length = i + 1 ∧
      w1.tasks.map (fun t => t.accepted) = A ++ [acc ++ [content]] ∧
      w1.tasks.map (fun t => t.shell) = w.tasks.map (fun t => t.shell) ∧
      w1.shells = w.shells ∧ w1.uuids = w.uuids := by
  have hs1 := yield_same env w
  have hs2 := awaitTask_same env (yield env w) i
  have hs := same_trans hs1 hs2
  obtain ⟨t, ht, hst, hcl⟩ := awaitTask_receiving henv (yield env w) i (yield_live henv i w hlive)
  have hacc1 : (awaitTask env (yield env w) i).tasks.map (fun t => t.accepted) = A ++ [acc] := by
    rw [hs.accepted, hacc]
  have hlen1 : (awaitTask env (yield env w) i).tasks.length = i + 1 := by
    rw [hs.length, hlen]
  have hlast : t.accepted = acc := by
    have h1 : ((awaitTask env (yield env w) i).tasks.map (fun t => t.accepted))[i]? =
        some t.accepted := by
      rw [List.getElem?_map, ht]; rfl
    rw [hacc1] at h1
    have hA : A.length = i := by
      have := congrArg List.length hacc1
      simp only [List.length_map, List.length_append, List.length_singleton] at this
      omega
    rw [List.getElem?_append_right (by omega), hA] at h1
    simpa using h1.symm
  unfold select
  simp only [ht, hst]
  refine ⟨_, rfl, ?_, ?_, ?_, ?_, hs.shells, hs.uuids⟩
  · unfold LiveAt
    simp only [getElem?_modifyAt, if_pos, ht, Option.map_some']
    exact ⟨_, rfl, hcl, Or.inr ⟨content, rfl⟩⟩
  · simp only [modifyAt_length, hlen1]
  · have := modifyAt_map_last (Task.accept content) (fun t => t.accepted)
      (awaitTask env (yield env w) i).tasks i t A acc hlen1 ht hacc1
    rw [this]
    simp [Task.accept, hlast]
  · show (modifyAt (Task.accept content) (awaitTask env (yield env w) i).tasks i).map
        (fun t => t.shell) = _
    rw [modifyAt_map (Task.accept content) (fun t => t.shell) (fun _ => rfl), hs.shell]

theorem chunkLoop_succ_sched (env : Env) (bufLen task n : Nat) (w : World) (r : Reader)
    (he : ∀ msg, (r.read bufLen).err ≠ some (ReadErr.other msg)) :
    chunkLoop env bufLen task (n + 1) w r =
      if (r.read bufLen).bytes.length = 0 then ((true, none), w, (r.read bufLen).reader)
      else
        match select env w task (encodeToString (r.read bufLen).bytes) with
        | (Selected.sent, w1) => chunkLoop env bufLen task n w1 (r.read bufLen).reader
        | (Selected.received err, w1) => ((false, err), w1, (r.read bufLen).reader) := by
  rw [chunkLoop]
  cases herr : (r.read bufLen).err with
  | none => rfl
  | some e =>
    cases e with
    | eof => rfl
    | other msg => exact absurd herr (he msg)

theorem chunkLoop_good_sched {env : Env} (henv : env.Good) (bufLen i : Nat) :
    ∀ (n : Nat) (w : World) (r : Reader) (A : List (List String)) (acc : List String),
      LiveAt i w → w.tasks.length = i + 1 →
      w.tasks.map (fun t => t.accepted) = A ++ [acc] → r.fault = none →
      ∃ w1, chunkLoop env bufLen i n w r =
          (((readN bufLen n r).2.1, none), w1, (readN bufLen n r).2.2) ∧
        LiveAt i w1 ∧ w1.tasks.length = i + 1 ∧
        w1.tasks.map (fun t => t.accepted) =
          A ++ [acc ++ (readN bufLen n r).1.map encodeToString] ∧
        w1.tasks.map (fun t => t.shell) = w.tasks.map (fun t => t.shell) ∧
        w1.shells = w.shells ∧ w1.uuids = w.uuids
  | 0, w, r, A, acc, hl, hn, ha, _ =>
    ⟨w, by simp [chunkLoop, readN], hl, hn, by simpa [readN] using ha, rfl, rfl, rfl⟩
  | n + 1, w, r, A, acc, hl, hn, ha, hr => by
    obtain ⟨hf, he, -, -⟩ := read_fault_none hr bufLen
    rw [chunkLoop_succ_sched env bufLen i n w r he, readN]
    by_cases hlen : (r.read bufLen).bytes.length = 0
    · simp only [hlen, if_true]
      exact ⟨w, rfl, hl, hn, by simpa using ha, rfl, rfl, rfl⟩
    · simp only [hlen, if_false]
      obtain ⟨w1, hs, hl1, hn1, ha1, hsh1, hshells1, hu1⟩ :=
        select_good_sched henv w i (encodeToString (r.read bufLen).bytes) A acc hl hn ha
      obtain ⟨w2, hc, hl2, hn2, ha2, hsh2, hshells2, hu2⟩ :=
        chunkLoop_good_sched henv bufLen i n w1 (r.read bufLen).reader A
          (acc ++ [encodeToString (r.read bufLen).bytes]) hl1 hn1 ha1 hf
      simp only [hs, hc]
      refine ⟨w2, rfl, hl2, hn2, ?_, hsh2.trans hsh1, hshells2.trans hshells1, hu2.trans hu1⟩
      rw [ha2]
      simp

theorem createShell_good {env : Env} (henv : env.Good) (w : World) :
    ∃ w1 y, createShell env w = (Except.ok w.shells, w1) ∧
      w1.shells = w.shells + 1 ∧ w1.uuids = w.uuids ∧
      w1.tasks.length = w.tasks.length ∧
      w1.tasks.map (fun t => t.shell) = w.tasks.map (fun t => t.shell) ∧
      w1.tasks.map (fun t => t.accepted) = w.tasks.map (fun t => t.accepted) ∧
      w1.trace = w.trace ++ y ++ [Event.createShell w.shells none] ∧
      ∀ e ∈ y, e.isTask = true := by
  have hs := yield_same env w
  obtain ⟨y, hy, hyP⟩ := @yield_grows (fun e => e.isTask = true) (fun _ h => h) env w
  refine ⟨{ yield env w with
      shells := w.shells + 1
      trace := w.trace ++ y ++ [Event.createShell w.shells none] }, y, ?_, rfl, hs.uuids,
    hs.length, hs.shell, hs.accepted, rfl, hyP⟩
  unfold createShell
  simp only [henv.1, hs.shells, hy]

theorem writeContentChannel_good_sched {env : Env} (henv : env.Good) (w : World) (shell : Nat)
    (filePath : String) (appendTo : Bool) :
    ∃ w1, writeContentChannel env w shell filePath appendTo = (Except.ok w.tasks.length, w1) ∧
      LiveAt w.tasks.length w1 ∧ w1.tasks.length = w.tasks.length + 1 ∧
      w1.shells = w.shells ∧
      w1.tasks.map (fun t => t.shell) = w.tasks.map (fun t => t.shell) ++ [shell] ∧
      w1.tasks.map (fun t => t.accepted) = w.tasks.map (fun t => t.accepted) ++ [[]] ∧
      Grows (fun e => e.isTask = true ∨ ∃ s, e = Event.closeShell s) w.trace w1.trace := by
  have hg := @writeContentChannel_grows_sched
    (fun e => e.isTask = true ∨ ∃ s, e = Event.closeShell s) (fun _ h => Or.inl h)
    env w shell filePath appendTo
  obtain ⟨u, hu⟩ := henv.2.2 w.uuids
  have hs := yield_same env { w with uuids := w.uuids + 1 }
  have hl : (yield env { w with uuids := w.uuids + 1 }).tasks.length = w.tasks.length :=
    hs.length
  have heq : writeContentChannel env w shell filePath appendTo =
      (Except.ok w.tasks.length,
       { yield env { w with uuids := w.uuids + 1 } with
         tasks := (yield env { w with uuids := w.uuids + 1 }).tasks ++
           [⟨shell, "stream_" ++ String.mk (u.data.filter fun c => c ≠ '-'), filePath, 1, false,
             Stage.receiving, [], 0⟩]
         trace := (yield env { w with uuids := w.uuids + 1 }).trace ++
           [Event.execute shell (newStreamWriterCmd
             ("stream_" ++ String.mk (u.data.filter fun c => c ≠ '-')) filePath appendTo)
             (ExecOutcome.exit 0)] }) := by
    unfold writeContentChannel tempVariable newV4
    rw [hu]
    simp only
    unfold execute
    simp only [henv.2.1, ne_eq, not_true_eq_false, if_false, hl]
  rw [heq] at hg
  refine ⟨_, heq, ?_, ?_, hs.shells, ?_, ?_, hg⟩
  · unfold LiveAt
    refine ⟨⟨shell, "stream_" ++ String.mk (u.data.filter fun c => c ≠ '-'), filePath, 1, false,
      Stage.receiving, [], 0⟩, ?_, rfl, Or.inl rfl⟩
    simp only
    rw [List.getElem?_append_right (by omega), hl]
    simp
  · simp only [List.length_append, List.length_singleton, hl]
  · simp only [List.map_append, List.map_cons, List.map_nil]
    rw [hs.shell]
  · simp only [List.map_append, List.map_cons, List.map_nil]
    rw [hs.accepted]

theorem closeOut_same (w : World) (i : Nat) : Same w (closeOut w i) := by
  have hsh : ∀ t : Task, (Task.close t).shell = t.shell := by
    intro t; unfold Task.close; split <;> rfl
  have hacc : ∀ t : Task, (Task.close t).accepted = t.accepted := by
    intro t; unfold Task.close; split <;> rfl
  exact ⟨rfl, rfl, modifyAt_length _ _ _, modifyAt_map _ _ hsh _ _, modifyAt_map _ _ hacc _ _⟩

theorem closeShell_same (env : Env) (w : World) (shell : Nat) : Same w (closeShell env w shell) := by
  have h := yield_same env w
  exact ⟨h.shells, h.uuids, h.length, h.shell, h.accepted⟩

/-- A session in which nothing fails, whatever the schedule: the reads of `readN`,
each handed to the goroutine of the session in order. -/
theorem uploadChunks_good_sched {env : Env} (henv : env.Good) (w : World) (filePath : String)
    (maxChunks : Int) (r : Reader) (hcs : 0 ≤ chunkSize filePath) (hr : r.fault = none) :
    ∃ w1 new, uploadChunks env w filePath maxChunks r =
        (Outcome.ret ((readN (chunkSize filePath).toNat
            (if maxChunks = 0 then 1 else maxChunks).toNat r).2.1, none), w1,
          (readN (chunkSize filePath).toNat (if maxChunks = 0 then 1 else maxChunks).toNat r).2.2) ∧
      w1.shells = w.shells + 1 ∧
      w1.tasks.map (fun t => t.shell) = w.tasks.map (fun t => t.shell) ++ [w.shells] ∧
      w1.tasks.map (fun t => t.accepted) = w.tasks.map (fun t => t.accepted) ++
        [(readN (chunkSize filePath).toNat
          (if maxChunks = 0 then 1 else maxChunks).toNat r).1.map encodeToString] ∧
      w1.trace = w.trace ++ new ∧ openedShells new = [w.shells] := by
  obtain ⟨w1, y, hc, hsh1, -, hlen1, hm1, ha1, ht1, hy⟩ := createShell_good henv w
  obtain ⟨w2, hw, hlive2, hlen2, hsh2, hm2, ha2, hg2⟩ :=
    writeContentChannel_good_sched henv w1 w.shells filePath false
  obtain ⟨w3, hl, hlive3, hlen3, ha3, hm3, hsh3, -⟩ :=
    chunkLoop_good_sched henv (chunkSize filePath).toNat w1.tasks.length
      (if maxChunks = 0 then 1 else maxChunks).toNat w2 r
      (w1.tasks.map (fun t => t.accepted)) [] hlive2 hlen2 ha2 hr
  have hg3 := @chunkLoop_grows_sched (fun e => e.isTask = true ∨ ∃ s, e = Event.closeShell s)
    (fun _ h => Or.inl h) env (chunkSize filePath).toNat w1.tasks.length
    (if maxChunks = 0 then 1 else maxChunks).toNat w2 r
  rw [hl] at hg3
  have hg4 := @closeShell_grows_sched (fun e => e.isTask = true ∨ ∃ s, e = Event.closeShell s)
    (fun _ h => Or.inl h) (fun s => Or.inr ⟨s, rfl⟩) env (closeOut w3 w1.tasks.length) w.shells
  have hs4 := same_trans (closeOut_same w3 w1.tasks.length)
    (closeShell_same env (closeOut w3 w1.tasks.length) w.shells)
  obtain ⟨rest, hrest, hrP⟩ := grows_trans hg2 (grows_trans hg3 hg4)
  refine ⟨closeShell env (closeOut w3 w1.tasks.length) w.shells,
    y ++ [Event.createShell w.shells none] ++ rest, ?_, ?_, ?_, ?_, ?_, ?_⟩
  · unfold uploadChunks
    rw [hc]
    simp only [not_lt.mpr hcs, if_false, hw, hl]
  · rw [hs4.shells, hsh3, hsh2, hsh1]
  · rw [hs4.shell, hm3, hm2, hm1]
  · rw [hs4.accepted, ha3, ha1]
    simp
  · rw [hrest, ht1, List.append_assoc, List.append_assoc]
    simp
  · rw [openedShells_append, openedShells_append, openedShells_of_not_open rest hrP,
      openedShells_of_not_open y (fun e he => Or.inl (hy e he))]
    rfl

/-! ### The write requests of each shell, under any schedule and any failure -/

theorem writesOn_append (s : Nat) (a b : List Event) :
    writesOn s (a ++ b) = writesOn s a + writesOn s b := by
  induction a with
  | nil => simp [writesOn]
  | cons e es ih =>
    cases e with
    | createShell s1 err => simpa [writesOn] using ih
    | closeShell s1 => simpa [writesOn] using ih
    | execute s1 cmd out =>
      simp only [List.cons_append, writesOn, ih, List.append_eq]
      omega

theorem writesOn_execute (s s1 : Nat) (cmd : Command) (out : ExecOutcome) :
    writesOn s [Event.execute s1 cmd out] = if s1 = s ∧ cmd.written.isSome then 1 else 0 := by
  simp [writesOn]

theorem step_written (env : Env) (t : Task) (ht : t.Ok) :
    (t.step env).1.Ok ∧
    (t.step env).1.written = t.written + writesOn t.shell (t.step env).2 ∧
    ∀ s, s ≠ t.shell → writesOn s (t.step env).2 = 0 := by
  unfold Task.Ok Task.pending at ht ⊢
  unfold Task.step
  cases hs : t.stage with
  | holding content =>
    rw [hs] at ht
    simp only at ht ⊢
    have hev := executeCommandSync_event env t.shell t.ran (writeCmd content)
    cases hx : executeCommandSync env t.shell t.ran (writeCmd content) with
    | mk err ev =>
      rw [hx] at hev
      simp only at hev
      subst hev
      cases err with
      | none =>
        simp only [writesOn_execute, written_writeCmd, Option.isSome_some, and_true, if_true]
        refine ⟨?_, by simp, fun s hne => by simp [Ne.symm hne]⟩
        by_cases hc : t.closed = true <;> simp [hc] <;> omega
      | some e =>
        simp only [writesOn_execute, written_writeCmd, Option.isSome_some, and_true, if_true]
        exact ⟨by omega, by simp, fun s hne => by simp [Ne.symm hne]⟩
  | closing =>
    rw [hs] at ht
    simp only [executeCommandSync_event, writesOn_execute, written_closeCmd] at ht ⊢
    exact ⟨by simpa using ht, by simp, fun s _ => by simp⟩
  | disposing =>
    rw [hs] at ht
    simp only [executeCommandSync_event, writesOn_execute, written_disposeCmd] at ht ⊢
    exact ⟨by simpa using ht, by simp, fun s _ => by simp⟩
  | removing =>
    rw [hs] at ht
    simp only [executeCommandSync_event, writesOn_execute, written_removeVariableCmd] at ht ⊢
    exact ⟨by simpa using ht, by simp, fun s _ => by simp⟩
  | receiving =>
    rw [hs] at ht
    simp only [hs]
    exact ⟨ht, by simp [writesOn], fun s _ => rfl⟩
  | blocked err =>
    rw [hs] at ht
    simp only [hs]
    exact ⟨ht, by simp [writesOn], fun s _ => rfl⟩
  | finished =>
    rw [hs] at ht
    simp only [hs]
    exact ⟨ht, by simp [writesOn], fun s _ => rfl⟩

theorem writtenOn_append (s : Nat) (a b : List Task) :
    writtenOn s (a ++ b) = writtenOn s a + writtenOn s b := by
  induction a with
  | nil => simp [writtenOn]
  | cons t ts ih => simp only [List.cons_append, writtenOn, ih, List.append_eq]; omega

theorem writtenOn_step (env : Env) (s : Nat) :
    ∀ (ts : List Task) (i : Nat), (∀ t ∈ ts, t.Ok) →
      writtenOn s (modifyAt (fun t => (t.step env).1) ts i) =
        writtenOn s ts + writesOn s (eventsAt env ts i)
  | [], _, _ => by simp [modifyAt, eventsAt, writtenOn, writesOn]
  | t :: ts, 0, h => by
    obtain ⟨-, hw, hz⟩ := step_written env t (h t (List.mem_cons_self _ _))
    simp only [modifyAt, eventsAt, writtenOn, step_shell]
    by_cases hs : t.shell = s
    · subst hs
      simp only [if_true, hw]
      omega
    · simp only [if_neg hs, hz s (Ne.symm hs)]
      omega
  | t :: ts, i + 1, h => by
    have ih := writtenOn_step env s ts i (fun x hx => h x (List.mem_cons_of_mem _ hx))
    simp only [modifyAt, eventsAt, writtenOn, ih]
    omega

theorem ok_modifyAt (f : Task → Task) :
    ∀ (ts : List Task) (i : Nat), (∀ t ∈ ts, t.Ok) →
      (∀ t, ts[i]? = some t → (f t).Ok) → ∀ t ∈ modifyAt f ts i, t.Ok
  | [], _, _, _, t, ht => by simp [modifyAt] at ht
  | x :: ts, 0, h, hf, t, ht => by
    simp only [modifyAt, List.mem_cons] at ht
    rcases ht with rfl | ht
    · exact hf x (by simp)
    · exact h t (List.mem_cons_of_mem _ ht)
  | x :: ts, i + 1, h, hf, t, ht => by
    simp only [modifyAt, List.mem_cons] at ht
    rcases ht with rfl | ht
    · exact h _ (List.mem_cons_self _ _)
    · exact ok_modifyAt f ts i (fun y hy => h y (List.mem_cons_of_mem _ hy))
        (fun y hy => hf y (by simpa using hy)) t ht

theorem writtenOn_modifyAt (f : Task → Task) (s : Nat)
    (hf : ∀ t, (f t).shell = t.shell ∧ (f t).written = t.written) :
    ∀ (ts : List Task) (i : Nat), writtenOn s (modifyAt f ts i) = writtenOn s ts
  | [], _ => rfl
  | t :: ts, 0 => by simp only [modifyAt, writtenOn, (hf t).1, (hf t).2]
  | t :: ts, i + 1 => by simp only [modifyAt, writtenOn, writtenOn_modifyAt f s hf ts i]

theorem inv_stepTask {base : List Event} {w : World} (h : Inv base w) (env : Env) (i : Nat) :
    Inv base (stepTask env w i) := by
  obtain ⟨hok, new, htr, hw⟩ := h
  refine ⟨?_, new ++ eventsAt env w.tasks i, ?_, ?_⟩
  · exact ok_modifyAt _ w.tasks i hok (fun t ht => (step_written env t
      (hok t (List.getElem?_mem ht))).1)
  · show w.trace ++ eventsAt env w.tasks i = _
    rw [htr, List.append_assoc]
  · intro s
    show _ = writtenOn s (modifyAt (fun t => (t.step env).1) w.tasks i)
    rw [writesOn_append, hw, writtenOn_step env s w.tasks i hok]

theorem inv_stepAll {base : List Event} (env : Env) :
    ∀ (is : List Nat) (w : World), Inv base w → Inv base (stepAll env is w)
  | [], _, h => h
  | i :: is, _, h => inv_stepAll env is _ (inv_stepTask h env i)

theorem inv_points {base : List Event} {w : World} (h : Inv base w) (n : Nat) :
    Inv base { w with points := n } := h

theorem inv_yield {base : List Event} {w : World} (h : Inv base w) (env : Env) :
    Inv base (yield env w) :=
  inv_stepAll env _ _ (inv_points h _)

theorem inv_awaitTask {base : List Event} {w : World} (h : Inv base w) (env : Env) (i : Nat) :
    Inv base (awaitTask env w i) := by
  unfold awaitTask
  split
  · split
    · exact inv_stepTask h env i
    · exact h
  · exact h

/-- A request of the main goroutine that is no chunk write keeps the records. -/
theorem inv_event {base : List Event} {w w1 : World} (h : Inv base w) (e : Event)
    (htasks : w1.tasks = w.tasks) (htrace : w1.trace = w.trace ++ [e])
    (he : ∀ s, writesOn s [e] = 0) : Inv base w1 := by
  obtain ⟨hok, new, htr, hw⟩ := h
  refine ⟨by rw [htasks]; exact hok, new ++ [e], by rw [htrace, htr, List.append_assoc], ?_⟩
  intro s
  rw [writesOn_append, he s, hw, htasks]
  rfl

theorem inv_createShell {base : List Event} {w : World} (h : Inv base w) (env : Env) :
    Inv base (createShell env w).2 :=
  inv_event (inv_yield h env) _ rfl rfl (fun _ => rfl)

theorem inv_closeShell {base : List Event} {w : World} (h : Inv base w) (env : Env)
    (shell : Nat) : Inv base (closeShell env w shell) :=
  inv_event (inv_yield h env) _ rfl rfl (fun _ => rfl)

theorem inv_execute {base : List Event} {w : World} (h : Inv base w) (env : Env)
    (shell : Nat) (cmd : Command) (hc : cmd.written = none) :
    Inv base (execute env w shell cmd).2 :=
  inv_event (inv_yield h env) _ rfl rfl (fun s => by simp [writesOn_execute, hc])

/-- A change of the i-th task that keeps its shell and its count of writes. -/
theorem inv_modify {base : List Event} {w : World} (h : Inv base w) (f : Task → Task) (i : Nat)
    (hf : ∀ t, (f t).shell = t.shell ∧ (f t).written = t.written)
    (hok : ∀ t, w.tasks[i]? = some t → t.Ok → (f t).Ok) :
    Inv base { w with tasks := modifyAt f w.tasks i } := by
  obtain ⟨hall, new, htr, hw⟩ := h
  refine ⟨ok_modifyAt f w.tasks i hall (fun t ht => hok t ht (hall t (List.getElem?_mem ht))),
    new, htr, ?_⟩
  intro s
  rw [hw s]
  exact (writtenOn_modifyAt f s hf w.tasks i).symm

theorem inv_of_eq {base : List Event} {w w1 : World} (h : Inv base w)
    (ht : w1.tasks = w.tasks) (htr : w1.trace = w.trace) : Inv base w1 := by
  obtain ⟨hok, new, hn, hw⟩ := h
  exact ⟨by rw [ht]; exact hok, new, by rw [htr, hn], by rw [ht]; exact hw⟩

theorem inv_tempVariable {base : List Event} {w : World} (h : Inv base w) (env : Env)
    (pre : String) : Inv base (tempVariable env w pre).2 := by
  unfold tempVariable newV4
  cases env.newV4 w.uuids <;> exact h

/-- A goroutine is started: its records are empty. -/
theorem inv_push {base : List Event} {w : World} (h : Inv base w) (t : Task)
    (ht : t.Ok) (hz : t.written = 0) : Inv base { w with tasks := w.tasks ++ [t] } := by
  obtain ⟨hok, new, hn, hw⟩ := h
  refine ⟨?_, new, hn, ?_⟩
  · intro x hx
    rcases List.mem_append.mp hx with hx | hx
    · exact hok x hx
    · rw [List.mem_singleton.mp hx]; exact ht
  · intro s
    show _ = writtenOn s (w.tasks ++ [t])
    rw [writtenOn_append, hw s]
    simp [writtenOn, hz]

theorem inv_writeContentChannel {base : List Event} {w : World} (h : Inv base w) (env : Env)
    (shell : Nat) (filePath : String) (appendTo : Bool) :
    Inv base (writeContentChannel env w shell filePath appendTo).2 := by
  unfold writeContentChannel
  have ht := inv_tempVariable h env "stream_"
  cases hv : tempVariable env w "stream_" with
  | mk res w1 =>
    rw [hv] at ht
    simp only at ht
    cases res with
    | error err => exact ht
    | ok v =>
      have hg := inv_execute ht env shell (newStreamWriterCmd v filePath appendTo)
        (written_newStreamWriterCmd v filePath appendTo)
      cases hx : execute env w1 shell (newStreamWriterCmd v filePath appendTo) with
      | mk out w2 =>
        rw [hx] at hg
        simp only at hg
        cases out with
        | submitError err => simp only [hx]; exact hg
        | exit code =>
          simp only [hx]
          split
          · exact hg
          · exact inv_push hg _ rfl rfl

theorem inv_select {base : List Event} {w : World} (h : Inv base w) (env : Env) (i : Nat)
    (content : String) : Inv base (select env w i content).2 := by
  have h1 := inv_awaitTask (inv_yield h env) env i
  unfold select
  simp only
  cases ht : (awaitTask env (yield env w) i).tasks[i]? with
  | none => exact h1
  | some t =>
    simp only
    cases hs : t.stage with
    | receiving =>
      simp only
      refine inv_modify h1 (Task.accept content) i (fun _ => ⟨rfl, rfl⟩) ?_
      intro x hx hok
      rw [ht] at hx
      simp only [Option.some.injEq] at hx
      subst hx
      unfold Task.Ok Task.pending Task.accept at *
      rw [hs] at hok
      simp only [List.length_append, List.length_singleton] at hok ⊢
      omega
    | blocked err =>
      simp only
      refine inv_modify h1 Task.leave i (fun _ => ⟨rfl, rfl⟩) ?_
      intro x hx hok
      rw [ht] at hx
      simp only [Option.some.injEq] at hx
      subst hx
      unfold Task.Ok Task.pending Task.leave at *
      rw [hs] at hok
      simpa using hok
    | holding c => exact h1
    | closing => exact h1
    | disposing => exact h1
    | removing => exact h1
    | finished => exact h1

theorem inv_closeOut {base : List Event} {w : World} (h : Inv base w) (i : Nat) :
    Inv base (closeOut w i) := by
  refine inv_modify h Task.close i ?_ ?_
  · intro t
    unfold Task.close
    split <;> exact ⟨rfl, rfl⟩
  · intro t _ hok
    unfold Task.Ok Task.pending Task.close at *
    cases hs : t.stage <;> rw [hs] at hok <;> simpa using hok

theorem inv_chunkLoop {base : List Event} (env : Env) (bufLen task : Nat) :
    ∀ (n : Nat) (w : World) (r : Reader), Inv base w →
      Inv base (chunkLoop env bufLen task n w r).2.1
  | 0, w, r, h => by simpa [chunkLoop] using h
  | n + 1, w, r, h => by
    rw [chunkLoop]
    split
    · exact h
    · split
      · exact h
      · have hs := inv_select h env task (encodeToString (r.read bufLen).bytes)
        split
        · rename_i w1 heq
          rw [heq] at hs
          exact inv_chunkLoop env bufLen task n w1 _ hs
        · rename_i err w1 heq
          rw [heq] at hs
          exact hs

theorem inv_uploadChunks {base : List Event} {w : World} (h : Inv base w) (env : Env)
    (filePath : String) (maxChunks : Int) (reader : Reader) :
    Inv base (uploadChunks env w filePath maxChunks reader).2.1 := by
  unfold uploadChunks
  have h1 := inv_createShell h env
  cases hs : createShell env w with
  | mk e w1 =>
    rw [hs] at h1
    cases e with
    | error err => exact h1
    | ok shell =>
      simp only
      split
      · exact inv_closeShell h1 env shell
      · have h2 := inv_writeContentChannel h1 env shell filePath false
        cases hw : writeContentChannel env w1 shell filePath false with
        | mk res w2 =>
          rw [hw] at h2
          cases res with
          | error err => exact inv_closeShell h2 env shell
          | ok task =>
            simp only
            have h3 := inv_chunkLoop env (chunkSize filePath).toNat task
              (if maxChunks = 0 then 1 else maxChunks).toNat w2 reader h2
            cases hl : chunkLoop env (chunkSize filePath).toNat task
                (if maxChunks = 0 then 1 else maxChunks).toNat w2 reader with
            | mk res rest =>
              obtain ⟨w3, reader1⟩ := rest
              rw [hl] at h3
              exact inv_closeShell (inv_closeOut h3 task) env shell

theorem inv_uploadContent {base : List Event} (env : Env) (filePath : String) (maxChunks : Int) :
    ∀ (fuel : Nat) (w : World) (reader : Reader) (out : Outcome (Option GoError)) (w1 : World)
      (r1 : Reader), Inv base w →
      uploadContent env fuel w maxChunks filePath reader = some (out, w1, r1) → Inv base w1
  | 0, w, reader, out, w1, r1, _, h => by simp [uploadContent] at h
  | fuel + 1, w, reader, out, w', r', hi, h => by
    rw [uploadContent_succ_sched] at h
    have h1 := inv_uploadChunks hi env filePath maxChunks reader
    split at h
    · rename_i msg w1 reader1 heq
      rw [heq] at h1
      simp only [Option.some.injEq, Prod.mk.injEq] at h
      rw [← h.2.1]; exact h1
    · rename_i d err w1 reader1 heq
      rw [heq] at h1
      simp only [Option.some.injEq, Prod.mk.injEq] at h
      rw [← h.2.1]; exact h1
    · rename_i w1 reader1 heq
      rw [heq] at h1
      simp only [Option.some.injEq, Prod.mk.injEq] at h
      rw [← h.2.1]; exact h1
    · rename_i w1 reader1 heq
      rw [heq] at h1
      exact inv_uploadContent env filePath maxChunks fuel w1 reader1 out w' r' h1 h

theorem inv_start (w : World) (h : w.tasks = []) : Inv w.trace w := by
  refine ⟨?_, [], by simp, ?_⟩
  · rw [h]
    intro t ht
    cases ht
  · intro s
    rw [h]
    rfl

/-! ### Tasks on distinct shells -/

theorem writtenOn_not_mem (s : Nat) :
    ∀ ts : List Task, s ∉ ts.map (fun t => t.shell) → writtenOn s ts = 0
  | [], _ => rfl
  | t :: ts, h => by
    simp only [List.map_cons, List.mem_cons, not_or] at h
    simp only [writtenOn, if_neg (Ne.symm h.1), writtenOn_not_mem s ts h.2]

theorem writtenOn_of_nodup :
    ∀ ts : List Task, (ts.map (fun t => t.shell)).Nodup →
      ∀ t ∈ ts, writtenOn t.shell ts = t.written
  | [], _, t, ht => by cases ht
  | x :: xs, h, t, ht => by
    simp only [List.map_cons, List.nodup_cons] at h
    rcases List.mem_cons.mp ht with rfl | ht
    · simp only [writtenOn, if_true, writtenOn_not_mem _ xs h.1, Nat.add_zero]
    · have hne : x.shell ≠ t.shell := by
        intro he
        exact h.1 (he ▸ List.mem_map_of_mem (fun t => t.shell) ht)
      simp only [writtenOn, if_neg hne, Nat.zero_add]
      exact writtenOn_of_nodup xs h.2 t ht

/-! ### Goroutines that have taken a step hold no content -/

theorem step_pending (env : Env) (t : Task) : (t.step env).1.pending = 0 := by
  unfold Task.step Task.pending
  cases hs : t.stage with
  | holding content =>
    simp only
    cases executeCommandSync env t.shell t.ran (writeCmd content) with
    | mk err ev =>
      cases err with
      | none => by_cases hc : t.closed = true <;> simp [hc]
      | some e => rfl
  | closing => rfl
  | disposing => rfl
  | removing => rfl
  | receiving => simp [hs]
  | blocked err => simp [hs]
  | finished => simp [hs]

theorem settled_stepTask {S : List Nat} {w : World} (h : Settled S w) (env : Env) (i : Nat) :
    Settled (i :: S) (stepTask env w i) := by
  intro j hj t ht
  rw [stepTask_tasks, getElem?_modifyAt] at ht
  by_cases hij : i = j
  · rw [if_pos hij] at ht
    cases hx : w.tasks[j]? with
    | none => rw [hx] at ht; cases ht
    | some x =>
      rw [hx] at ht
      simp only [Option.map_some', Option.some.injEq] at ht
      rw [← ht]
      exact step_pending env x
  · rw [if_neg hij] at ht
    rcases List.mem_cons.mp hj with rfl | hj
    · exact absurd rfl hij
    · exact h j hj t ht

theorem settled_stepAll (env : Env) :
    ∀ (is S : List Nat) (w : World), Settled S w → ∀ j, j ∈ is ∨ j ∈ S →
      ∀ t, (stepAll env is w).tasks[j]? = some t → t.pending = 0
  | [], S, w, h, j, hj, t, ht => by
    rcases hj with hj | hj
    · cases hj
    · exact h j hj t ht
  | i :: is, S, w, h, j, hj, t, ht => by
    refine settled_stepAll env is (i :: S) _ (settled_stepTask h env i) j ?_ t ht
    rcases hj with hj | hj
    · rcases List.mem_cons.mp hj with rfl | hj
      · exact Or.inr (List.mem_cons_self _ _)
      · exact Or.inl hj
    · exact Or.inr (List.mem_cons_of_mem _ hj)

theorem drain_pending (env : Env) (w : World) : ∀ t ∈ (drain env w).tasks, t.pending = 0 := by
  intro t ht
  obtain ⟨j, hj, hget⟩ := List.getElem_of_mem ht
  have hlen : (drain env w).tasks.length = w.tasks.length := (stepAll_same env _ w).length
  refine settled_stepAll env ((List.range w.tasks.length).flatMap fun i => [i, i, i, i]) [] w
    (fun _ h => by cases h) j (Or.inl ?_) t ?_
  · rw [List.mem_flatMap]
    exact ⟨j, List.mem_range.mpr (by omega), List.mem_cons_self _ _⟩
  · show (drain env w).tasks[j]? = some t
    rw [List.getElem?_eq_getElem hj, hget]

/-! ### Sessions of a source that fills the buffer, under any schedule -/

theorem map_accepted_length (ts : List Task) :
    (ts.map (fun t => t.accepted)).map List.length = ts.map (fun t => t.accepted.length) := by
  rw [List.map_map]
  rfl

/-- Where the tasks are on distinct shells, the write requests on the shell of each
task, with the content it still holds, are the contents it has received. -/
theorem counts_of_inv {base : List Event} {w : World} (h : Inv base w)
    (hn : (w.tasks.map (fun t => t.shell)).Nodup) :
    ∃ new, w.trace = base ++ new ∧
      w.tasks.map (fun t => writesOn t.shell new + t.pending) =
        w.tasks.map (fun t => t.accepted.length) := by
  obtain ⟨hok, new, htr, hw⟩ := h
  refine ⟨new, htr, List.map_congr_left ?_⟩
  intro t ht
  rw [hw t.shell, writtenOn_of_nodup w.tasks hn t ht]
  exact hok t ht

theorem uploadContent_good_sched {env : Env} (henv : env.Good) (filePath : String) (m : Int)
    (hm : 1 ≤ m) (hcs : 0 < chunkSize filePath) :
    ∀ (k : Nat) (r : Reader) (w : World),
      chunksNeeded r.data.length (chunkSize filePath).toNat = k → r.caps = [] → r.fault = none →
      ∃ fuel0, ∀ fuel, fuel0 ≤ fuel → ∃ w1 r1 new,
        uploadContent env fuel w m filePath r = some (Outcome.ret none, w1, r1) ∧
        w1.trace = w.trace ++ new ∧
        openedShells new = List.range' w.shells (k / m.toNat + 1) ∧
        w1.tasks.map (fun t => t.shell) =
          w.tasks.map (fun t => t.shell) ++ List.range' w.shells (k / m.toNat + 1) ∧
        w1.tasks.map (fun t => t.accepted.length) =
          w.tasks.map (fun t => t.accepted.length) ++
            (List.replicate (k / m.toNat) m.toNat ++ [k % m.toNat]) := by
  intro k
  induction k using Nat.strong_induction_on with
  | _ k ih =>
    intro r w hk hc hr
    have hb : 0 < (chunkSize filePath).toNat := by omega
    have hguard : (if m = 0 then 1 else m) = m := by
      rw [if_neg (by omega)]
    have hn : 0 < m.toNat := by omega
    obtain ⟨w1, new1, hu, hsh, hshell, hacc, ht, hop⟩ :=
      uploadChunks_good_sched henv w filePath m r (le_of_lt hcs) hr
    obtain ⟨f1, -, -, -, -⟩ := readN_facts (chunkSize filePath).toNat hb m.toNat r hr
    obtain ⟨g1, g2, g3, g4⟩ := readN_full (chunkSize filePath).toNat hb m.toNat r hc hr
    rw [hguard] at hu hacc
    rw [hk] at g1 g2 g4
    generalize readN (chunkSize filePath).toNat m.toNat r = res at hu hacc f1 g1 g2 g3 g4
    obtain ⟨cs, d, r1⟩ := res
    simp only at hu hacc f1 g1 g2 g3 g4
    have hlens : w1.tasks.map (fun t => t.accepted.length) =
        w.tasks.map (fun t => t.accepted.length) ++ [cs.length] := by
      have h := congrArg (List.map List.length) hacc
      rw [map_accepted_length, List.map_append, map_accepted_length] at h
      simpa using h
    by_cases hlt : k < m.toNat
    · -- the last session: fewer chunks than the budget are left
      have hd : d = true := by rw [g2]; exact decide_eq_true hlt
      subst hd
      refine ⟨1, ?_⟩
      intro fuel hfuel
      obtain ⟨fuel', rfl⟩ : ∃ j, fuel = j + 1 := ⟨fuel - 1, by omega⟩
      refine ⟨w1, r1, new1, ?_, ht, ?_, ?_, ?_⟩
      · rw [uploadContent_succ_sched, hu]
      · rw [hop, Nat.div_eq_of_lt hlt]
        rfl
      · rw [hshell, Nat.div_eq_of_lt hlt]
        rfl
      · rw [hlens, g1, Nat.div_eq_of_lt hlt, Nat.mod_eq_of_lt hlt,
          Nat.min_eq_right (le_of_lt hlt)]
        rfl
    · -- a full session, then the rest
      have hge : m.toNat ≤ k := by omega
      have hd : d = false := by rw [g2]; exact decide_eq_false (by omega)
      subst hd
      rw [Nat.min_eq_left hge] at g1 g4
      obtain ⟨fuel1, run1⟩ := ih (k - m.toNat) (by omega) r1 w1 g4 g3 f1
      refine ⟨fuel1 + 1, ?_⟩
      intro fuel hfuel
      obtain ⟨fuel', rfl⟩ : ∃ j, fuel = j + 1 := ⟨fuel - 1, by omega⟩
      obtain ⟨w2, r2, new, hrun, htr, hopen, hsh2, hlen2⟩ := run1 fuel' (by omega)
      have hdiv : k / m.toNat = (k - m.toNat) / m.toNat + 1 := by
        rw [Nat.div_eq k m.toNat, if_pos ⟨hn, hge⟩]
      have hmod : k % m.toNat = (k - m.toNat) % m.toNat := Nat.mod_eq_sub_mod hge
      have hrange : List.range' w.shells (k / m.toNat + 1) =
          w.shells :: List.range' (w.shells + 1) ((k - m.toNat) / m.toNat + 1) := by
        rw [hdiv, List.range'_succ]
      refine ⟨w2, r2, new1 ++ new, ?_, ?_, ?_, ?_, ?_⟩
      · rw [uploadContent_succ_sched, hu]
        exact hrun
      · rw [htr, ht, List.append_assoc]
      · rw [openedShells_append, hop, hopen, hsh, hrange]
        rfl
      · rw [hsh2, hshell, hsh, hrange, List.append_assoc]
        rfl
      · rw [hlen2, hlens, g1, hdiv, hmod, List.replicate_succ, List.append_assoc]
        rfl

/-- C6: for a session budget `m >= 1` and a source that fills the buffer on every
read and so needs `k = ceil(len / chunkSize)` chunks, with nothing failing and
under every schedule of the goroutines, the upload opens exactly `k / m + 1`
sessions, on the shells numbered from `w.shells`; the goroutines of the first
`k / m` sessions receive `m` chunks each and the last one receives `k mod m`.
The goroutines are not joined: when `uploadContent` returns, the write requests
made on the shell of a session, with the one chunk its goroutine may still hold,
are the chunks of that session; once the goroutines have run, after whatever steps
they take in between, the write requests on the shells of the sessions are `m`
for each of the first `k / m` and `k mod m` for the last. -/
theorem uploadContent_session_counts (env : Env) (w : World) (m : Int) (filePath : String)
    (r : Reader) (henv : env.Good) (hw : w.tasks = []) (hm : 1 ≤ m)
    (hcs : 0 < chunkSize filePath) (hc : r.caps = []) (hr : r.fault = none) :
    ∃ fuel0, ∀ fuel, fuel0 ≤ fuel → ∃ w1 r1 new,
      uploadContent env fuel w m filePath r = some (Outcome.ret none, w1, r1) ∧
      w1.trace = w.trace ++ new ∧
      openedShells new = List.range' w.shells
        (chunksNeeded r.data.length (chunkSize filePath).toNat / m.toNat + 1) ∧
      w1.tasks.map (fun t => t.shell) = List.range' w.shells
        (chunksNeeded r.data.length (chunkSize filePath).toNat / m.toNat + 1) ∧
      w1.tasks.map (fun t => t.accepted.length) =
        List.replicate (chunksNeeded r.data.length (chunkSize filePath).toNat / m.toNat) m.toNat
          ++ [chunksNeeded r.data.length (chunkSize filePath).toNat % m.toNat] ∧
      w1.tasks.map (fun t => writesOn t.shell new + t.pending) =
        List.replicate (chunksNeeded r.data.length (chunkSize filePath).toNat / m.toNat) m.toNat
          ++ [chunksNeeded r.data.length (chunkSize filePath).toNat % m.toNat] ∧
      ∀ steps, ∃ later,
        (drain env (stepAll env steps w1)).trace = w.trace ++ (new ++ later) ∧
        openedShells later = [] ∧
        sessionWrites w.shells
            (chunksNeeded r.data.length (chunkSize filePath).toNat / m.toNat + 1) (new ++ later) =
          List.replicate (chunksNeeded r.data.length (chunkSize filePath).toNat / m.toNat) m.toNat
            ++ [chunksNeeded r.data.length (chunkSize filePath).toNat % m.toNat] := by
  obtain ⟨fuel0, run⟩ := uploadContent_good_sched henv filePath m hm hcs _ r w rfl hc hr
  refine ⟨fuel0, ?_⟩
  intro fuel hfuel
  obtain ⟨w1, r1, new, hrun, htr, hopen, hshell, hlens⟩ := run fuel hfuel
  rw [hw] at hshell hlens
  simp only [List.map_nil, List.nil_append] at hshell hlens
  have hinv : Inv w.trace w1 :=
    inv_uploadContent env filePath m fuel w r _ w1 r1 (inv_start w hw) hrun
  have hnd : (w1.tasks.map (fun t => t.shell)).Nodup := by
    rw [hshell]
    exact List.nodup_range' _ _
  refine ⟨w1, r1, new, hrun, htr, hopen, hshell, hlens, ?_, ?_⟩
  · obtain ⟨new0, h0, hc0⟩ := counts_of_inv hinv hnd
    have : new0 = new := List.append_cancel_left (h0.symm.trans htr)
    rw [← this, hc0, hlens]
  · intro steps
    have hsame : Same w1 (drain env (stepAll env steps w1)) :=
      same_trans (stepAll_same env steps w1) (stepAll_same env _ _)
    have hinv2 : Inv w.trace (drain env (stepAll env steps w1)) :=
      inv_stepAll env _ _ (inv_stepAll env steps w1 hinv)
    have hgrow : Grows (fun e => e.isTask = true) w1.trace
        (drain env (stepAll env steps w1)).trace :=
      grows_trans (stepAll_grows (fun _ h => h) env steps w1)
        (stepAll_grows (fun _ h => h) env _ _)
    obtain ⟨later, hlater, htask⟩ := hgrow
    obtain ⟨new2, h2, hc2⟩ := counts_of_inv hinv2 (by rw [hsame.shell]; exact hnd)
    have hcat : w.trace ++ new2 = w.trace ++ (new ++ later) := by
      rw [← h2, hlater, htr, List.append_assoc]
    have hnew2 : new2 = new ++ later := List.append_cancel_left hcat
    have hpend := drain_pending env (stepAll env steps w1)
    refine ⟨later, by rw [hlater, htr, List.append_assoc], ?_, ?_⟩
    · exact openedShells_of_not_open later (fun e he => Or.inl (htask e he))
    · have hl2 : (drain env (stepAll env steps w1)).tasks.map (fun t => t.accepted.length) =
          w1.tasks.map (fun t => t.accepted.length) := by
        rw [← map_accepted_length, hsame.accepted, map_accepted_length]
      rw [← hlens, ← hl2, ← hc2, ← hnew2]
      unfold sessionWrites
      rw [← hshell, ← hsame.shell, List.map_map]
      refine List.map_congr_left ?_
      intro t ht
      simp only [Function.comp, hpend t ht, Nat.add_zero]

theorem okEnv_good_sched (schedule : Nat → List Nat) : (okEnv schedule).Good :=
  ⟨fun _ => rfl, fun _ _ => rfl, fun _ => ⟨_, rfl⟩⟩

theorem uploadContent_session_counts_witness :
    (okEnv idle).Good ∧ ({} : World).tasks = [] ∧ (1 : Int) ≤ 2 ∧
    0 < chunkSize "%TEMP%\\winrmcp-123e4567-e89b-42d3-a456-426614174000.tmp" ∧
    chunksNeeded (bytesReader (List.replicate 25000 0)).data.length
      (chunkSize "%TEMP%\\winrmcp-123e4567-e89b-42d3-a456-426614174000.tmp").toNat = 5 ∧
    ∃ fuel0, ∀ fuel, fuel0 ≤ fuel → ∃ w1 r1 new,
      uploadContent (okEnv idle) fuel {} 2
        "%TEMP%\\winrmcp-123e4567-e89b-42d3-a456-426614174000.tmp"
        (bytesReader (List.replicate 25000 0)) = some (Outcome.ret none, w1, r1) ∧
      w1.trace = ({} : World).trace ++ new ∧
      openedShells new = [0, 1, 2] ∧
      w1.tasks.map (fun t => t.shell) = [0, 1, 2] ∧
      w1.tasks.map (fun t => t.accepted.length) = [2, 2, 1] ∧
      w1.tasks.map (fun t => writesOn t.shell new + t.pending) = [2, 2, 1] ∧
      ∀ steps, ∃ later,
        (drain (okEnv idle) (stepAll (okEnv idle) steps w1)).trace =
          ({} : World).trace ++ (new ++ later) ∧
        openedShells later = [] ∧
        sessionWrites 0 3 (new ++ later) = [2, 2, 1] := by
  have hk : chunksNeeded (bytesReader (List.replicate 25000 0)).data.length
      (chunkSize "%TEMP%\\winrmcp-123e4567-e89b-42d3-a456-426614174000.tmp").toNat = 5 := by
    rw [chunkSize_tempPath]
    show chunksNeeded (List.replicate 25000 (0 : Byte)).length (5958 : Int).toNat = 5
    rw [List.length_replicate]
    decide
  have h := uploadContent_session_counts (okEnv idle) {} 2
    "%TEMP%\\winrmcp-123e4567-e89b-42d3-a456-426614174000.tmp"
    (bytesReader (List.replicate 25000 0)) (okEnv_good_sched idle) rfl (by decide)
    (by rw [chunkSize_tempPath]; decide) rfl rfl
  rw [hk] at h
  exact ⟨okEnv_good_sched idle, rfl, by decide, by rw [chunkSize_tempPath]; decide, hk, h⟩

/-- When `uploadContent` returns, the last write of a session may not have been
requested: three one-byte reads with a budget of 2 and goroutines that move only
when the producer waits for them.  The goroutines have received 2 and 1 chunks; at
the return the shells have seen 1 and 0 write requests, and 2 and 1 once the
goroutines have run. -/
theorem uploadContent_last_write_outstanding :
    (uploadContent (okEnv idle) 5 {} 2 "%TEMP%\\x" { data := [65, 66, 67], caps := [0, 0, 0] }).map
        (fun x => (x.1, x.2.1.tasks.map (fun t => t.accepted.length),
          sessionWrites 0 2 x.2.1.trace,
          sessionWrites 0 2 (drain (okEnv idle) x.2.1).trace)) =
      some (Outcome.ret none, [2, 1], [1, 0], [2, 1]) := by
  decide

/-- C7: `doCopy` invokes its phases in the order upload, restore, cleanup and stops
at the first failure, whatever the collaborators answer and however the goroutines
are scheduled.  If no temp name is generated nothing is invoked.  Otherwise
`uploadContent` is invoked first, and until it has returned no restore or cleanup
script is requested; if it does not return `nil`, `doCopy` fails in the state the
upload left, so neither restore nor cleanup is invoked.  If it returns `nil`,
`restoreContent` is invoked in the state it left, and until it has returned no
cleanup script is requested; if restore fails, `doCopy` fails in the state restore
left, so cleanup is not invoked.  Only after restore returned `nil` is
`cleanupContent` invoked.  And `doCopy` returns `nil` if and only if temp-name
generation, upload, restore and cleanup all succeed.  The order is that of the
invocations and returns: the goroutines of the upload are not joined, and the
requests they still have to make fall into the later segments of the trace or
after the return of `doCopy`. -/
theorem doCopy_phase_order (env : Env) (fuel : Nat) (w : World) (m : Int) (reader : Reader)
    (toPath : String) (out : Outcome (Option GoError)) (w' : World) (r' : Reader)
    (h : doCopy env fuel w m reader toPath = some (out, w', r')) :
    ((∃ err, (tempFileName env w).1 = Except.error err ∧ out ≠ Outcome.ret none ∧
        w'.trace = w.trace) ∨
     ∃ tempFile w1 up w2 tu,
      tempFileName env w = (Except.ok tempFile, w1) ∧
      uploadContent env fuel w1 m ("%TEMP%\\" ++ tempFile) reader = some (up, w2, r') ∧
      w2.trace = w.trace ++ tu ∧ ranRestore tu = false ∧ ranCleanup tu = false ∧
      ((up ≠ Outcome.ret none ∧ out ≠ Outcome.ret none ∧ w' = w2) ∨
       (up = Outcome.ret none ∧ ∃ re w3 tr,
          restoreContent env w2 ("$env:TEMP\\" ++ tempFile) toPath = (re, w3) ∧
          w3.trace = w2.trace ++ tr ∧ tr ≠ [] ∧ ranCleanup tr = false ∧
          ((re ≠ none ∧ out ≠ Outcome.ret none ∧ w' = w3) ∨
           (re = none ∧ ∃ cl tc,
              cleanupContent env w3 ("$env:TEMP\\" ++ tempFile) = (cl, w') ∧
              w'.trace = w3.trace ++ tc ∧ tc ≠ [] ∧ ranRestore tc = false ∧
              (out = Outcome.ret none ↔ cl = none)))))) ∧
    (out = Outcome.ret none ↔ ∃ tempFile w1 w2 w3,
      tempFileName env w = (Except.ok tempFile, w1) ∧
      uploadContent env fuel w1 m ("%TEMP%\\" ++ tempFile) reader
        = some (Outcome.ret none, w2, r') ∧
      restoreContent env w2 ("$env:TEMP\\" ++ tempFile) toPath = (none, w3) ∧
      cleanupContent env w3 ("$env:TEMP\\" ++ tempFile) = (none, w')) := by
  have hp := doCopy_phases env fuel w m reader toPath out w' r' h
  refine ⟨hp, ?_, ?_⟩
  · intro hout
    rcases hp with ⟨err, -, hne, -⟩ | ⟨tempFile, w1, up, w2, tu, hname, hup, -, -, -, hrest⟩
    · exact absurd hout hne
    · rcases hrest with ⟨-, hne, -⟩ | ⟨hupok, re, w3, tr, hre, -, -, -, hrest2⟩
      · exact absurd hout hne
      · subst hupok
        rcases hrest2 with ⟨-, hne, -⟩ | ⟨hreok, cl, tc, hcl, -, -, -, hiff⟩
        · exact absurd hout hne
        · subst hreok
          have hclok := hiff.mp hout
          subst hclok
          exact ⟨tempFile, w1, w2, w3, hname, hup, hre, hcl⟩
  · rintro ⟨tempFile, w1, w2, w3, hname, hup, hre, hcl⟩
    have := doCopy_all_succeed env fuel w w1 w2 w3 w' m reader r' toPath tempFile hname hup hre hcl
    rw [this] at h
    simp only [Option.some.injEq, Prod.mk.injEq] at h
    exact h.1.symm

theorem doCopy_phase_order_witness :
    ∃ out w' r',
      doCopy (okEnv late) 2 {} 2 (bytesReader [65]) "C:\\dest.bin" = some (out, w', r') ∧
    ((∃ err, (tempFileName (okEnv late) {}).1 = Except.error err ∧ out ≠ Outcome.ret none ∧
        w'.trace = ({} : World).trace) ∨
     ∃ tempFile w1 up w2 tu,
      tempFileName (okEnv late) {} = (Except.ok tempFile, w1) ∧
      uploadContent (okEnv late) 2 w1 2 ("%TEMP%\\" ++ tempFile) (bytesReader [65])
        = some (up, w2, r') ∧
      w2.trace = ({} : World).trace ++ tu ∧ ranRestore tu = false ∧ ranCleanup tu = false ∧
      ((up ≠ Outcome.ret none ∧ out ≠ Outcome.ret none ∧ w' = w2) ∨
       (up = Outcome.ret none ∧ ∃ re w3 tr,
          restoreContent (okEnv late) w2 ("$env:TEMP\\" ++ tempFile) "C:\\dest.bin" = (re, w3) ∧
          w3.trace = w2.trace ++ tr ∧ tr ≠ [] ∧ ranCleanup tr = false ∧
          ((re ≠ none ∧ out ≠ Outcome.ret none ∧ w' = w3) ∨
           (re = none ∧ ∃ cl tc,
              cleanupContent (okEnv late) w3 ("$env:TEMP\\" ++ tempFile) = (cl, w') ∧
              w'.trace = w3.trace ++ tc ∧ tc ≠ [] ∧ ranRestore tc = false ∧
              (out = Outcome.ret none ↔ cl = none)))))) ∧
    (out = Outcome.ret none ↔ ∃ tempFile w1 w2 w3,
      tempFileName (okEnv late) {} = (Except.ok tempFile, w1) ∧
      uploadContent (okEnv late) 2 w1 2 ("%TEMP%\\" ++ tempFile) (bytesReader [65])
        = some (Outcome.ret none, w2, r') ∧
      restoreContent (okEnv late) w2 ("$env:TEMP\\" ++ tempFile) "C:\\dest.bin" = (none, w3) ∧
      cleanupContent (okEnv late) w3 ("$env:TEMP\\" ++ tempFile) = (none, w')) := by
  have hsome :
      (doCopy (okEnv late) 2 {} 2 (bytesReader [65]) "C:\\dest.bin").isSome = true := by
    decide
  obtain ⟨res, hres⟩ := Option.isSome_iff_exists.mp hsome
  obtain ⟨out, w', r'⟩ := res
  exact ⟨out, w', r', hres,
    doCopy_phase_order (okEnv late) 2 {} 2 (bytesReader [65]) "C:\\dest.bin" out w' r' hres⟩

/-- The requests of the upload's goroutine may follow the restore script: with the
goroutine of the one session scheduled at the `shell.Close()` of `restoreContent`,
the write of the chunk and the `Close` of the stream are requested after the
script that reads the temp file. -/
theorem doCopy_write_after_restore_script :
    (doCopy (okEnv late) 2 {} 2 (bytesReader [65]) "C:\\dest.bin").map
        (fun x => (x.1, (x.2.1.trace.drop 4).take 3)) =
      some (Outcome.ret none,
        [Event.execute 1
           (Command.restoreScript "$env:TEMP\\winrmcp-123e4567-e89b-42d3-a456-426614174000.tmp"
             "C:\\dest.bin") (ExecOutcome.exit 0),
         Event.execute 0 (writeCmd "QQ==") (ExecOutcome.exit 0),
         Event.execute 0 (closeCmd "stream_123e4567e89b42d3a456426614174000")
           (ExecOutcome.exit 0)]) := by
  decide

/-- The requests of the upload's goroutine may follow the return of `doCopy`: with
goroutines that move only when the producer waits for them, `doCopy` returns `nil`
with no write requested; the goroutine has received the chunk and requests its
write afterwards. -/
theorem doCopy_write_after_return :
    (doCopy (okEnv idle) 2 {} 2 (bytesReader [65]) "C:\\dest.bin").map
        (fun x => (x.1, writesOn 0 x.2.1.trace, x.2.1.tasks.map (fun t => t.accepted),
          writesOn 0 (drain (okEnv idle) x.2.1).trace)) =
      some (Outcome.ret none, 0, [["QQ=="]], 1) := by
  decide

/-- The sequential reading of the first part is one schedule of this one: when every
goroutine runs as far as it can at every scheduling point, the requests are those
of the sequential `doCopy`, in the same order. -/
theorem doCopy_eager_is_sequential :
    (doCopy (okEnv eager) 1 {} 2 (bytesReader [65]) "C:\\dest.bin").map
        (fun x => (x.1, x.2.1.trace.map Event.erase)) =
      (Winrmcp.doCopy Winrmcp.okEnv 1 {} 2 (bytesReader [65]) "C:\\dest.bin").map
        (fun x => (x.1, x.2.1.trace)) := by
  decide

end Sched

end Winrmcp
